import Mathlib

/-!
# The TLB cache and the process queues of the OS simulator
(`cpu-tlbcache.c`, `cpu-tlb.c`, `queue.c`, `sched.c`)

A shallow embedding of the set-associative TLB cache, of the page-fault path that
fills it, of the CPU-facing `tlbread`, `tlbwrite` and `tlbfree_data`, of the priority
queue of processes and of the selection among the multi-level queues, followed by
theorems about them. The global mutex serialises the
calls, so each function is embedded as a sequential function of the state it reads and
writes; the `printf` calls are left out.

Conventions of the embedding:

* a C `int` is an `Int`; a conversion to `uint32_t` is written `% 4294967296`;
* a `BYTE` is its bit pattern, a `Fin 256`;
* memory reached through `mp->storage` is a function from (signed) byte offsets,
  relative to the `storage` pointer, to bytes; the device itself is the offsets
  `0 .. maxsz - 1`;
* a local byte array is a function from indices to bytes; the contents a local
  array has before it is first written are an explicit argument;
* `encode_int`/`decode_int` are `memcpy` of a `uint32_t`, taken little-endian.
* a function that can dereference NULL, store past the end of an array or loop for ever
  returns an `Option`, and `none` stands for those outcomes.
-/

namespace TLB

/-- One byte, as its bit pattern. -/
abbrev BYTE := Fin 256

/-- Truncation of an unsigned value to one byte (`*value = entry_pfn`). -/
def toBYTE (n : Nat) : BYTE := ⟨n % 256, Nat.mod_lt n (by decide)⟩

/-- The constants and the one typedef of `mm.h` that the cache code uses; `mm.h` is
not among the sources, so they are parameters of the embedding. `BYTE_signed` says
whether `BYTE` is a signed character type. -/
structure Config where
  NUM_SETS : Nat
  ENTRIES_PER_SET : Nat
  ENTRY_SIZE : Nat
  PID_OFFSET : Nat
  VPN_OFFSET : Nat
  PFN_OFFSET : Nat
  VALID_OFFSET : Nat
  BYTE_signed : Bool

/-- What the cache code takes for granted about the constants: at least one set and one
slot per set, the three 4-byte fields and the validity byte lie inside a record and do
not overlap, and the size of the whole table fits an `int`. -/
def Config.WF (cfg : Config) : Prop :=
  0 < cfg.NUM_SETS ∧
  cfg.PID_OFFSET + 4 ≤ cfg.ENTRY_SIZE ∧
  cfg.VPN_OFFSET + 4 ≤ cfg.ENTRY_SIZE ∧
  cfg.PFN_OFFSET + 4 ≤ cfg.ENTRY_SIZE ∧
  cfg.VALID_OFFSET < cfg.ENTRY_SIZE ∧
  (cfg.PID_OFFSET + 4 ≤ cfg.VPN_OFFSET ∨ cfg.VPN_OFFSET + 4 ≤ cfg.PID_OFFSET) ∧
  (cfg.PID_OFFSET + 4 ≤ cfg.PFN_OFFSET ∨ cfg.PFN_OFFSET + 4 ≤ cfg.PID_OFFSET) ∧
  (cfg.VPN_OFFSET + 4 ≤ cfg.PFN_OFFSET ∨ cfg.PFN_OFFSET + 4 ≤ cfg.VPN_OFFSET) ∧
  (cfg.VALID_OFFSET < cfg.PID_OFFSET ∨ cfg.PID_OFFSET + 4 ≤ cfg.VALID_OFFSET) ∧
  (cfg.VALID_OFFSET < cfg.VPN_OFFSET ∨ cfg.VPN_OFFSET + 4 ≤ cfg.VALID_OFFSET) ∧
  (cfg.VALID_OFFSET < cfg.PFN_OFFSET ∨ cfg.PFN_OFFSET + 4 ≤ cfg.VALID_OFFSET) ∧
  cfg.NUM_SETS * cfg.ENTRIES_PER_SET * cfg.ENTRY_SIZE < 2147483648 ∧
  0 < cfg.ENTRIES_PER_SET

instance (cfg : Config) : Decidable cfg.WF := by
  unfold Config.WF; infer_instance

/-- The C struct `memphy_struct`, as far as the cache uses it: `storage` is `none` for a
NULL pointer, and `maxsz` is an `int`. -/
structure memphy_struct where
  storage : Option (Int → BYTE)
  maxsz : Int
  maxsz_int : -2147483648 ≤ maxsz ∧ maxsz < 2147483648

/-- The function `encode_int(dest + off, value)`: the four bytes of a `uint32_t`, low byte first. -/
def encode_int (dest : Nat → BYTE) (off : Nat) (value : Nat) : Nat → BYTE :=
  fun k => if off ≤ k ∧ k < off + 4 then toBYTE (value / 256 ^ (k - off)) else dest k

/-- The function `decode_int(src + off)`. -/
def decode_int (src : Nat → BYTE) (off : Nat) : Nat :=
  (src off).val + 256 * (src (off + 1)).val + 65536 * (src (off + 2)).val
    + 16777216 * (src (off + 3)).val

/-- Conversion of a `BYTE` argument to `uint32_t`: sign extension when `BYTE` is signed. -/
def BYTE_to_uint32 (cfg : Config) (b : BYTE) : Nat :=
  if cfg.BYTE_signed = true ∧ 128 ≤ b.val then b.val + 4294967040 else b.val

/-- The function `calculate_set_index`: C remainder, which takes the sign of `pgnum`. -/
def calculate_set_index (cfg : Config) (pgnum : Int) : Int :=
  Int.tmod pgnum cfg.NUM_SETS

/-- The bound check of `TLBMEMPHY_read`/`TLBMEMPHY_write`, `addr + size > mp->maxsz`,
evaluated in `uint32_t`; `true` when the access is refused. -/
def out_of_range (m : memphy_struct) (addr : Int) (size : Nat) : Prop :=
  (addr + size) % 4294967296 > m.maxsz % 4294967296

instance (m : memphy_struct) (addr : Int) (size : Nat) : Decidable (out_of_range m addr size) := by
  unfold out_of_range; infer_instance

/-- The call `memcpy(value, &storage[addr], size)`. -/
def memcpy_from (st : Int → BYTE) (addr : Int) (value : Nat → BYTE) (size : Nat) : Nat → BYTE :=
  fun k => if k < size then st (addr + k) else value k

/-- The call `memcpy(&storage[addr], data, size)`. -/
def memcpy_to (st : Int → BYTE) (addr : Int) (data : Nat → BYTE) (size : Nat) : Int → BYTE :=
  fun a => if addr ≤ a ∧ a < addr + size then data (a - addr).toNat else st a

/-- The function `TLBMEMPHY_read`: the return code and the contents of `value` afterwards. -/
def TLBMEMPHY_read (mp : Option memphy_struct) (addr : Int) (value : Nat → BYTE) (size : Nat) :
    Int × (Nat → BYTE) :=
  match mp with
  | none => (-1, value)
  | some m =>
    match m.storage with
    | none => (-1, value)
    | some st =>
      if out_of_range m addr size then (-1, value)
      else (0, memcpy_from st addr value size)

/-- The function `TLBMEMPHY_write`: the return code and the device afterwards. -/
def TLBMEMPHY_write (mp : Option memphy_struct) (addr : Int) (data : Nat → BYTE) (size : Nat) :
    Int × Option memphy_struct :=
  match mp with
  | none => (-1, none)
  | some m =>
    match m.storage with
    | none => (-1, some m)
    | some st =>
      if out_of_range m addr size then (-1, some m)
      else (0, some { m with storage := some (memcpy_to st addr data size) })

/-- The test `valid && entry_pid == pid && entry_vpn == pgnum` on the local record
`entry`; the `int` arguments are converted to `uint32_t` by the comparison. -/
def entry_matches (cfg : Config) (entry : Nat → BYTE) (pid pgnum : Int) : Prop :=
  entry cfg.VALID_OFFSET ≠ 0 ∧
  (decode_int entry cfg.PID_OFFSET : Int) = pid % 4294967296 ∧
  (decode_int entry cfg.VPN_OFFSET : Int) = pgnum % 4294967296

instance (cfg : Config) (entry : Nat → BYTE) (pid pgnum : Int) :
    Decidable (entry_matches cfg entry pid pgnum) := by
  unfold entry_matches; infer_instance

/-- The `for` loop of `tlb_cache_read`. The first `Nat` is the number of iterations left
(`ENTRIES_PER_SET - i`), the second is `i`; `entry` is the local record, which a failed
`TLBMEMPHY_read` leaves as it was. Returns the return code and `*value`. -/
def tlb_cache_read_loop (cfg : Config) (mp : Option memphy_struct) (pid pgnum : Int)
    (set_base_addr : Int) : Nat → Nat → (Nat → BYTE) → BYTE → Int × BYTE
  | 0, _, _, value => (-1, value)
  | n + 1, i, entry, value =>
    let entry_addr : Int := set_base_addr + (i : Int) * (cfg.ENTRY_SIZE : Int)
    let entry := (TLBMEMPHY_read mp entry_addr entry cfg.ENTRY_SIZE).2
    let entry_pfn := decode_int entry cfg.PFN_OFFSET
    if entry_matches cfg entry pid pgnum then (0, toBYTE entry_pfn)
    else tlb_cache_read_loop cfg mp pid pgnum set_base_addr n (i + 1) entry value

/-- The function `tlb_cache_read(mp, pid, pgnum, &value)`: the return code (`0` hit, `-1`
miss or unavailable device) and the contents of `value` afterwards. `value` is the
contents before the call (the callers never pass a NULL pointer) and `entry0` the
indeterminate initial contents of the local array `entry`. The code reaches the device
only through `TLBMEMPHY_read`, so there is no device afterwards to return. -/
def tlb_cache_read (cfg : Config) (mp : Option memphy_struct) (pid pgnum : Int) (value : BYTE)
    (entry0 : Nat → BYTE) : Int × BYTE :=
  match mp with
  | none => (-1, value)
  | some m =>
    match m.storage with
    | none => (-1, value)
    | some _ =>
      let set_index := calculate_set_index cfg pgnum
      let set_base_addr : Int := set_index * (cfg.ENTRIES_PER_SET : Int) * (cfg.ENTRY_SIZE : Int)
      tlb_cache_read_loop cfg mp pid pgnum set_base_addr cfg.ENTRIES_PER_SET 0 entry0 value

/-- The `for` loop of `tlb_cache_write` together with the code after it (the case of no
iteration left). Arguments as in `tlb_cache_read_loop`, plus `free_entry_addr`. Returns
the return code and the device afterwards; the results of `TLBMEMPHY_write` are
discarded by the code. -/
def tlb_cache_write_loop (cfg : Config) (mp : Option memphy_struct) (pid pgnum : Int)
    (value : BYTE) (set_base_addr : Int) :
    Nat → Nat → (Nat → BYTE) → Int → Int × Option memphy_struct
  | 0, _, entry, free_entry_addr =>
    if free_entry_addr ≠ -1 then
      let entry := encode_int entry cfg.PID_OFFSET (pid % 4294967296).toNat
      let entry := encode_int entry cfg.VPN_OFFSET (pgnum % 4294967296).toNat
      let entry := encode_int entry cfg.PFN_OFFSET (BYTE_to_uint32 cfg value)
      let entry := Function.update entry cfg.VALID_OFFSET 1
      (0, (TLBMEMPHY_write mp free_entry_addr entry cfg.ENTRY_SIZE).2)
    else (-1, mp)
  | n + 1, i, entry, free_entry_addr =>
    let entry_addr : Int := set_base_addr + (i : Int) * (cfg.ENTRY_SIZE : Int)
    let entry := (TLBMEMPHY_read mp entry_addr entry cfg.ENTRY_SIZE).2
    if entry_matches cfg entry pid pgnum then
      let entry := encode_int entry cfg.PFN_OFFSET (BYTE_to_uint32 cfg value)
      let entry := Function.update entry cfg.VALID_OFFSET 1
      (0, (TLBMEMPHY_write mp entry_addr entry cfg.ENTRY_SIZE).2)
    else if entry cfg.VALID_OFFSET = 0 ∧ free_entry_addr = -1 then
      tlb_cache_write_loop cfg mp pid pgnum value set_base_addr n (i + 1) entry entry_addr
    else
      tlb_cache_write_loop cfg mp pid pgnum value set_base_addr n (i + 1) entry free_entry_addr

/-- The function `tlb_cache_write(mp, pid, pgnum, value)`: the return code (`0` success,
`-1` no space or unavailable device) and the device afterwards. `entry0` is the
indeterminate initial contents of the local array `entry`. -/
def tlb_cache_write (cfg : Config) (mp : Option memphy_struct) (pid pgnum : Int) (value : BYTE)
    (entry0 : Nat → BYTE) : Int × Option memphy_struct :=
  match mp with
  | none => (-1, none)
  | some m =>
    match m.storage with
    | none => (-1, some m)
    | some _ =>
      let set_index := calculate_set_index cfg pgnum
      let set_base_addr : Int := set_index * (cfg.ENTRIES_PER_SET : Int) * (cfg.ENTRY_SIZE : Int)
      tlb_cache_write_loop cfg mp pid pgnum value set_base_addr cfg.ENTRIES_PER_SET 0 entry0 (-1)

/-! ### The page-fault path and `tlbwrite` (`cpu-tlb.c`) -/

/-- Conversion of a `uint32_t` to `int`, as when `page_index` or `proc->pid` is passed for
an `int` parameter. -/
def int_of_uint32 (n : Nat) : Int :=
  if n % 4294967296 < 2147483648 then ((n % 4294967296 : Nat) : Int)
  else ((n % 4294967296 : Nat) : Int) - 4294967296

/-- The frame descriptor that the allocator hands out, as far as the handler reads it. -/
structure framephy_struct where
  fpn : Int

/-- A memory region of the symbol table (`struct vm_rg_struct`): its bounds, which are
`unsigned long`. -/
structure vm_rg_struct where
  rg_start : Nat
  rg_end : Nat

/-- The process control block, as far as the code embedded here uses it: `tlb` is `none`
for a NULL pointer, `pgd` is the page table `proc->mm->pgd`, `regs` the register file,
`symrgtbl` the symbol table `proc->mm->symrgtbl` and `priority` the field that the queue
orders by. -/
structure pcb_t where
  pid : Nat
  tlb : Option memphy_struct
  pgd : Nat → Nat
  regs : Nat → Nat
  symrgtbl : Nat → vm_rg_struct
  priority : Nat

/-- The macros of `mm.h` and the services of the memory manager that `cpu-tlb.c` calls;
none of them is among the sources, so they are parameters of the embedding.
`alloc_pages_range proc n` gives the return code and the frame pointer (`none` for NULL),
`init_pte pte pre fpn drt swp swptyp swpoff` the new value of `*pte`,
`__write proc region destination offset data` the return code and the page table
afterwards, `__read proc region source offset` the return code, the byte read and the
page table afterwards, and `__free proc region reg_index` the return code and the symbol
table afterwards. As the specification has it, they do not touch the cache device, which
the cache owns. -/
structure Extern where
  PAGING_PGN : Nat → Nat
  PAGING_FPN : Nat → Nat
  PAGING_PTE_PRESENT_MASK : Nat
  alloc_pages_range : pcb_t → Int → Int × Option framephy_struct
  init_pte : Nat → Int → Int → Int → Int → Int → Int → Nat
  __write : pcb_t → Int → Nat → Nat → BYTE → Int × (Nat → Nat)
  __read : pcb_t → Int → Nat → Nat → Int × BYTE × (Nat → Nat)
  __free : pcb_t → Int → Nat → Int × (Nat → vm_rg_struct)
  PAGING_MAX_SYMTBL_SZ : Nat

/-- The function `handle_page_fault(proc, virtual_address)`: the return code and the
process afterwards. The results of `tlb_cache_write` are discarded by the code. `entry0`
is the indeterminate initial contents of the local array of `tlb_cache_write`. -/
def handle_page_fault (cfg : Config) (ext : Extern) (proc : pcb_t) (virtual_address : Nat)
    (entry0 : Nat → BYTE) : Int × pcb_t :=
  let page_index : Nat := ext.PAGING_PGN virtual_address % 4294967296
  let pte : Nat := proc.pgd page_index
  if pte &&& ext.PAGING_PTE_PRESENT_MASK ≠ 0 then
    (0, { proc with
      tlb := (tlb_cache_write cfg proc.tlb (int_of_uint32 proc.pid) (int_of_uint32 page_index)
        (toBYTE (ext.PAGING_FPN pte)) entry0).2 })
  else
    let a := ext.alloc_pages_range proc 1
    match a.2 with
    | none => (-1, proc)
    | some frame =>
      if a.1 ≠ 0 then (-1, proc)
      else
        (0, { proc with
          pgd := Function.update proc.pgd page_index (ext.init_pte pte 1 frame.fpn 1 0 0 0)
          tlb := (tlb_cache_write cfg proc.tlb (int_of_uint32 proc.pid)
            (int_of_uint32 page_index) (toBYTE (frame.fpn % 256).toNat) entry0).2 })

/-- The test `frmnum >= 0` on a `BYTE`: always true when `BYTE` is unsigned. -/
def BYTE_nonneg (cfg : Config) (b : BYTE) : Prop :=
  cfg.BYTE_signed = true → b.val < 128

instance (cfg : Config) (b : BYTE) : Decidable (BYTE_nonneg cfg b) := by
  unfold BYTE_nonneg; infer_instance

/-- The end of `tlbwrite`, from `if (frmnum >= 0)` on: the byte write, then the update of
the cache, which is done only when the write returned `0`. -/
def tlbwrite_transfer (cfg : Config) (ext : Extern) (proc : pcb_t) (data : BYTE)
    (destination offset page_number : Nat) (frmnum : BYTE) (entry3 : Nat → BYTE) :
    Int × pcb_t :=
  if BYTE_nonneg cfg frmnum then
    let w := ext.__write proc 0 destination offset data
    if w.1 = 0 then
      (w.1, { proc with
        pgd := w.2
        tlb := (tlb_cache_write cfg proc.tlb (int_of_uint32 proc.pid)
          (int_of_uint32 page_number) frmnum entry3).2 })
    else (w.1, { proc with pgd := w.2 })
  else (-1, proc)

/-- The function `tlbwrite(proc, data, destination, offset)`, for a non-NULL `proc`: the
return code and the process afterwards. `entry0` to `entry3` are the indeterminate
initial contents of the local arrays of the four cache calls; `frmnum` starts as
`(BYTE) -1`. -/
def tlbwrite (cfg : Config) (ext : Extern) (proc : pcb_t) (data : BYTE)
    (destination offset : Nat) (entry0 entry1 entry2 entry3 : Nat → BYTE) : Int × pcb_t :=
  match proc.tlb with
  | none => (-1, proc)
  | some _ =>
    let frmnum : BYTE := 255
    let virtual_address : Nat := (proc.regs destination + offset) % 4294967296
    let page_number : Nat := ext.PAGING_PGN virtual_address % 4294967296
    let r1 := tlb_cache_read cfg proc.tlb (int_of_uint32 proc.pid) (int_of_uint32 page_number)
      frmnum entry0
    if r1.1 ≠ 0 then
      let h := handle_page_fault cfg ext proc virtual_address entry1
      if h.1 ≠ 0 then (-1, h.2)
      else
        let r2 := tlb_cache_read cfg h.2.tlb (int_of_uint32 h.2.pid) (int_of_uint32 page_number)
          r1.2 entry2
        if r2.1 ≠ 0 then (-1, h.2)
        else tlbwrite_transfer cfg ext h.2 data destination offset page_number r2.2 entry3
    else tlbwrite_transfer cfg ext proc data destination offset page_number r1.2 entry3

/-- The byte at offset `a` of a device, when the device is available. -/
def byte_of (mp : Option memphy_struct) (a : Int) : Option BYTE :=
  mp.bind (fun m => m.storage.map (fun st => st a))

/-- The end of `tlbread`, from `if (frmnum >= 0)` on: the byte read and the store of the
byte, widened to `uint32_t`, into `*destination`. Returns the return code, the process
and `*destination` afterwards. -/
def tlbread_transfer (cfg : Config) (ext : Extern) (proc : pcb_t) (source offset : Nat)
    (frmnum : BYTE) (destination : Nat) : Int × pcb_t × Nat :=
  if BYTE_nonneg cfg frmnum then
    let r := ext.__read proc 0 source offset
    if r.1 ≠ 0 then (r.1, { proc with pgd := r.2.2 }, destination)
    else (r.1, { proc with pgd := r.2.2 }, BYTE_to_uint32 cfg r.2.1)
  else (-1, proc, destination)

/-- The function `tlbread(proc, source, offset, destination)`, for a non-NULL `proc`:
the return code, the process and `*destination` afterwards; `destination` is
`*destination` before the call, which the code also uses as the index of the register
that holds the base address. `entry0` to `entry2` are the indeterminate initial contents
of the local arrays of the three cache calls. -/
def tlbread (cfg : Config) (ext : Extern) (proc : pcb_t) (source offset destination : Nat)
    (entry0 entry1 entry2 : Nat → BYTE) : Int × pcb_t × Nat :=
  match proc.tlb with
  | none => (-1, proc, destination)
  | some _ =>
    let frmnum : BYTE := 255
    let virtual_address : Nat := (proc.regs destination + offset) % 4294967296
    let page_number : Nat := ext.PAGING_PGN virtual_address % 4294967296
    let r1 := tlb_cache_read cfg proc.tlb (int_of_uint32 proc.pid) (int_of_uint32 page_number)
      frmnum entry0
    if r1.1 ≠ 0 then
      let h := handle_page_fault cfg ext proc virtual_address entry1
      if h.1 ≠ 0 then (-1, h.2, destination)
      else
        let r2 := tlb_cache_read cfg h.2.tlb (int_of_uint32 h.2.pid) (int_of_uint32 page_number)
          r1.2 entry2
        if r2.1 ≠ 0 then (-1, h.2, destination)
        else tlbread_transfer cfg ext h.2 source offset r2.2 destination
    else tlbread_transfer cfg ext proc source offset r1.2 destination

/-- The `for` loop of `tlbfree_data`: one `tlb_cache_write` with the frame number `0x00`
for each page number. The first `Nat` is the number of iterations left
(`end_page + 1 - page_number`), the second is `page_number`; `entry0 page_number` is the
indeterminate initial contents of the local array of the call for that page. -/
def tlbfree_loop (cfg : Config) (pid : Int) (entry0 : Nat → Nat → BYTE) :
    Nat → Nat → Option memphy_struct → Option memphy_struct
  | 0, _, mp => mp
  | n + 1, page_number, mp =>
    tlbfree_loop cfg pid entry0 n (page_number + 1)
      (tlb_cache_write cfg mp pid (int_of_uint32 page_number) 0 (entry0 page_number)).2

/-- The function `tlbfree_data(proc, reg_index)`, for a non-NULL `proc` with a non-NULL
`proc->mm`: the return code and the process afterwards. `rg_end - 1` is computed in
`unsigned long` (64 bits). The result is `none` when the call does not return: with
`end_page` equal to `UINT32_MAX` the test `page_number <= end_page` of the loop never
fails. -/
def tlbfree_data (cfg : Config) (ext : Extern) (proc : pcb_t) (reg_index : Nat)
    (entry0 : Nat → Nat → BYTE) : Option (Int × pcb_t) :=
  if reg_index ≥ ext.PAGING_MAX_SYMTBL_SZ then some (-1, proc)
  else
    let region := proc.symrgtbl reg_index
    if region.rg_start = 0 ∧ region.rg_end = 0 then some (-1, proc)
    else
      let start_page : Nat := ext.PAGING_PGN region.rg_start % 4294967296
      let end_page : Nat :=
        ext.PAGING_PGN ((region.rg_end + 18446744073709551615) % 18446744073709551616)
          % 4294967296
      if end_page = 4294967295 then none
      else
        let tlb := tlbfree_loop cfg (int_of_uint32 proc.pid) entry0 (end_page + 1 - start_page)
          start_page proc.tlb
        let f := ext.__free { proc with tlb := tlb } 0 reg_index
        some (f.1, { proc with tlb := tlb, symrgtbl := f.2 })

/-! ### The process queue (`queue.c`) -/

/-- The C struct `queue_t`: the array `proc` of process pointers (`none` for NULL) and the
number `size` of processes in it, a C `int` that the code keeps non-negative. The struct
is declared in `queue.h`, which is not among the sources: the number of entries of the
array is the parameter `MAX_QUEUE_SIZE` of `enqueue`, and the entries of `proc` at
`MAX_QUEUE_SIZE` and beyond are not part of the array. A process pointer is embedded as
the process it points to. -/
structure queue_t where
  proc : Nat → Option pcb_t
  size : Nat

/-- The function `empty(q)`, for a non-NULL `q`. -/
def empty (q : queue_t) : Bool := q.size = 0

/-- The inner loop of `enqueue`, `for (j = q->size - 1; j >= i; --j) proc[j + 1] = proc[j]`.
The `Nat` argument is the number of iterations left, `j + 1 - i`. -/
def enqueue_shift (i : Nat) : Nat → (Nat → Option pcb_t) → (Nat → Option pcb_t)
  | 0, a => a
  | n + 1, a => enqueue_shift i n (Function.update a (i + n + 1) (a (i + n)))

/-- The outer loop of `enqueue` together with the code after it (the case of no iteration
left). The first `Nat` is the number of iterations left (`q->size - i`), the second is
`i`. The result is `none` when the code dereferences a NULL pointer of the array. -/
def enqueue_loop (q : queue_t) (proc : pcb_t) : Nat → Nat → Option queue_t
  | 0, _ => some { proc := Function.update q.proc q.size (some proc), size := q.size + 1 }
  | n + 1, i =>
    match q.proc i with
    | none => none
    | some x =>
      if x.priority ≤ proc.priority then
        some { proc := Function.update (enqueue_shift i (n + 1) q.proc) i (some proc),
               size := q.size + 1 }
      else enqueue_loop q proc n (i + 1)

/-- The function `enqueue(q, proc)`, for non-NULL `q` and `proc`: the queue afterwards.
The code never compares `q->size` with the number of entries of the array, and each of
its paths stores to `q->proc[q->size]` (in the first step of the shift, or in the store
after the loop): on a queue that fills its array the call writes past the end of the
array, and the result is `none`, as it is for a NULL dereference. -/
def enqueue (MAX_QUEUE_SIZE : Nat) (q : queue_t) (proc : pcb_t) : Option queue_t :=
  if q.size < MAX_QUEUE_SIZE then enqueue_loop q proc q.size 0 else none

/-- The loop of `dequeue`, `for (i = 0; i < q->size - 1; i++) proc[i] = proc[i + 1]`. The
first `Nat` is the number of iterations left, the second is `i`. -/
def dequeue_shift : Nat → Nat → (Nat → Option pcb_t) → (Nat → Option pcb_t)
  | 0, _, a => a
  | n + 1, i, a => dequeue_shift n (i + 1) (Function.update a i (a (i + 1)))

/-- The function `dequeue(q)`, for a non-NULL `q`: the pointer returned and the queue
afterwards. It reads and writes the entries below `q->size` only. -/
def dequeue (q : queue_t) : Option pcb_t × queue_t :=
  if empty q = true then (none, q)
  else
    (q.proc 0,
      { proc := Function.update (dequeue_shift (q.size - 1) 0 q.proc) (q.size - 1) none,
        size := q.size - 1 })

/-! ### The multi-level queue (`sched.c`, with `MLQ_SCHED`) -/

/-- The variables of `sched.c` that `get_mlq_proc` uses: the array `mlq_ready_queue`, the
array `slot`, and the `static int prio` of `get_mlq_proc`, which keeps its value from one
call to the next. The number `MAX_PRIO` of entries of the two arrays is in `sched.h`,
which is not among the sources: it is a parameter of `get_mlq_proc`. -/
structure sched_state where
  mlq_ready_queue : Nat → queue_t
  slot : Nat → Int
  prio : Nat

/-- The outcome of a call of `get_mlq_proc`: the pointer returned, the variables
afterwards, and the priority levels whose queue the loop has tested, in the order of the
tests (the last of these is not a variable of the code; it is kept to say how often a
level is visited). -/
structure mlq_result where
  proc : Option pcb_t
  state : sched_state
  visited : List Nat

/-- The `do ... while (i != prio)` loop of `get_mlq_proc` and the assignment `prio = i`
after it. The first `Nat` bounds the number of iterations that are run, and the result is
`none` when the loop has not ended within it; the second `Nat` is `i`. The `continue` of
the first branch goes to the test `i != prio`; the `break` of the second leaves the loop.
The decrement of `slot[i]` is taken in the integers: from `init_scheduler` on the code
keeps `slot[i]` between 1 and `MAX_PRIO - i`. -/
def get_mlq_proc_loop ( MAX_PRIO prio : Nat) :
    Nat → Nat → (Nat → queue_t) → (Nat → Int) → List Nat → Option mlq_result
  | 0, _, _, _, _ => none
  | n + 1, i, queues, slot, visited =>
    if empty (queues i) = true then
      if (i + 1) % MAX_PRIO ≠ prio then
        get_mlq_proc_loop MAX_PRIO prio n ((i + 1) % MAX_PRIO) queues
          (Function.update slot i (( MAX_PRIO : Int) - i)) (visited ++ [i])
      else
        some { proc := none,
               state := { mlq_ready_queue := queues,
                          slot := Function.update slot i (( MAX_PRIO : Int) - i),
                          prio := (i + 1) % MAX_PRIO },
               visited := visited ++ [i] }
    else
      some { proc := (dequeue (queues i)).1,
             state := { mlq_ready_queue := Function.update queues i (dequeue (queues i)).2,
                        slot :=
                          if slot i - 1 ≤ 0 then Function.update slot i (( MAX_PRIO : Int) - i)
                          else Function.update slot i (slot i - 1),
                        prio := i },
             visited := visited ++ [i] }

/-- The function `get_mlq_proc()`, run for at most `fuel` iterations of its loop. -/
def get_mlq_proc ( MAX_PRIO fuel : Nat) (s : sched_state) : Option mlq_result :=
  get_mlq_proc_loop MAX_PRIO s.prio fuel s.prio s.mlq_ready_queue s.slot []

/-! ### A concrete configuration, for evaluation -/

/-- Four sets of two 13-byte records: `pid` at 0, `vpn` at 4, `pfn` at 8, `valid` at 12. -/
def cfg42 : Config :=
  { NUM_SETS := 4, ENTRIES_PER_SET := 2, ENTRY_SIZE := 13, PID_OFFSET := 0, VPN_OFFSET := 4,
    PFN_OFFSET := 8, VALID_OFFSET := 12, BYTE_signed := true }

/-- A device of `n` bytes, all zero (so every record is invalid). -/
def zero_device (n : Nat) (h : (n : Int) < 2147483648) : memphy_struct :=
  { storage := some (fun _ => 0), maxsz := n, maxsz_int := ⟨by omega, h⟩ }

/-- The local array `entry` holding zero bytes. -/
def zero_entry : Nat → BYTE := fun _ => 0

/-- A device of 104 bytes, all zero: the whole table of `cfg42`, every record invalid. -/
def dev104 : memphy_struct := zero_device 104 (by decide)

/-- A device of 64 bytes, all zero: too small for the last set of `cfg42`, which occupies
the bytes 78 to 103. -/
def dev64 : memphy_struct := zero_device 64 (by decide)

/-- The bytes of a 104-byte device of `cfg42` whose set 1 is full: slot 0 holds
`(pid 1, vpn 5, frame 10)` and slot 1 holds `(pid 2, vpn 9, frame 20)`. -/
def full_bytes : Int → BYTE :=
  memcpy_to
    (memcpy_to (fun _ => 0) 26
      (Function.update (encode_int (encode_int (encode_int zero_entry 0 1) 4 5) 8 10) 12 1) 13)
    39 (Function.update (encode_int (encode_int (encode_int zero_entry 0 2) 4 9) 8 20) 12 1) 13

/-- The device with the bytes `full_bytes`. -/
def dev_full : memphy_struct :=
  { storage := some full_bytes, maxsz := 104, maxsz_int := by decide }

/-- The bytes of a 104-byte device of `cfg42` whose set 1 holds, in slot 0, the valid
record `(pid 1, vpn 5)` with the frame-number field 300. -/
def pfn300_bytes : Int → BYTE :=
  memcpy_to (fun _ => 0) 26
    (Function.update (encode_int (encode_int (encode_int zero_entry 0 1) 4 5) 8 300) 12 1) 13

/-- The device with the bytes `pfn300_bytes`. -/
def dev_pfn300 : memphy_struct :=
  { storage := some pfn300_bytes, maxsz := 104, maxsz_int := by decide }

/-- The bytes of a 104-byte device of `cfg42` whose set 1 holds, in slot 0, the valid
record `(pid 1, vpn 5)` with the frame-number field 200 and the validity byte 1. -/
def pfn200_bytes : Int → BYTE :=
  memcpy_to (fun _ => 0) 26
    (Function.update (encode_int (encode_int (encode_int zero_entry 0 1) 4 5) 8 200) 12 1) 13

/-- The device with the bytes `pfn200_bytes`. -/
def dev_pfn200 : memphy_struct :=
  { storage := some pfn200_bytes, maxsz := 104, maxsz_int := by decide }

/-- The bytes of a 104-byte device of `cfg42` whose set 1 holds, in slot 0, the record
`(pid 1, vpn 5)` with the frame-number field 10 and the validity byte 2. -/
def valid2_bytes : Int → BYTE :=
  memcpy_to (fun _ => 0) 26
    (Function.update (encode_int (encode_int (encode_int zero_entry 0 1) 4 5) 8 10) 12 2) 13

/-- The device with the bytes `valid2_bytes`. -/
def dev_valid2 : memphy_struct :=
  { storage := some valid2_bytes, maxsz := 104, maxsz_int := by decide }

/-- Contents of the local array `entry` that look like the valid record
`(pid 1, vpn 7, frame 10)`, as an earlier call for that key leaves them on the stack. -/
def stale_entry : Nat → BYTE :=
  Function.update (encode_int (encode_int (encode_int zero_entry 0 1) 4 7) 8 10) 12 1

/-- Values of the macros as in the usual `mm.h` of this simulator: 256-byte pages, a
14-bit page number, a 13-bit frame number in the low bits of a page-table entry and the
present flag in bit 31. The allocator hands out frame 7, the byte write and the byte
read fail, and the release of a region succeeds. -/
def ext0 : Extern :=
  { PAGING_PGN := fun va => (va / 256) % 16384
    PAGING_FPN := fun pte => pte % 8192
    PAGING_PTE_PRESENT_MASK := 2147483648
    alloc_pages_range := fun _ _ => (0, some { fpn := 7 })
    init_pte := fun _ _ fpn _ _ _ _ => 2147483648 + (fpn % 8192).toNat
    __write := fun proc _ _ _ _ => (-1, proc.pgd)
    __read := fun proc _ _ _ => (-1, 0, proc.pgd)
    __free := fun proc _ _ => (0, proc.symrgtbl)
    PAGING_MAX_SYMTBL_SZ := 30 }

/-- Process 1 with the cache `dev_full` and page 13 present in frame 30. -/
def proc_full : pcb_t :=
  { pid := 1, tlb := some dev_full, pgd := fun n => if n = 13 then 2147483678 else 0,
    regs := fun _ => 0, symrgtbl := fun _ => { rg_start := 0, rg_end := 0 }, priority := 0 }

/-- Process 1 with the zeroed cache `dev104` and page 5 present in frame 300. -/
def proc300 : pcb_t :=
  { pid := 1, tlb := some dev104, pgd := fun n => if n = 5 then 2147483948 else 0,
    regs := fun _ => 0, symrgtbl := fun _ => { rg_start := 0, rg_end := 0 }, priority := 0 }

/-- Process 1 with the zeroed cache `dev104` and page 5 present in frame 10. -/
def proc5 : pcb_t :=
  { pid := 1, tlb := some dev104, pgd := fun n => if n = 5 then 2147483658 else 0,
    regs := fun _ => 0, symrgtbl := fun _ => { rg_start := 0, rg_end := 0 }, priority := 0 }

/-- Process 1 with the zeroed cache `dev104` and an empty page table. -/
def proc_unmapped : pcb_t :=
  { pid := 1, tlb := some dev104, pgd := fun _ => 0, regs := fun _ => 0,
    symrgtbl := fun _ => { rg_start := 0, rg_end := 0 }, priority := 0 }

/-- Process 1 with the cache `dev_full`, which holds `(1, 5)`, and page 5 present in
frame 10. -/
def proc_hit : pcb_t :=
  { pid := 1, tlb := some dev_full, pgd := fun n => if n = 5 then 2147483658 else 0,
    regs := fun _ => 0, symrgtbl := fun _ => { rg_start := 0, rg_end := 0 }, priority := 0 }

/-- The externals `ext0`, but with a byte write and a byte read that succeed. -/
def ext_ok : Extern :=
  { ext0 with
    __write := fun proc _ _ _ _ => (0, proc.pgd)
    __read := fun proc _ _ _ => (0, 65, proc.pgd) }

/-- Process 1 with the zeroed cache `dev104` and region 0 equal to `[1280, 1536)`, which
is page 5. -/
def proc_region : pcb_t :=
  { pid := 1, tlb := some dev104, pgd := fun n => if n = 5 then 2147483658 else 0,
    regs := fun _ => 0,
    symrgtbl := fun n => if n = 0 then { rg_start := 1280, rg_end := 1536 }
      else { rg_start := 0, rg_end := 0 },
    priority := 0 }

/-- Process 1 with the cache `dev_full`, which holds `(1, 5)` with frame 10, and region 0
equal to `[1280, 1536)`, which is page 5. -/
def proc_region_cached : pcb_t :=
  { proc_region with tlb := some dev_full }

/-- Contents of the local array `entry` that look like the valid record
`(pid 2, vpn 3, frame 20)`. -/
def other_entry : Nat → BYTE :=
  Function.update (encode_int (encode_int (encode_int zero_entry 0 2) 4 3) 8 20) 12 1

/-- A process with the given `pid` and `priority` and nothing else. -/
def mk_proc (pid priority : Nat) : pcb_t :=
  { pid := pid, tlb := none, pgd := fun _ => 0, regs := fun _ => 0,
    symrgtbl := fun _ => { rg_start := 0, rg_end := 0 }, priority := priority }

/-- The queue that holds process 2 of priority 3 only. -/
def queue3 : queue_t :=
  { proc := Function.update (fun _ => none) 0 (some (mk_proc 2 3)), size := 1 }

/-- The queue that `enqueue` makes of `queue3` and process 1 of priority 5. -/
def queue53_built : queue_t :=
  { proc := Function.update (enqueue_shift 0 1 queue3.proc) 0 (some (mk_proc 1 5)),
    size := 2 }

/-- The queue that holds process 1 of priority 5 and then process 2 of priority 3. -/
def queue53 : queue_t :=
  { proc := fun n => if n = 0 then some (mk_proc 1 5) else if n = 1 then some (mk_proc 2 3)
      else none,
    size := 2 }

/-- Three priority levels: the queues of levels 0 and 1 are empty, the queue of level 2 is
`queue53`, and the index saved by the last call is 1. -/
def sched3 : sched_state :=
  { mlq_ready_queue := fun n =>
      if n = 2 then queue53 else { proc := fun _ => none, size := 0 },
    slot := fun n => 3 - n,
    prio := 1 }

/-! ### Views of the device used to state the properties -/

/-- Byte offset of slot `i` of the set that starts at `base`. -/
def slot_addr (cfg : Config) (base : Int) (i : Nat) : Int :=
  base + (i : Int) * (cfg.ENTRY_SIZE : Int)

/-- Byte offset of the set selected by `pgnum`, as the code computes it. -/
def set_base (cfg : Config) (pgnum : Int) : Int :=
  calculate_set_index cfg pgnum * (cfg.ENTRIES_PER_SET : Int) * (cfg.ENTRY_SIZE : Int)

/-- The record stored at byte offset `addr`. -/
def entry_at (st : Int → BYTE) (addr : Int) : Nat → BYTE :=
  fun k => st (addr + (k : Int))

/-- The record at `addr` lies inside the device. -/
def in_device (cfg : Config) (m : memphy_struct) (addr : Int) : Prop :=
  0 ≤ addr ∧ addr + (cfg.ENTRY_SIZE : Int) ≤ m.maxsz

instance (cfg : Config) (m : memphy_struct) (addr : Int) : Decidable (in_device cfg m addr) := by
  unfold in_device; infer_instance

/-- The record written back when a matching entry is updated. -/
def upd_entry (cfg : Config) (entry : Nat → BYTE) (value : BYTE) : Nat → BYTE :=
  Function.update (encode_int entry cfg.PFN_OFFSET (BYTE_to_uint32 cfg value)) cfg.VALID_OFFSET 1

/-- The record written into a free slot; `entry` is what the local array held before. -/
def new_entry (cfg : Config) (entry : Nat → BYTE) (pid pgnum : Int) (value : BYTE) : Nat → BYTE :=
  Function.update
    (encode_int
      (encode_int (encode_int entry cfg.PID_OFFSET (pid % 4294967296).toNat)
        cfg.VPN_OFFSET (pgnum % 4294967296).toNat)
      cfg.PFN_OFFSET (BYTE_to_uint32 cfg value))
    cfg.VALID_OFFSET 1

/-- The device `m` with its bytes replaced by `st`. -/
def with_storage (m : memphy_struct) (st : Int → BYTE) : memphy_struct :=
  { m with storage := some st }

/-- The bound check of the device lets an access to the record at `addr` through. -/
def readable (cfg : Config) (m : memphy_struct) (addr : Int) : Prop :=
  ¬ out_of_range m addr cfg.ENTRY_SIZE

instance (cfg : Config) (m : memphy_struct) (addr : Int) : Decidable (readable cfg m addr) := by
  unfold readable; infer_instance

/-- The four ways a call of `tlb_cache_write` on the set at `base` of a device with bytes
`st` can end, `r` being the return code and the device afterwards:
the first matching record is updated; a new record goes to the first invalid slot;
the set is full and nothing changes; or `0` is returned although nothing was written,
which needs the bound check to refuse the first slot of the set. -/
def write_post (cfg : Config) (m : memphy_struct) (st : Int → BYTE) (pid pgnum : Int)
    (value : BYTE) (base : Int) (r : Int × Option memphy_struct) : Prop :=
  (∃ j, j < cfg.ENTRIES_PER_SET ∧ readable cfg m (slot_addr cfg base j) ∧
      entry_matches cfg (entry_at st (slot_addr cfg base j)) pid pgnum ∧
      (∀ k, k < j → readable cfg m (slot_addr cfg base k) →
        ¬ entry_matches cfg (entry_at st (slot_addr cfg base k)) pid pgnum) ∧
      r = (0, some (with_storage m (memcpy_to st (slot_addr cfg base j)
            (upd_entry cfg (entry_at st (slot_addr cfg base j)) value) cfg.ENTRY_SIZE)))) ∨
  (∃ j buf, j < cfg.ENTRIES_PER_SET ∧ readable cfg m (slot_addr cfg base j) ∧
      entry_at st (slot_addr cfg base j) cfg.VALID_OFFSET = 0 ∧
      (∀ k, k < j → readable cfg m (slot_addr cfg base k) →
        entry_at st (slot_addr cfg base k) cfg.VALID_OFFSET ≠ 0) ∧
      (∀ k, k < cfg.ENTRIES_PER_SET → readable cfg m (slot_addr cfg base k) →
        ¬ entry_matches cfg (entry_at st (slot_addr cfg base k)) pid pgnum) ∧
      r = (0, some (with_storage m (memcpy_to st (slot_addr cfg base j)
            (new_entry cfg buf pid pgnum value) cfg.ENTRY_SIZE)))) ∨
  (r = (-1, some m) ∧
      ∀ k, k < cfg.ENTRIES_PER_SET → readable cfg m (slot_addr cfg base k) →
        entry_at st (slot_addr cfg base k) cfg.VALID_OFFSET ≠ 0 ∧
        ¬ entry_matches cfg (entry_at st (slot_addr cfg base k)) pid pgnum) ∨
  (r = (0, some m) ∧ ¬ readable cfg m (slot_addr cfg base 0))

/-- Byte offset of slot `k` of the set that `pgnum` selects. -/
def slot_of (cfg : Config) (pgnum : Int) (k : Nat) : Int :=
  slot_addr cfg (set_base cfg pgnum) k

/-- Slot `k` of the set of `pgnum` is a record of the device, valid, with key `(pid, vpn)`. -/
def slot_has_key (cfg : Config) (m : memphy_struct) (st : Int → BYTE) (pgnum : Int) (k : Nat)
    (pid vpn : Int) : Prop :=
  in_device cfg m (slot_of cfg pgnum k) ∧ entry_matches cfg (entry_at st (slot_of cfg pgnum k)) pid vpn

/-- Slot `k` of the set of `pgnum` is a record of the device and is valid. -/
def slot_valid (cfg : Config) (m : memphy_struct) (st : Int → BYTE) (pgnum : Int) (k : Nat) :
    Prop :=
  in_device cfg m (slot_of cfg pgnum k) ∧ entry_at st (slot_of cfg pgnum k) cfg.VALID_OFFSET ≠ 0

/-- Slot `k` of the set of `pgnum` is a record of the device and is invalid (free). -/
def slot_free (cfg : Config) (m : memphy_struct) (st : Int → BYTE) (pgnum : Int) (k : Nat) :
    Prop :=
  in_device cfg m (slot_of cfg pgnum k) ∧ entry_at st (slot_of cfg pgnum k) cfg.VALID_OFFSET = 0

instance (cfg : Config) (m : memphy_struct) (st : Int → BYTE) (pgnum : Int) (k : Nat)
    (pid vpn : Int) : Decidable (slot_has_key cfg m st pgnum k pid vpn) := by
  unfold slot_has_key; infer_instance

instance (cfg : Config) (m : memphy_struct) (st : Int → BYTE) (pgnum : Int) (k : Nat) :
    Decidable (slot_valid cfg m st pgnum k) := by
  unfold slot_valid; infer_instance

instance (cfg : Config) (m : memphy_struct) (st : Int → BYTE) (pgnum : Int) (k : Nat) :
    Decidable (slot_free cfg m st pgnum k) := by
  unfold slot_free; infer_instance

/-- Number of valid records in the set of `pgnum`. -/
def valid_count (cfg : Config) (m : memphy_struct) (st : Int → BYTE) (pgnum : Int) : Nat :=
  ((List.range cfg.ENTRIES_PER_SET).filter (fun k => decide (slot_valid cfg m st pgnum k))).length

/-- The key-uniqueness invariant of a device: in the set selected by any page number, at
most one slot is a valid record of the device with a given key `(p, v)`. A device that is
not available has no records. -/
def key_unique (cfg : Config) (mp : Option memphy_struct) : Prop :=
  ∀ (m : memphy_struct) (st : Int → BYTE), mp = some m → m.storage = some st →
    ∀ (v0 : Int) (i j : Nat) (p v : Int), i < cfg.ENTRIES_PER_SET → j < cfg.ENTRIES_PER_SET →
      slot_has_key cfg m st v0 i p v → slot_has_key cfg m st v0 j p v → i = j

/-- The devices reached from an available device whose records are all invalid by any
sequence of `tlb_cache_write` calls. -/
inductive reachable (cfg : Config) : Option memphy_struct → Prop
  | init (m : memphy_struct) (st : Int → BYTE) :
      m.storage = some st →
      (∀ (v0 : Int) (k : Nat), k < cfg.ENTRIES_PER_SET → ¬ slot_valid cfg m st v0 k) →
      reachable cfg (some m)
  | insert (mp : Option memphy_struct) (pid pgnum : Int) (value : BYTE) (entry0 : Nat → BYTE) :
      reachable cfg mp → reachable cfg (tlb_cache_write cfg mp pid pgnum value entry0).2

/-- The virtual address that `tlbread` and `tlbwrite` compute from the register `reg` and
`offset`, in `uint32_t`. -/
def access_address (proc : pcb_t) (reg offset : Nat) : Nat :=
  (proc.regs reg + offset) % 4294967296

/-- The page number of that address, as stored in the `uint32_t` `page_number`. -/
def access_page (ext : Extern) (proc : pcb_t) (reg offset : Nat) : Nat :=
  ext.PAGING_PGN (access_address proc reg offset) % 4294967296

/-- The first lookup of `tlbread` and `tlbwrite`, with `frmnum` holding `(BYTE) -1`. -/
def first_lookup (cfg : Config) (ext : Extern) (proc : pcb_t) (reg offset : Nat)
    (entry0 : Nat → BYTE) : Int × BYTE :=
  tlb_cache_read cfg proc.tlb (int_of_uint32 proc.pid)
    (int_of_uint32 (access_page ext proc reg offset)) 255 entry0

/-- The process that the fault handler of `tlbread` and `tlbwrite` leaves. -/
def after_fault (cfg : Config) (ext : Extern) (proc : pcb_t) (reg offset : Nat)
    (entry1 : Nat → BYTE) : Int × pcb_t :=
  handle_page_fault cfg ext proc (access_address proc reg offset) entry1

/-- The second lookup of `tlbread` and `tlbwrite`, made after the fault handler. -/
def second_lookup (cfg : Config) (ext : Extern) (proc : pcb_t) (reg offset : Nat)
    (entry0 entry1 entry2 : Nat → BYTE) : Int × BYTE :=
  tlb_cache_read cfg (after_fault cfg ext proc reg offset entry1).2.tlb
    (int_of_uint32 (after_fault cfg ext proc reg offset entry1).2.pid)
    (int_of_uint32 (access_page ext proc reg offset))
    (first_lookup cfg ext proc reg offset entry0).2 entry2

/-- Two records look the same to a lookup of the key `(pid, vpn)`: both match it or
neither does, and when they match they have the same frame number. -/
def same_for_key (cfg : Config) (pid vpn : Int) (b b' : Nat → BYTE) : Prop :=
  (entry_matches cfg b pid vpn ↔ entry_matches cfg b' pid vpn) ∧
  (entry_matches cfg b pid vpn → decode_int b cfg.PFN_OFFSET = decode_int b' cfg.PFN_OFFSET)

/-- The value is in the range of a C `int`. -/
def is_int (x : Int) : Prop := -2147483648 ≤ x ∧ x < 2147483648

instance (x : Int) : Decidable (is_int x) := by
  unfold is_int; infer_instance

/-- Every valid record of the device has the form in which `tlb_cache_write` stores
records: the validity byte is 1 and the frame-number field is the `uint32_t` value of a
`BYTE`. A device that is not available has no records. -/
def canonical (cfg : Config) (mp : Option memphy_struct) : Prop :=
  ∀ (m : memphy_struct) (st : Int → BYTE), mp = some m → m.storage = some st →
    ∀ (v0 : Int) (k : Nat), k < cfg.ENTRIES_PER_SET → slot_valid cfg m st v0 k →
      entry_at st (slot_of cfg v0 k) cfg.VALID_OFFSET = 1 ∧
      decode_int (entry_at st (slot_of cfg v0 k)) cfg.PFN_OFFSET
        = BYTE_to_uint32 cfg (toBYTE (decode_int (entry_at st (slot_of cfg v0 k)) cfg.PFN_OFFSET))

/-- The `n` entries of the array `a` from index `i` on, in order. -/
def arr_list (a : Nat → Option pcb_t) : Nat → Nat → List (Option pcb_t)
  | _, 0 => []
  | i, n + 1 => a i :: arr_list a (i + 1) n

/-- The contents of the queue: the first `size` entries of its array, in order. -/
def queue_list (q : queue_t) : List (Option pcb_t) :=
  arr_list q.proc 0 q.size

/-- The processes of the list are in non-increasing order of their `priority` field. -/
def prio_sorted (l : List pcb_t) : Prop :=
  l.Pairwise (fun a b => b.priority ≤ a.priority)

/-- The queues built from an empty queue by calls of `enqueue` and `dequeue`. -/
inductive queue_reachable (MAX_QUEUE_SIZE : Nat) : queue_t → Prop
  | init (a : Nat → Option pcb_t) : queue_reachable MAX_QUEUE_SIZE { proc := a, size := 0 }
  | enq (q q' : queue_t) (proc : pcb_t) :
      queue_reachable MAX_QUEUE_SIZE q → enqueue MAX_QUEUE_SIZE q proc = some q' →
      queue_reachable MAX_QUEUE_SIZE q'
  | deq (q : queue_t) :
      queue_reachable MAX_QUEUE_SIZE q → queue_reachable MAX_QUEUE_SIZE (dequeue q).2

/-- The ways a call of `tlb_cache_read` on the set at `base` can end, `r` being the return
code and `*value` afterwards: a hit on the first matching record, whose frame number is
truncated to a `BYTE`; a miss, which leaves `*value` alone; or the bound check refuses
the first slot of the set, and the result depends on what the local array held. -/
def read_post (cfg : Config) (m : memphy_struct) (st : Int → BYTE) (pid pgnum : Int)
    (value : BYTE) (base : Int) (r : Int × BYTE) : Prop :=
  (∃ j, j < cfg.ENTRIES_PER_SET ∧ readable cfg m (slot_addr cfg base j) ∧
      entry_matches cfg (entry_at st (slot_addr cfg base j)) pid pgnum ∧
      (∀ k, k < j → readable cfg m (slot_addr cfg base k) →
        ¬ entry_matches cfg (entry_at st (slot_addr cfg base k)) pid pgnum) ∧
      r = (0, toBYTE (decode_int (entry_at st (slot_addr cfg base j)) cfg.PFN_OFFSET))) ∨
  (r = (-1, value) ∧
      ∀ k, k < cfg.ENTRIES_PER_SET → readable cfg m (slot_addr cfg base k) →
        ¬ entry_matches cfg (entry_at st (slot_addr cfg base k)) pid pgnum) ∨
  ¬ readable cfg m (slot_addr cfg base 0)

/-! ### Encoding lemmas -/

theorem toBYTE_val (n : Nat) : (toBYTE n).val = n % 256 := rfl

theorem decode_int_congr (e e' : Nat → BYTE) (off : Nat)
    (h : ∀ k, k < 4 → e (off + k) = e' (off + k)) : decode_int e off = decode_int e' off := by
  have h0 := h 0 (by omega)
  have h1 := h 1 (by omega)
  have h2 := h 2 (by omega)
  have h3 := h 3 (by omega)
  simp only [Nat.add_zero] at h0
  unfold decode_int
  rw [h0, h1, h2, h3]

theorem decode_int_lt (e : Nat → BYTE) (off : Nat) : decode_int e off < 4294967296 := by
  unfold decode_int
  have h0 := (e off).isLt
  have h1 := (e (off + 1)).isLt
  have h2 := (e (off + 2)).isLt
  have h3 := (e (off + 3)).isLt
  omega

theorem encode_int_outside (d : Nat → BYTE) (off v k : Nat) (h : k < off ∨ off + 4 ≤ k) :
    encode_int d off v k = d k := by
  unfold encode_int
  rw [if_neg]
  omega

theorem decode_encode_same (d : Nat → BYTE) (off v : Nat) :
    decode_int (encode_int d off v) off = v % 4294967296 := by
  unfold decode_int encode_int
  have e0 : (off ≤ off ∧ off < off + 4) := by omega
  have e1 : (off ≤ off + 1 ∧ off + 1 < off + 4) := by omega
  have e2 : (off ≤ off + 2 ∧ off + 2 < off + 4) := by omega
  have e3 : (off ≤ off + 3 ∧ off + 3 < off + 4) := by omega
  rw [if_pos e0, if_pos e1, if_pos e2, if_pos e3]
  simp only [toBYTE_val, Nat.sub_self, Nat.add_sub_cancel_left]
  norm_num
  omega

theorem decode_encode_other (d : Nat → BYTE) (off off' v : Nat)
    (h : off' + 4 ≤ off ∨ off + 4 ≤ off') :
    decode_int (encode_int d off v) off' = decode_int d off' := by
  apply decode_int_congr
  intro k hk
  apply encode_int_outside
  omega

theorem decode_update_other (d : Nat → BYTE) (off p : Nat) (b : BYTE)
    (h : p < off ∨ off + 4 ≤ p) :
    decode_int (Function.update d p b) off = decode_int d off := by
  apply decode_int_congr
  intro k hk
  rw [Function.update_noteq]
  omega

theorem BYTE_roundtrip (cfg : Config) (b : BYTE) : toBYTE (BYTE_to_uint32 cfg b) = b := by
  apply Fin.ext
  rw [toBYTE_val]
  unfold BYTE_to_uint32
  have := b.isLt
  split <;> omega

theorem BYTE_to_uint32_lt (cfg : Config) (b : BYTE) : BYTE_to_uint32 cfg b < 4294967296 := by
  unfold BYTE_to_uint32
  have := b.isLt
  split <;> omega

/-! ### The backing store -/

theorem TLBMEMPHY_read_readable (cfg : Config) (m : memphy_struct) (st : Int → BYTE)
    (hst : m.storage = some st) (addr : Int) (buf : Nat → BYTE)
    (h : readable cfg m addr) :
    TLBMEMPHY_read (some m) addr buf cfg.ENTRY_SIZE
      = (0, memcpy_from st addr buf cfg.ENTRY_SIZE) := by
  unfold readable at h
  simp only [TLBMEMPHY_read, hst, if_neg h]

theorem TLBMEMPHY_read_refused (cfg : Config) (m : memphy_struct) (st : Int → BYTE)
    (hst : m.storage = some st) (addr : Int) (buf : Nat → BYTE)
    (h : ¬ readable cfg m addr) :
    TLBMEMPHY_read (some m) addr buf cfg.ENTRY_SIZE = (-1, buf) := by
  unfold readable at h
  rw [not_not] at h
  simp only [TLBMEMPHY_read, hst, if_pos h]

theorem TLBMEMPHY_write_readable (cfg : Config) (m : memphy_struct) (st : Int → BYTE)
    (hst : m.storage = some st) (addr : Int) (data : Nat → BYTE)
    (h : readable cfg m addr) :
    TLBMEMPHY_write (some m) addr data cfg.ENTRY_SIZE
      = (0, some (with_storage m (memcpy_to st addr data cfg.ENTRY_SIZE))) := by
  unfold readable at h
  simp only [TLBMEMPHY_write, hst, if_neg h, with_storage]

theorem TLBMEMPHY_write_refused (cfg : Config) (m : memphy_struct) (st : Int → BYTE)
    (hst : m.storage = some st) (addr : Int) (data : Nat → BYTE)
    (h : ¬ readable cfg m addr) :
    TLBMEMPHY_write (some m) addr data cfg.ENTRY_SIZE = (-1, some m) := by
  unfold readable at h
  rw [not_not] at h
  simp only [TLBMEMPHY_write, hst, if_pos h]

theorem memcpy_from_lt (st : Int → BYTE) (addr : Int) (buf : Nat → BYTE) (size k : Nat)
    (h : k < size) : memcpy_from st addr buf size k = entry_at st addr k := by
  unfold memcpy_from entry_at
  rw [if_pos h]

theorem entry_matches_congr (cfg : Config) (hwf : cfg.WF) (e e' : Nat → BYTE) (pid pgnum : Int)
    (h : ∀ k, k < cfg.ENTRY_SIZE → e k = e' k) :
    entry_matches cfg e pid pgnum ↔ entry_matches cfg e' pid pgnum := by
  obtain ⟨_, h1, h2, _, h4, _⟩ := hwf
  unfold entry_matches
  rw [h cfg.VALID_OFFSET h4,
    decode_int_congr e e' cfg.PID_OFFSET (fun k hk => h _ (by omega)),
    decode_int_congr e e' cfg.VPN_OFFSET (fun k hk => h _ (by omega))]

theorem entry_matches_fresh (cfg : Config) (hwf : cfg.WF) (st : Int → BYTE) (addr : Int)
    (buf : Nat → BYTE) (pid pgnum : Int) :
    entry_matches cfg (memcpy_from st addr buf cfg.ENTRY_SIZE) pid pgnum
      ↔ entry_matches cfg (entry_at st addr) pid pgnum :=
  entry_matches_congr cfg hwf _ _ pid pgnum (fun k hk => memcpy_from_lt st addr buf _ k hk)

theorem upd_entry_congr (cfg : Config) (e e' : Nat → BYTE) (value : BYTE) (k : Nat)
    (h : e k = e' k) : upd_entry cfg e value k = upd_entry cfg e' value k := by
  unfold upd_entry Function.update encode_int
  simp only [eq_rec_constant, dite_eq_ite]
  split
  · rfl
  · split
    · rfl
    · exact h

theorem memcpy_to_fresh (cfg : Config) (st : Int → BYTE) (addr : Int) (buf : Nat → BYTE)
    (value : BYTE) :
    memcpy_to st addr (upd_entry cfg (memcpy_from st addr buf cfg.ENTRY_SIZE) value) cfg.ENTRY_SIZE
      = memcpy_to st addr (upd_entry cfg (entry_at st addr) value) cfg.ENTRY_SIZE := by
  funext a
  unfold memcpy_to
  split
  · rename_i h
    apply upd_entry_congr
    apply memcpy_from_lt
    omega
  · rfl

/-! ### The loop of `tlb_cache_write` -/

theorem slot_addr_eq (cfg : Config) (base : Int) (i : Nat) :
    base + (i : Int) * (cfg.ENTRY_SIZE : Int) = slot_addr cfg base i := rfl

theorem upd_entry_eq (cfg : Config) (e : Nat → BYTE) (value : BYTE) :
    Function.update (encode_int e cfg.PFN_OFFSET (BYTE_to_uint32 cfg value)) cfg.VALID_OFFSET 1
      = upd_entry cfg e value := rfl

theorem new_entry_eq (cfg : Config) (e : Nat → BYTE) (pid pgnum : Int) (value : BYTE) :
    Function.update
      (encode_int
        (encode_int (encode_int e cfg.PID_OFFSET (pid % 4294967296).toNat)
          cfg.VPN_OFFSET (pgnum % 4294967296).toNat)
        cfg.PFN_OFFSET (BYTE_to_uint32 cfg value))
      cfg.VALID_OFFSET 1 = new_entry cfg e pid pgnum value := rfl

theorem tlb_cache_write_loop_post (cfg : Config) (hwf : cfg.WF) (m : memphy_struct)
    (st : Int → BYTE) (hst : m.storage = some st) (pid pgnum : Int) (value : BYTE) (base : Int)
    (hne : ∀ i : Nat, slot_addr cfg base i ≠ -1) :
    ∀ (n i : Nat) (buf : Nat → BYTE) (free : Int), i + n = cfg.ENTRIES_PER_SET →
      (∀ k, k < i → readable cfg m (slot_addr cfg base k) →
        ¬ entry_matches cfg (entry_at st (slot_addr cfg base k)) pid pgnum) →
      (free = -1 → ∀ k, k < i → readable cfg m (slot_addr cfg base k) →
        entry_at st (slot_addr cfg base k) cfg.VALID_OFFSET ≠ 0) →
      (free ≠ -1 → ∃ j, j < i ∧ free = slot_addr cfg base j ∧
        (readable cfg m (slot_addr cfg base j) →
          entry_at st (slot_addr cfg base j) cfg.VALID_OFFSET = 0) ∧
        (readable cfg m (slot_addr cfg base 0) → readable cfg m (slot_addr cfg base j)) ∧
        (∀ k, k < j → readable cfg m (slot_addr cfg base k) →
          entry_at st (slot_addr cfg base k) cfg.VALID_OFFSET ≠ 0)) →
      (readable cfg m (slot_addr cfg base 0) → 0 < i →
        ∃ k, k < i ∧ readable cfg m (slot_addr cfg base k) ∧
          ∀ x, x < cfg.ENTRY_SIZE → buf x = entry_at st (slot_addr cfg base k) x) →
      write_post cfg m st pid pgnum value base
        (tlb_cache_write_loop cfg (some m) pid pgnum value base n i buf free) := by
  intro n
  induction n with
  | zero =>
    intro i buf free hi H1 H2 H3 _
    have hiE : i = cfg.ENTRIES_PER_SET := by omega
    subst hiE
    simp only [tlb_cache_write_loop, new_entry_eq]
    by_cases hf : free = -1
    · rw [if_neg (by simpa using hf)]
      right; right; left
      exact ⟨rfl, fun k hk hr => ⟨H2 hf k hk hr, H1 k hk hr⟩⟩
    · rw [if_pos hf]
      obtain ⟨j, hj, hfree, hinv, hr0, hval⟩ := H3 hf
      subst hfree
      by_cases hr : readable cfg m (slot_addr cfg base j)
      · right; left
        refine ⟨j, buf, hj, hr, hinv hr, hval, H1, ?_⟩
        rw [TLBMEMPHY_write_readable cfg m st hst _ _ hr]
      · right; right; right
        refine ⟨?_, fun h0 => hr (hr0 h0)⟩
        rw [TLBMEMPHY_write_refused cfg m st hst _ _ hr]
  | succ n ih =>
    intro i buf free hi H1 H2 H3 H4
    simp only [tlb_cache_write_loop, slot_addr_eq, upd_entry_eq]
    have hi' : i < cfg.ENTRIES_PER_SET := by omega
    by_cases hr : readable cfg m (slot_addr cfg base i)
    · have hrd := TLBMEMPHY_read_readable cfg m st hst (slot_addr cfg base i) buf hr
      rw [hrd]
      simp only []
      have H4' : readable cfg m (slot_addr cfg base 0) → 0 < i + 1 →
          ∃ k, k < i + 1 ∧ readable cfg m (slot_addr cfg base k) ∧
            ∀ x, x < cfg.ENTRY_SIZE →
              memcpy_from st (slot_addr cfg base i) buf cfg.ENTRY_SIZE x
                = entry_at st (slot_addr cfg base k) x :=
        fun _ _ => ⟨i, by omega, hr, fun x hx => memcpy_from_lt st _ buf _ x hx⟩
      by_cases hm : entry_matches cfg (entry_at st (slot_addr cfg base i)) pid pgnum
      · rw [if_pos ((entry_matches_fresh cfg hwf st _ buf pid pgnum).mpr hm)]
        left
        refine ⟨i, hi', hr, hm, H1, ?_⟩
        have hw := TLBMEMPHY_write_readable cfg m st hst (slot_addr cfg base i)
          (upd_entry cfg (memcpy_from st (slot_addr cfg base i) buf cfg.ENTRY_SIZE) value) hr
        rw [memcpy_to_fresh] at hw
        rw [hw]
      · rw [if_neg (fun h => hm ((entry_matches_fresh cfg hwf st _ buf pid pgnum).mp h))]
        have hv : memcpy_from st (slot_addr cfg base i) buf cfg.ENTRY_SIZE
            cfg.VALID_OFFSET = entry_at st (slot_addr cfg base i) cfg.VALID_OFFSET :=
          memcpy_from_lt st _ buf _ _ hwf.2.2.2.2.1
        have H1' : ∀ k, k < i + 1 → readable cfg m (slot_addr cfg base k) →
            ¬ entry_matches cfg (entry_at st (slot_addr cfg base k)) pid pgnum := by
          intro k hk hrk
          by_cases hki : k = i
          · subst hki; exact hm
          · exact H1 k (by omega) hrk
        rw [hv]
        split
        · rename_i hc
          apply ih (i + 1) _ _ (by omega) H1' _ _ H4'
          · intro hcontra
            exact absurd hcontra (hne i)
          · intro _
            exact ⟨i, by omega, rfl, fun _ => hc.1, fun _ => hr, H2 hc.2⟩
        · rename_i hc
          apply ih (i + 1) _ _ (by omega) H1' _ _ H4'
          · intro hf k hk hrk
            by_cases hki : k = i
            · subst hki
              intro hz
              exact hc ⟨hz, hf⟩
            · exact H2 hf k (by omega) hrk
          · intro hf
            obtain ⟨j, hj, e1, e2, e3, e4⟩ := H3 hf
            exact ⟨j, by omega, e1, e2, e3, e4⟩
    · have hrd := TLBMEMPHY_read_refused cfg m st hst (slot_addr cfg base i) buf hr
      rw [hrd]
      simp only []
      have H1' : ∀ k, k < i + 1 → readable cfg m (slot_addr cfg base k) →
          ¬ entry_matches cfg (entry_at st (slot_addr cfg base k)) pid pgnum := by
        intro k hk hrk
        by_cases hki : k = i
        · subst hki; exact absurd hrk hr
        · exact H1 k (by omega) hrk
      have hpos : readable cfg m (slot_addr cfg base 0) → 0 < i := by
        intro h0
        by_contra hi0
        have : i = 0 := by omega
        subst this
        exact hr h0
      have H4' : readable cfg m (slot_addr cfg base 0) → 0 < i + 1 →
          ∃ k, k < i + 1 ∧ readable cfg m (slot_addr cfg base k) ∧
            ∀ x, x < cfg.ENTRY_SIZE → buf x = entry_at st (slot_addr cfg base k) x := by
        intro h0 _
        obtain ⟨k, hk, hrk, hb⟩ := H4 h0 (hpos h0)
        exact ⟨k, by omega, hrk, hb⟩
      split
      · rename_i hmb
        right; right; right
        refine ⟨?_, ?_⟩
        · have hw := TLBMEMPHY_write_refused cfg m st hst (slot_addr cfg base i)
            (upd_entry cfg buf value) hr
          rw [hw]
        · intro h0
          obtain ⟨k, hk, hrk, hb⟩ := H4 h0 (hpos h0)
          exact H1 k hk hrk ((entry_matches_congr cfg hwf _ _ pid pgnum hb).mp hmb)
      · split
        · rename_i hc
          apply ih (i + 1) _ _ (by omega) H1' _ _ H4'
          · intro hcontra
            exact absurd hcontra (hne i)
          · intro _
            refine ⟨i, by omega, rfl, fun h => absurd h hr, ?_, H2 hc.2⟩
            intro h0
            obtain ⟨k, hk, hrk, hb⟩ := H4 h0 (hpos h0)
            have := H2 hc.2 k hk hrk
            rw [← hb _ hwf.2.2.2.2.1] at this
            exact absurd hc.1 this
        · apply ih (i + 1) _ _ (by omega) H1' _ _ H4'
          · intro hf k hk hrk
            by_cases hki : k = i
            · subst hki; exact absurd hrk hr
            · exact H2 hf k (by omega) hrk
          · intro hf
            obtain ⟨j, hj, e1, e2, e3, e4⟩ := H3 hf
            exact ⟨j, by omega, e1, e2, e3, e4⟩

theorem slot_addr_ne_neg_one (cfg : Config) (hwf : cfg.WF) (pgnum : Int) (i : Nat) :
    slot_addr cfg (set_base cfg pgnum) i ≠ -1 := by
  intro h
  have h4 : (4 : Int) ≤ (cfg.ENTRY_SIZE : Int) := by
    have := hwf.2.1
    omega
  have hd : (cfg.ENTRY_SIZE : Int) ∣ slot_addr cfg (set_base cfg pgnum) i := by
    unfold slot_addr set_base
    exact Dvd.dvd.add (Dvd.intro_left _ rfl) (Dvd.intro_left _ rfl)
  rw [h] at hd
  have h1 : (cfg.ENTRY_SIZE : Int) ∣ 1 := (Int.dvd_neg).mp hd
  have := Int.le_of_dvd (by decide) h1
  omega

/-- Every call of `tlb_cache_write` on an available device ends in one of the four ways
of `write_post`. -/
theorem tlb_cache_write_post (cfg : Config) (hwf : cfg.WF) (m : memphy_struct)
    (st : Int → BYTE) (hst : m.storage = some st) (pid pgnum : Int) (value : BYTE)
    (entry0 : Nat → BYTE) :
    write_post cfg m st pid pgnum value (set_base cfg pgnum)
      (tlb_cache_write cfg (some m) pid pgnum value entry0) := by
  have h := tlb_cache_write_loop_post cfg hwf m st hst pid pgnum value (set_base cfg pgnum)
    (slot_addr_ne_neg_one cfg hwf pgnum) cfg.ENTRIES_PER_SET 0 entry0 (-1) (by omega)
    (fun k hk => absurd hk (Nat.not_lt_zero k))
    (fun _ k hk => absurd hk (Nat.not_lt_zero k))
    (fun hf => absurd rfl hf)
    (fun _ h0 => absurd h0 (Nat.lt_irrefl 0))
  simp only [tlb_cache_write, hst]
  exact h

/-! ### The loop of `tlb_cache_read` -/

theorem tlb_cache_read_loop_post (cfg : Config) (hwf : cfg.WF) (m : memphy_struct)
    (st : Int → BYTE) (hst : m.storage = some st) (pid pgnum : Int) (value : BYTE) (base : Int) :
    ∀ (n i : Nat) (buf : Nat → BYTE), i + n = cfg.ENTRIES_PER_SET →
      (∀ k, k < i → readable cfg m (slot_addr cfg base k) →
        ¬ entry_matches cfg (entry_at st (slot_addr cfg base k)) pid pgnum) →
      (readable cfg m (slot_addr cfg base 0) → 0 < i →
        ∃ k, k < i ∧ readable cfg m (slot_addr cfg base k) ∧
          ∀ x, x < cfg.ENTRY_SIZE → buf x = entry_at st (slot_addr cfg base k) x) →
      read_post cfg m st pid pgnum value base
        (tlb_cache_read_loop cfg (some m) pid pgnum base n i buf value) := by
  intro n
  induction n with
  | zero =>
    intro i buf hi H1 _
    have hiE : i = cfg.ENTRIES_PER_SET := by omega
    subst hiE
    simp only [tlb_cache_read_loop]
    right; left
    exact ⟨rfl, H1⟩
  | succ n ih =>
    intro i buf hi H1 H4
    simp only [tlb_cache_read_loop, slot_addr_eq]
    have hi' : i < cfg.ENTRIES_PER_SET := by omega
    by_cases hr : readable cfg m (slot_addr cfg base i)
    · have hrd := TLBMEMPHY_read_readable cfg m st hst (slot_addr cfg base i) buf hr
      rw [hrd]
      simp only []
      by_cases hm : entry_matches cfg (entry_at st (slot_addr cfg base i)) pid pgnum
      · rw [if_pos ((entry_matches_fresh cfg hwf st _ buf pid pgnum).mpr hm)]
        left
        refine ⟨i, hi', hr, hm, H1, ?_⟩
        rw [decode_int_congr _ (entry_at st (slot_addr cfg base i)) cfg.PFN_OFFSET
          (fun k hk => memcpy_from_lt st _ buf _ _ (by have := hwf.2.2.2.1; omega))]
      · rw [if_neg (fun h => hm ((entry_matches_fresh cfg hwf st _ buf pid pgnum).mp h))]
        apply ih (i + 1) _ (by omega)
        · intro k hk hrk
          by_cases hki : k = i
          · subst hki; exact hm
          · exact H1 k (by omega) hrk
        · exact fun _ _ => ⟨i, by omega, hr, fun x hx => memcpy_from_lt st _ buf _ x hx⟩
    · have hrd := TLBMEMPHY_read_refused cfg m st hst (slot_addr cfg base i) buf hr
      rw [hrd]
      simp only []
      have hpos : readable cfg m (slot_addr cfg base 0) → 0 < i := by
        intro h0
        by_contra hi0
        have : i = 0 := by omega
        subst this
        exact hr h0
      split
      · rename_i hmb
        right; right
        intro h0
        obtain ⟨k, hk, hrk, hb⟩ := H4 h0 (hpos h0)
        exact H1 k hk hrk ((entry_matches_congr cfg hwf _ _ pid pgnum hb).mp hmb)
      · apply ih (i + 1) _ (by omega)
        · intro k hk hrk
          by_cases hki : k = i
          · subst hki; exact absurd hrk hr
          · exact H1 k (by omega) hrk
        · intro h0 _
          obtain ⟨k, hk, hrk, hb⟩ := H4 h0 (hpos h0)
          exact ⟨k, by omega, hrk, hb⟩

/-- Every call of `tlb_cache_read` on an available device ends in one of the ways of
`read_post`. -/
theorem tlb_cache_read_post (cfg : Config) (hwf : cfg.WF) (m : memphy_struct)
    (st : Int → BYTE) (hst : m.storage = some st) (pid pgnum : Int) (value : BYTE)
    (entry0 : Nat → BYTE) :
    read_post cfg m st pid pgnum value (set_base cfg pgnum)
      (tlb_cache_read cfg (some m) pid pgnum value entry0) := by
  have h := tlb_cache_read_loop_post cfg hwf m st hst pid pgnum value (set_base cfg pgnum)
    cfg.ENTRIES_PER_SET 0 entry0 (by omega)
    (fun k hk => absurd hk (Nat.not_lt_zero k))
    (fun _ h0 => absurd h0 (Nat.lt_irrefl 0))
  simp only [tlb_cache_read, hst]
  exact h

/-! ### Geometry of the table -/

theorem readable_of_in_device (cfg : Config) (m : memphy_struct) (addr : Int)
    (h : in_device cfg m addr) : readable cfg m addr := by
  unfold readable out_of_range
  obtain ⟨h0, h1⟩ := h
  have := m.maxsz_int
  omega

theorem in_device_of_readable (cfg : Config) (m : memphy_struct) (addr : Int)
    (h0 : 0 ≤ addr) (h1 : addr + (cfg.ENTRY_SIZE : Int) < 4294967296) (h2 : 0 ≤ m.maxsz)
    (h : readable cfg m addr) : in_device cfg m addr := by
  unfold readable out_of_range at h
  have := m.maxsz_int
  refine ⟨h0, ?_⟩
  omega

theorem with_storage_self (m : memphy_struct) (st : Int → BYTE) (hst : m.storage = some st) :
    with_storage m st = m := by
  cases m
  simp only [with_storage] at *
  simp only [hst]

theorem entry_at_memcpy_to_same (st : Int → BYTE) (a : Int) (data : Nat → BYTE) (size x : Nat)
    (hx : x < size) : entry_at (memcpy_to st a data size) a x = data x := by
  unfold entry_at memcpy_to
  rw [if_pos (by omega)]
  congr 1
  omega

theorem entry_at_memcpy_to_disjoint (st : Int → BYTE) (a a' : Int) (data : Nat → BYTE)
    (size x : Nat) (h : a' + (x : Int) < a ∨ a + (size : Int) ≤ a' + (x : Int)) :
    entry_at (memcpy_to st a data size) a' x = entry_at st a' x := by
  unfold entry_at memcpy_to
  rw [if_neg (by omega)]

theorem memcpy_to_outside (st : Int → BYTE) (a b : Int) (data : Nat → BYTE) (size : Nat)
    (h : b < a ∨ a + (size : Int) ≤ b) : memcpy_to st a data size b = st b := by
  unfold memcpy_to
  rw [if_neg (by omega)]

/-- Two records whose indices in the table differ do not overlap. -/
theorem records_disjoint (e : Nat) (t t' : Int) (x : Nat) (hx : x < e) (h : t ≠ t') :
    t' * (e : Int) + (x : Int) < t * (e : Int) ∨ t * (e : Int) + (e : Int) ≤ t' * (e : Int) + (x : Int) := by
  have he : (0 : Int) ≤ (e : Int) := Int.ofNat_nonneg e
  rcases lt_or_gt_of_ne h with hlt | hgt
  · right
    have h1 : (t + 1) * (e : Int) ≤ t' * (e : Int) :=
      Int.mul_le_mul_of_nonneg_right (by omega) he
    have h2 : (t + 1) * (e : Int) = t * (e : Int) + (e : Int) := by ring
    omega
  · left
    have h1 : (t' + 1) * (e : Int) ≤ t * (e : Int) :=
      Int.mul_le_mul_of_nonneg_right (by omega) he
    have h2 : (t' + 1) * (e : Int) = t' * (e : Int) + (e : Int) := by ring
    omega

/-- The byte offset of a slot is its index in the table times the record size. -/
theorem slot_addr_index (cfg : Config) (s : Int) (i : Nat) :
    slot_addr cfg (s * (cfg.ENTRIES_PER_SET : Int) * (cfg.ENTRY_SIZE : Int)) i
      = (s * (cfg.ENTRIES_PER_SET : Int) + (i : Int)) * (cfg.ENTRY_SIZE : Int) := by
  unfold slot_addr
  ring

theorem slot_disjoint (cfg : Config) (base : Int) (j k x : Nat) (hx : x < cfg.ENTRY_SIZE)
    (h : k ≠ j) :
    slot_addr cfg base k + (x : Int) < slot_addr cfg base j ∨
      slot_addr cfg base j + (cfg.ENTRY_SIZE : Int) ≤ slot_addr cfg base k + (x : Int) := by
  have := records_disjoint cfg.ENTRY_SIZE (j : Int) (k : Int) x hx (by omega)
  unfold slot_addr
  omega

theorem entry_at_write_same (cfg : Config) (st : Int → BYTE) (base : Int) (j : Nat)
    (data : Nat → BYTE) (x : Nat) (hx : x < cfg.ENTRY_SIZE) :
    entry_at (memcpy_to st (slot_addr cfg base j) data cfg.ENTRY_SIZE) (slot_addr cfg base j) x
      = data x :=
  entry_at_memcpy_to_same st _ data _ x hx

theorem entry_at_write_other (cfg : Config) (st : Int → BYTE) (base : Int) (j k : Nat)
    (data : Nat → BYTE) (x : Nat) (hx : x < cfg.ENTRY_SIZE) (h : k ≠ j) :
    entry_at (memcpy_to st (slot_addr cfg base j) data cfg.ENTRY_SIZE) (slot_addr cfg base k) x
      = entry_at st (slot_addr cfg base k) x :=
  entry_at_memcpy_to_disjoint st _ _ data _ x (slot_disjoint cfg base j k x hx h)

/-! ### The fields of the records that `tlb_cache_write` stores -/

theorem uint32_cast (p : Int) : (((p % 4294967296).toNat : Nat) : Int) = p % 4294967296 := by
  omega

theorem new_entry_valid (cfg : Config) (buf : Nat → BYTE) (pid pgnum : Int) (value : BYTE) :
    new_entry cfg buf pid pgnum value cfg.VALID_OFFSET = 1 := by
  unfold new_entry
  rw [Function.update_same]

theorem new_entry_pid (cfg : Config) (hwf : cfg.WF) (buf : Nat → BYTE) (pid pgnum : Int)
    (value : BYTE) :
    (decode_int (new_entry cfg buf pid pgnum value) cfg.PID_OFFSET : Int) = pid % 4294967296 := by
  obtain ⟨_, _, _, _, _, dPV, dPF, _, dAP, _, _, _⟩ := hwf
  unfold new_entry
  rw [decode_update_other _ _ _ _ dAP, decode_encode_other _ _ _ _ dPF,
    decode_encode_other _ _ _ _ dPV, decode_encode_same]
  omega

theorem new_entry_vpn (cfg : Config) (hwf : cfg.WF) (buf : Nat → BYTE) (pid pgnum : Int)
    (value : BYTE) :
    (decode_int (new_entry cfg buf pid pgnum value) cfg.VPN_OFFSET : Int)
      = pgnum % 4294967296 := by
  obtain ⟨_, _, _, _, _, _, _, dVF, _, dAV, _, _⟩ := hwf
  unfold new_entry
  rw [decode_update_other _ _ _ _ dAV, decode_encode_other _ _ _ _ dVF, decode_encode_same]
  omega

theorem new_entry_pfn (cfg : Config) (hwf : cfg.WF) (buf : Nat → BYTE) (pid pgnum : Int)
    (value : BYTE) :
    decode_int (new_entry cfg buf pid pgnum value) cfg.PFN_OFFSET = BYTE_to_uint32 cfg value := by
  obtain ⟨_, _, _, _, _, _, _, _, _, _, dAF, _⟩ := hwf
  unfold new_entry
  rw [decode_update_other _ _ _ _ dAF, decode_encode_same]
  exact Nat.mod_eq_of_lt (BYTE_to_uint32_lt cfg value)

theorem new_entry_matches (cfg : Config) (hwf : cfg.WF) (buf : Nat → BYTE) (pid pgnum : Int)
    (value : BYTE) : entry_matches cfg (new_entry cfg buf pid pgnum value) pid pgnum := by
  refine ⟨?_, new_entry_pid cfg hwf buf pid pgnum value, new_entry_vpn cfg hwf buf pid pgnum value⟩
  rw [new_entry_valid]
  decide

theorem upd_entry_valid (cfg : Config) (e : Nat → BYTE) (value : BYTE) :
    upd_entry cfg e value cfg.VALID_OFFSET = 1 := by
  unfold upd_entry
  rw [Function.update_same]

theorem upd_entry_pid (cfg : Config) (hwf : cfg.WF) (e : Nat → BYTE) (value : BYTE) :
    decode_int (upd_entry cfg e value) cfg.PID_OFFSET = decode_int e cfg.PID_OFFSET := by
  obtain ⟨_, _, _, _, _, _, dPF, _, dAP, _, _, _⟩ := hwf
  unfold upd_entry
  rw [decode_update_other _ _ _ _ dAP, decode_encode_other _ _ _ _ dPF]

theorem upd_entry_vpn (cfg : Config) (hwf : cfg.WF) (e : Nat → BYTE) (value : BYTE) :
    decode_int (upd_entry cfg e value) cfg.VPN_OFFSET = decode_int e cfg.VPN_OFFSET := by
  obtain ⟨_, _, _, _, _, _, _, dVF, _, dAV, _, _⟩ := hwf
  unfold upd_entry
  rw [decode_update_other _ _ _ _ dAV, decode_encode_other _ _ _ _ dVF]

theorem upd_entry_pfn (cfg : Config) (hwf : cfg.WF) (e : Nat → BYTE) (value : BYTE) :
    decode_int (upd_entry cfg e value) cfg.PFN_OFFSET = BYTE_to_uint32 cfg value := by
  obtain ⟨_, _, _, _, _, _, _, _, _, _, dAF, _⟩ := hwf
  unfold upd_entry
  rw [decode_update_other _ _ _ _ dAF, decode_encode_same]
  exact Nat.mod_eq_of_lt (BYTE_to_uint32_lt cfg value)

theorem upd_entry_other (cfg : Config) (e : Nat → BYTE) (value : BYTE) (x : Nat)
    (h1 : x < cfg.PFN_OFFSET ∨ cfg.PFN_OFFSET + 4 ≤ x) (h2 : x ≠ cfg.VALID_OFFSET) :
    upd_entry cfg e value x = e x := by
  unfold upd_entry
  rw [Function.update_noteq h2, encode_int_outside _ _ _ _ h1]

theorem upd_entry_matches (cfg : Config) (hwf : cfg.WF) (e : Nat → BYTE) (value : BYTE)
    (pid pgnum : Int) (h : entry_matches cfg e pid pgnum) :
    entry_matches cfg (upd_entry cfg e value) pid pgnum := by
  obtain ⟨_, h2, h3⟩ := h
  refine ⟨?_, ?_, ?_⟩
  · rw [upd_entry_valid]; decide
  · rw [upd_entry_pid cfg hwf]; exact h2
  · rw [upd_entry_vpn cfg hwf]; exact h3

/-! ### Sets that lie in the device -/

theorem slot_of_index (cfg : Config) (pgnum : Int) (k : Nat) :
    slot_of cfg pgnum k
      = (calculate_set_index cfg pgnum * (cfg.ENTRIES_PER_SET : Int) + (k : Int))
          * (cfg.ENTRY_SIZE : Int) :=
  slot_addr_index cfg _ k

theorem set_index_lt (cfg : Config) (hwf : cfg.WF) (pgnum : Int) :
    calculate_set_index cfg pgnum < (cfg.NUM_SETS : Int) :=
  Int.tmod_lt_of_pos _ (by have := hwf.1; omega)

theorem ENTRY_SIZE_pos (cfg : Config) (hwf : cfg.WF) : (0 : Int) < (cfg.ENTRY_SIZE : Int) := by
  have := hwf.2.1
  omega

theorem set_index_nonneg (cfg : Config) (hwf : cfg.WF) (m : memphy_struct) (pgnum : Int)
    (k : Nat) (hk : k < cfg.ENTRIES_PER_SET) (h : in_device cfg m (slot_of cfg pgnum k)) :
    0 ≤ calculate_set_index cfg pgnum := by
  by_contra hneg
  have hs : calculate_set_index cfg pgnum + 1 ≤ 0 := by omega
  have h1 : (calculate_set_index cfg pgnum + 1) * (cfg.ENTRIES_PER_SET : Int) ≤ 0 :=
    Int.mul_nonpos_of_nonpos_of_nonneg hs (Int.ofNat_nonneg _)
  have h2 : (calculate_set_index cfg pgnum + 1) * (cfg.ENTRIES_PER_SET : Int)
      = calculate_set_index cfg pgnum * (cfg.ENTRIES_PER_SET : Int) + (cfg.ENTRIES_PER_SET : Int) := by
    ring
  have h3 : calculate_set_index cfg pgnum * (cfg.ENTRIES_PER_SET : Int) + (k : Int) + 1 ≤ 0 := by
    omega
  have h4 : (calculate_set_index cfg pgnum * (cfg.ENTRIES_PER_SET : Int) + (k : Int) + 1)
      * (cfg.ENTRY_SIZE : Int) ≤ 0 :=
    Int.mul_nonpos_of_nonpos_of_nonneg h3 (Int.ofNat_nonneg _)
  have h5 : (calculate_set_index cfg pgnum * (cfg.ENTRIES_PER_SET : Int) + (k : Int) + 1)
      * (cfg.ENTRY_SIZE : Int) = slot_of cfg pgnum k + (cfg.ENTRY_SIZE : Int) := by
    rw [slot_of_index]; ring
  have := ENTRY_SIZE_pos cfg hwf
  have := h.1
  omega

theorem slot_of_le (cfg : Config) (pgnum : Int) (j k : Nat) (hjk : j ≤ k) :
    slot_of cfg pgnum j ≤ slot_of cfg pgnum k := by
  unfold slot_of slot_addr
  have : (j : Int) * (cfg.ENTRY_SIZE : Int) ≤ (k : Int) * (cfg.ENTRY_SIZE : Int) :=
    Int.mul_le_mul_of_nonneg_right (by omega) (Int.ofNat_nonneg _)
  omega

theorem slot_of_end_lt (cfg : Config) (hwf : cfg.WF) (pgnum : Int) (k : Nat)
    (hk : k < cfg.ENTRIES_PER_SET) :
    slot_of cfg pgnum k + (cfg.ENTRY_SIZE : Int) < 2147483648 := by
  have hs := set_index_lt cfg hwf pgnum
  have h1 : (calculate_set_index cfg pgnum + 1) * (cfg.ENTRIES_PER_SET : Int)
      ≤ (cfg.NUM_SETS : Int) * (cfg.ENTRIES_PER_SET : Int) :=
    Int.mul_le_mul_of_nonneg_right (by omega) (Int.ofNat_nonneg _)
  have h2 : (calculate_set_index cfg pgnum + 1) * (cfg.ENTRIES_PER_SET : Int)
      = calculate_set_index cfg pgnum * (cfg.ENTRIES_PER_SET : Int) + (cfg.ENTRIES_PER_SET : Int) := by
    ring
  have h3 : calculate_set_index cfg pgnum * (cfg.ENTRIES_PER_SET : Int) + (k : Int) + 1
      ≤ (cfg.NUM_SETS : Int) * (cfg.ENTRIES_PER_SET : Int) := by
    omega
  have h4 : (calculate_set_index cfg pgnum * (cfg.ENTRIES_PER_SET : Int) + (k : Int) + 1)
      * (cfg.ENTRY_SIZE : Int)
      ≤ (cfg.NUM_SETS : Int) * (cfg.ENTRIES_PER_SET : Int) * (cfg.ENTRY_SIZE : Int) :=
    Int.mul_le_mul_of_nonneg_right h3 (Int.ofNat_nonneg _)
  have h5 : (calculate_set_index cfg pgnum * (cfg.ENTRIES_PER_SET : Int) + (k : Int) + 1)
      * (cfg.ENTRY_SIZE : Int) = slot_of cfg pgnum k + (cfg.ENTRY_SIZE : Int) := by
    rw [slot_of_index]; ring
  have h6 : ((cfg.NUM_SETS * cfg.ENTRIES_PER_SET * cfg.ENTRY_SIZE : Nat) : Int) < 2147483648 := by
    have := hwf.2.2.2.2.2.2.2.2.2.2.2.1
    omega
  push_cast at h6
  omega

/-- In a set one of whose slots lies in the device, the slots before it do too. -/
theorem in_device_of_le (cfg : Config) (hwf : cfg.WF) (m : memphy_struct) (pgnum : Int)
    (j k : Nat) (hk : k < cfg.ENTRIES_PER_SET) (hjk : j ≤ k)
    (h : in_device cfg m (slot_of cfg pgnum k)) : in_device cfg m (slot_of cfg pgnum j) := by
  have hs := set_index_nonneg cfg hwf m pgnum k hk h
  have h0 : 0 ≤ slot_of cfg pgnum j := by
    rw [slot_of_index]
    apply Int.mul_nonneg
    · have := Int.mul_nonneg hs (Int.ofNat_nonneg cfg.ENTRIES_PER_SET)
      omega
    · exact Int.ofNat_nonneg _
  have := slot_of_le cfg pgnum j k hjk
  have := h.2
  exact ⟨h0, by omega⟩

/-- In a set whose first slot lies in the device, the bound check lets through exactly the
slots that lie in the device. -/
theorem readable_iff_in_device (cfg : Config) (hwf : cfg.WF) (m : memphy_struct) (pgnum : Int)
    (h0 : in_device cfg m (slot_of cfg pgnum 0)) (k : Nat) (hk : k < cfg.ENTRIES_PER_SET) :
    readable cfg m (slot_of cfg pgnum k) ↔ in_device cfg m (slot_of cfg pgnum k) := by
  constructor
  · intro hr
    have h1 := slot_of_le cfg pgnum 0 k (Nat.zero_le k)
    have h2 := slot_of_end_lt cfg hwf pgnum k hk
    have h3 := h0.1
    have h4 := h0.2
    have := ENTRY_SIZE_pos cfg hwf
    exact in_device_of_readable cfg m _ (by omega) (by omega) (by omega) hr
  · exact readable_of_in_device cfg m _

/-! ### Records of the device after a write -/

theorem entry_matches_write_same (cfg : Config) (hwf : cfg.WF) (st : Int → BYTE) (pgnum : Int)
    (j : Nat) (data : Nat → BYTE) (p v : Int) :
    entry_matches cfg
        (entry_at (memcpy_to st (slot_of cfg pgnum j) data cfg.ENTRY_SIZE) (slot_of cfg pgnum j)) p v
      ↔ entry_matches cfg data p v :=
  entry_matches_congr cfg hwf _ _ p v (fun x hx => entry_at_memcpy_to_same st _ data _ x hx)

theorem entry_matches_write_other (cfg : Config) (hwf : cfg.WF) (st : Int → BYTE) (pgnum : Int)
    (j k : Nat) (hkj : k ≠ j) (data : Nat → BYTE) (p v : Int) :
    entry_matches cfg
        (entry_at (memcpy_to st (slot_of cfg pgnum j) data cfg.ENTRY_SIZE) (slot_of cfg pgnum k)) p v
      ↔ entry_matches cfg (entry_at st (slot_of cfg pgnum k)) p v :=
  entry_matches_congr cfg hwf _ _ p v
    (fun x hx => entry_at_write_other cfg st (set_base cfg pgnum) j k data x hx hkj)

theorem decode_write_same (cfg : Config) (st : Int → BYTE) (pgnum : Int) (j : Nat)
    (data : Nat → BYTE) (off : Nat) (hoff : off + 4 ≤ cfg.ENTRY_SIZE) :
    decode_int
        (entry_at (memcpy_to st (slot_of cfg pgnum j) data cfg.ENTRY_SIZE) (slot_of cfg pgnum j)) off
      = decode_int data off :=
  decode_int_congr _ _ off (fun x _ => entry_at_memcpy_to_same st _ data _ _ (by omega))

theorem in_device_with_storage (cfg : Config) (m : memphy_struct) (st : Int → BYTE) (a : Int) :
    in_device cfg (with_storage m st) a ↔ in_device cfg m a := Iff.rfl

theorem storage_with_storage (m : memphy_struct) (st : Int → BYTE) :
    (with_storage m st).storage = some st := rfl

/-! ### `tlb_cache_read` and `tlb_cache_write` on a set that lies in the device -/

/-- On a set whose first slot lies in the device, a lookup returns the frame byte of the
first slot of the device that holds the key, or misses when no slot holds it. -/
theorem tlb_cache_read_in_device (cfg : Config) (hwf : cfg.WF) (m : memphy_struct)
    (st : Int → BYTE) (hst : m.storage = some st) (pid pgnum : Int) (value : BYTE)
    (entry0 : Nat → BYTE) (h0 : in_device cfg m (slot_of cfg pgnum 0)) :
    (∃ j, j < cfg.ENTRIES_PER_SET ∧ slot_has_key cfg m st pgnum j pid pgnum ∧
        (∀ k, k < j → ¬ slot_has_key cfg m st pgnum k pid pgnum) ∧
        tlb_cache_read cfg (some m) pid pgnum value entry0
          = (0, toBYTE (decode_int (entry_at st (slot_of cfg pgnum j)) cfg.PFN_OFFSET))) ∨
    ((∀ k, k < cfg.ENTRIES_PER_SET → ¬ slot_has_key cfg m st pgnum k pid pgnum) ∧
        tlb_cache_read cfg (some m) pid pgnum value entry0 = (-1, value)) := by
  have hiff := readable_iff_in_device cfg hwf m pgnum h0
  rcases tlb_cache_read_post cfg hwf m st hst pid pgnum value entry0 with
    ⟨j, hj, hr, hm, hfirst, hres⟩ | ⟨hres, hall⟩ | hbad
  · left
    refine ⟨j, hj, ⟨(hiff j hj).mp hr, hm⟩, ?_, hres⟩
    intro k hk hkey
    exact hfirst k hk ((hiff k (by omega)).mpr hkey.1) hkey.2
  · right
    refine ⟨?_, hres⟩
    intro k hk hkey
    exact hall k hk ((hiff k hk).mpr hkey.1) hkey.2
  · exact absurd (readable_of_in_device cfg m _ h0) hbad

/-- On a set whose first slot lies in the device, an insert updates the first slot that
holds the key, or fills the first free slot when no slot holds the key, or fails and
leaves the device alone when the slots of the device are all valid with other keys. -/
theorem tlb_cache_write_in_device (cfg : Config) (hwf : cfg.WF) (m : memphy_struct)
    (st : Int → BYTE) (hst : m.storage = some st) (pid pgnum : Int) (value : BYTE)
    (entry0 : Nat → BYTE) (h0 : in_device cfg m (slot_of cfg pgnum 0)) :
    (∃ j, j < cfg.ENTRIES_PER_SET ∧ slot_has_key cfg m st pgnum j pid pgnum ∧
        (∀ k, k < j → ¬ slot_has_key cfg m st pgnum k pid pgnum) ∧
        tlb_cache_write cfg (some m) pid pgnum value entry0
          = (0, some (with_storage m (memcpy_to st (slot_of cfg pgnum j)
              (upd_entry cfg (entry_at st (slot_of cfg pgnum j)) value) cfg.ENTRY_SIZE)))) ∨
    (∃ j buf, j < cfg.ENTRIES_PER_SET ∧ slot_free cfg m st pgnum j ∧
        (∀ k, k < j → ¬ slot_free cfg m st pgnum k) ∧
        (∀ k, k < cfg.ENTRIES_PER_SET → ¬ slot_has_key cfg m st pgnum k pid pgnum) ∧
        tlb_cache_write cfg (some m) pid pgnum value entry0
          = (0, some (with_storage m (memcpy_to st (slot_of cfg pgnum j)
              (new_entry cfg buf pid pgnum value) cfg.ENTRY_SIZE)))) ∨
    ((∀ k, k < cfg.ENTRIES_PER_SET → ¬ slot_free cfg m st pgnum k) ∧
        (∀ k, k < cfg.ENTRIES_PER_SET → ¬ slot_has_key cfg m st pgnum k pid pgnum) ∧
        tlb_cache_write cfg (some m) pid pgnum value entry0 = (-1, some m)) := by
  have hiff := readable_iff_in_device cfg hwf m pgnum h0
  rcases tlb_cache_write_post cfg hwf m st hst pid pgnum value entry0 with
    ⟨j, hj, hr, hm, hfirst, hres⟩ | ⟨j, buf, hj, hr, hinv, hval, hno, hres⟩ | ⟨hres, hall⟩ |
    ⟨_, hbad⟩
  · left
    refine ⟨j, hj, ⟨(hiff j hj).mp hr, hm⟩, ?_, hres⟩
    intro k hk hkey
    exact hfirst k hk ((hiff k (by omega)).mpr hkey.1) hkey.2
  · right; left
    refine ⟨j, buf, hj, ⟨(hiff j hj).mp hr, hinv⟩, ?_, ?_, hres⟩
    · intro k hk hfree
      exact hval k hk ((hiff k (by omega)).mpr hfree.1) hfree.2
    · intro k hk hkey
      exact hno k hk ((hiff k hk).mpr hkey.1) hkey.2
  · right; right
    refine ⟨?_, ?_, hres⟩
    · intro k hk hfree
      exact (hall k hk ((hiff k hk).mpr hfree.1)).1 hfree.2
    · intro k hk hkey
      exact (hall k hk ((hiff k hk).mpr hkey.1)).2 hkey.2
  · exact absurd (readable_of_in_device cfg m _ h0) hbad

/-- A lookup right after a successful insert of the same key, on a set whose first slot
lies in the device, hits and yields the inserted frame byte. -/
theorem tlb_cache_read_after_write (cfg : Config) (hwf : cfg.WF) (m : memphy_struct)
    (st : Int → BYTE) (hst : m.storage = some st) (pid pgnum : Int) (frame value : BYTE)
    (entry0 entry1 : Nat → BYTE) (h0 : in_device cfg m (slot_of cfg pgnum 0))
    (hok : (tlb_cache_write cfg (some m) pid pgnum frame entry0).1 = 0) :
    tlb_cache_read cfg (tlb_cache_write cfg (some m) pid pgnum frame entry0).2 pid pgnum value
      entry1 = (0, frame) := by
  rcases tlb_cache_write_in_device cfg hwf m st hst pid pgnum frame entry0 h0 with
    ⟨j, hj, hkey, hfirst, hres⟩ | ⟨j, buf, hj, hfree, _, hno, hres⟩ | ⟨_, _, hres⟩
  · rw [hres]
    simp only []
    have hkeyj : slot_has_key cfg (with_storage m (memcpy_to st (slot_of cfg pgnum j)
        (upd_entry cfg (entry_at st (slot_of cfg pgnum j)) frame) cfg.ENTRY_SIZE))
        (memcpy_to st (slot_of cfg pgnum j)
          (upd_entry cfg (entry_at st (slot_of cfg pgnum j)) frame) cfg.ENTRY_SIZE)
        pgnum j pid pgnum :=
      ⟨hkey.1, (entry_matches_write_same cfg hwf st pgnum j _ pid pgnum).mpr
        (upd_entry_matches cfg hwf _ frame pid pgnum hkey.2)⟩
    rcases tlb_cache_read_in_device cfg hwf _ _ (storage_with_storage m _) pid pgnum value
      entry1 h0 with ⟨j', hj', hkey', hfirst', hres'⟩ | ⟨hnone, _⟩
    · have h1 : ¬ j < j' := fun hlt => hfirst' j hlt hkeyj
      have h2 : ¬ j' < j := by
        intro hlt
        exact hfirst j' hlt ⟨hkey'.1,
          (entry_matches_write_other cfg hwf st pgnum j j' (by omega) _ pid pgnum).mp hkey'.2⟩
      have hjj : j' = j := by omega
      subst hjj
      rw [hres', decode_write_same cfg st pgnum j' _ _ hwf.2.2.2.1, upd_entry_pfn cfg hwf,
        BYTE_roundtrip]
    · exact absurd hkeyj (hnone j hj)
  · rw [hres]
    simp only []
    have hkeyj : slot_has_key cfg (with_storage m (memcpy_to st (slot_of cfg pgnum j)
        (new_entry cfg buf pid pgnum frame) cfg.ENTRY_SIZE))
        (memcpy_to st (slot_of cfg pgnum j) (new_entry cfg buf pid pgnum frame) cfg.ENTRY_SIZE)
        pgnum j pid pgnum :=
      ⟨hfree.1, (entry_matches_write_same cfg hwf st pgnum j _ pid pgnum).mpr
        (new_entry_matches cfg hwf buf pid pgnum frame)⟩
    rcases tlb_cache_read_in_device cfg hwf _ _ (storage_with_storage m _) pid pgnum value
      entry1 h0 with ⟨j', hj', hkey', hfirst', hres'⟩ | ⟨hnone, _⟩
    · have h1 : ¬ j < j' := fun hlt => hfirst' j hlt hkeyj
      have h2 : ¬ j' < j := by
        intro hlt
        exact hno j' hj' ⟨hkey'.1,
          (entry_matches_write_other cfg hwf st pgnum j j' (by omega) _ pid pgnum).mp hkey'.2⟩
      have hjj : j' = j := by omega
      subst hjj
      rw [hres', decode_write_same cfg st pgnum j' _ _ hwf.2.2.2.1, new_entry_pfn cfg hwf,
        BYTE_roundtrip]
    · exact absurd hkeyj (hnone j hj)
  · rw [hres] at hok
    simp only [] at hok
    omega

/-! ### Lookups and the bytes they depend on -/

theorem slot_of_congr (cfg : Config) (v v' : Int) (k : Nat)
    (h : calculate_set_index cfg v = calculate_set_index cfg v') :
    slot_of cfg v k = slot_of cfg v' k := by
  unfold slot_of set_base
  rw [h]

theorem tlb_cache_read_loop_congr (cfg : Config) (m : memphy_struct) (st st' : Int → BYTE)
    (hst : m.storage = some st) (p v : Int) (value : BYTE) (base : Int)
    (h : ∀ k x, k < cfg.ENTRIES_PER_SET → x < cfg.ENTRY_SIZE →
      st' (slot_addr cfg base k + (x : Int)) = st (slot_addr cfg base k + (x : Int))) :
    ∀ (n i : Nat) (buf : Nat → BYTE), i + n = cfg.ENTRIES_PER_SET →
      tlb_cache_read_loop cfg (some (with_storage m st')) p v base n i buf value
        = tlb_cache_read_loop cfg (some m) p v base n i buf value := by
  intro n
  induction n with
  | zero => intro i buf _; rfl
  | succ n ih =>
    intro i buf hi
    simp only [tlb_cache_read_loop, slot_addr_eq]
    have hrd : TLBMEMPHY_read (some (with_storage m st')) (slot_addr cfg base i) buf cfg.ENTRY_SIZE
        = TLBMEMPHY_read (some m) (slot_addr cfg base i) buf cfg.ENTRY_SIZE := by
      simp only [TLBMEMPHY_read, hst, with_storage]
      have ho : out_of_range { storage := some st', maxsz := m.maxsz, maxsz_int := m.maxsz_int }
          (slot_addr cfg base i) cfg.ENTRY_SIZE ↔ out_of_range m (slot_addr cfg base i) cfg.ENTRY_SIZE :=
        Iff.rfl
      by_cases hc : out_of_range m (slot_addr cfg base i) cfg.ENTRY_SIZE
      · rw [if_pos hc, if_pos (ho.mpr hc)]
      · rw [if_neg hc, if_neg (fun hh => hc (ho.mp hh))]
        congr 1
        funext x
        unfold memcpy_from
        split
        · exact h i x (by omega) (by assumption)
        · rfl
    rw [hrd]
    split
    · rfl
    · exact ih (i + 1) _ (by omega)

/-- A lookup gives the same result on two devices that agree on the bytes of its set. -/
theorem tlb_cache_read_congr (cfg : Config) (m : memphy_struct) (st st' : Int → BYTE)
    (hst : m.storage = some st) (p v : Int) (value : BYTE) (entry1 : Nat → BYTE)
    (h : ∀ k x, k < cfg.ENTRIES_PER_SET → x < cfg.ENTRY_SIZE →
      st' (slot_of cfg v k + (x : Int)) = st (slot_of cfg v k + (x : Int))) :
    tlb_cache_read cfg (some (with_storage m st')) p v value entry1
      = tlb_cache_read cfg (some m) p v value entry1 := by
  have := tlb_cache_read_loop_congr cfg m st st' hst p v value (set_base cfg v) h
    cfg.ENTRIES_PER_SET 0 entry1 (by omega)
  simp only [tlb_cache_read, hst, storage_with_storage]
  exact this

/-- The bytes of a slot of set `s'` lie outside the byte range of any other set `s`. -/
theorem set_ranges_disjoint (cfg : Config) (s s' : Int) (k x : Nat)
    (hk : k < cfg.ENTRIES_PER_SET) (hx : x < cfg.ENTRY_SIZE) (h : s' ≠ s) :
    slot_addr cfg (s' * (cfg.ENTRIES_PER_SET : Int) * (cfg.ENTRY_SIZE : Int)) k + (x : Int)
        < s * (cfg.ENTRIES_PER_SET : Int) * (cfg.ENTRY_SIZE : Int) ∨
      (s + 1) * (cfg.ENTRIES_PER_SET : Int) * (cfg.ENTRY_SIZE : Int)
        ≤ slot_addr cfg (s' * (cfg.ENTRIES_PER_SET : Int) * (cfg.ENTRY_SIZE : Int)) k + (x : Int) := by
  have hy : k * cfg.ENTRY_SIZE + x < cfg.ENTRIES_PER_SET * cfg.ENTRY_SIZE := by
    have h1 : (k + 1) * cfg.ENTRY_SIZE ≤ cfg.ENTRIES_PER_SET * cfg.ENTRY_SIZE :=
      Nat.mul_le_mul_right _ (by omega)
    have h2 : (k + 1) * cfg.ENTRY_SIZE = k * cfg.ENTRY_SIZE + cfg.ENTRY_SIZE := by ring
    omega
  have hd := records_disjoint (cfg.ENTRIES_PER_SET * cfg.ENTRY_SIZE) s s'
    (k * cfg.ENTRY_SIZE + x) hy (Ne.symm h)
  unfold slot_addr
  push_cast at hd
  have e1 : s' * (cfg.ENTRIES_PER_SET : Int) * (cfg.ENTRY_SIZE : Int)
      = s' * ((cfg.ENTRIES_PER_SET : Int) * (cfg.ENTRY_SIZE : Int)) := by ring
  have e2 : s * (cfg.ENTRIES_PER_SET : Int) * (cfg.ENTRY_SIZE : Int)
      = s * ((cfg.ENTRIES_PER_SET : Int) * (cfg.ENTRY_SIZE : Int)) := by ring
  have e3 : (s + 1) * (cfg.ENTRIES_PER_SET : Int) * (cfg.ENTRY_SIZE : Int)
      = s * ((cfg.ENTRIES_PER_SET : Int) * (cfg.ENTRY_SIZE : Int))
        + (cfg.ENTRIES_PER_SET : Int) * (cfg.ENTRY_SIZE : Int) := by ring
  omega

/-- An insert changes no byte outside the byte range of the set it selects. -/
theorem tlb_cache_write_frame (cfg : Config) (hwf : cfg.WF) (m : memphy_struct)
    (st : Int → BYTE) (hst : m.storage = some st) (pid pgnum : Int) (value : BYTE)
    (entry0 : Nat → BYTE) :
    ∃ st', (tlb_cache_write cfg (some m) pid pgnum value entry0).2 = some (with_storage m st') ∧
      ∀ a : Int,
        (a < calculate_set_index cfg pgnum * (cfg.ENTRIES_PER_SET : Int) * (cfg.ENTRY_SIZE : Int) ∨
          (calculate_set_index cfg pgnum + 1) * (cfg.ENTRIES_PER_SET : Int) * (cfg.ENTRY_SIZE : Int)
            ≤ a) → st' a = st a := by
  have hout : ∀ (j : Nat) (data : Nat → BYTE) (a : Int), j < cfg.ENTRIES_PER_SET →
      (a < calculate_set_index cfg pgnum * (cfg.ENTRIES_PER_SET : Int) * (cfg.ENTRY_SIZE : Int) ∨
        (calculate_set_index cfg pgnum + 1) * (cfg.ENTRIES_PER_SET : Int) * (cfg.ENTRY_SIZE : Int)
          ≤ a) →
      memcpy_to st (slot_addr cfg (set_base cfg pgnum) j) data cfg.ENTRY_SIZE a = st a := by
    intro j data a hj ha
    apply memcpy_to_outside
    have h1 : ((j : Int) + 1) * (cfg.ENTRY_SIZE : Int)
        ≤ (cfg.ENTRIES_PER_SET : Int) * (cfg.ENTRY_SIZE : Int) :=
      Int.mul_le_mul_of_nonneg_right (by omega) (Int.ofNat_nonneg _)
    have h2 : ((j : Int) + 1) * (cfg.ENTRY_SIZE : Int)
        = (j : Int) * (cfg.ENTRY_SIZE : Int) + (cfg.ENTRY_SIZE : Int) := by ring
    have h3 : (calculate_set_index cfg pgnum + 1) * (cfg.ENTRIES_PER_SET : Int)
          * (cfg.ENTRY_SIZE : Int)
        = calculate_set_index cfg pgnum * (cfg.ENTRIES_PER_SET : Int) * (cfg.ENTRY_SIZE : Int)
          + (cfg.ENTRIES_PER_SET : Int) * (cfg.ENTRY_SIZE : Int) := by ring
    have h4 : (0 : Int) ≤ (j : Int) * (cfg.ENTRY_SIZE : Int) :=
      Int.mul_nonneg (Int.ofNat_nonneg _) (Int.ofNat_nonneg _)
    unfold slot_addr set_base
    omega
  rcases tlb_cache_write_post cfg hwf m st hst pid pgnum value entry0 with
    ⟨j, hj, _, _, _, hres⟩ | ⟨j, buf, hj, _, _, _, _, hres⟩ | ⟨hres, _⟩ | ⟨hres, _⟩
  · exact ⟨_, by rw [hres], fun a ha => hout j _ a hj ha⟩
  · exact ⟨_, by rw [hres], fun a ha => hout j _ a hj ha⟩
  · exact ⟨st, by rw [hres, with_storage_self m st hst], fun _ _ => rfl⟩
  · exact ⟨st, by rw [hres, with_storage_self m st hst], fun _ _ => rfl⟩

/-! ### Deterministic forms -/

/-- With the first slot that holds the key known, the insert updates that slot. -/
theorem tlb_cache_write_update (cfg : Config) (hwf : cfg.WF) (m : memphy_struct)
    (st : Int → BYTE) (hst : m.storage = some st) (pid pgnum : Int) (frame : BYTE)
    (entry0 : Nat → BYTE) (j : Nat) (hj : j < cfg.ENTRIES_PER_SET)
    (hkey : slot_has_key cfg m st pgnum j pid pgnum)
    (hfirst : ∀ k, k < j → ¬ slot_has_key cfg m st pgnum k pid pgnum) :
    tlb_cache_write cfg (some m) pid pgnum frame entry0
      = (0, some (with_storage m (memcpy_to st (slot_of cfg pgnum j)
          (upd_entry cfg (entry_at st (slot_of cfg pgnum j)) frame) cfg.ENTRY_SIZE))) := by
  have h0 := in_device_of_le cfg hwf m pgnum 0 j hj (Nat.zero_le j) hkey.1
  rcases tlb_cache_write_in_device cfg hwf m st hst pid pgnum frame entry0 h0 with
    ⟨j', hj', hkey', hfirst', hres⟩ | ⟨_, _, _, _, _, hno, _⟩ | ⟨_, hno, _⟩
  · have h1 : ¬ j < j' := fun hlt => hfirst' j hlt hkey
    have h2 : ¬ j' < j := fun hlt => hfirst j' hlt hkey'
    have hjj : j' = j := by omega
    subst hjj
    exact hres
  · exact absurd hkey (hno j hj)
  · exact absurd hkey (hno j hj)

/-- With no slot holding the key and the first free slot known, the insert fills that
slot; only the bytes between the fields come from what the local array held. -/
theorem tlb_cache_write_insert (cfg : Config) (hwf : cfg.WF) (m : memphy_struct)
    (st : Int → BYTE) (hst : m.storage = some st) (pid pgnum : Int) (frame : BYTE)
    (entry0 : Nat → BYTE) (j : Nat) (hj : j < cfg.ENTRIES_PER_SET)
    (hfree : slot_free cfg m st pgnum j)
    (hfirst : ∀ k, k < j → ¬ slot_free cfg m st pgnum k)
    (hno : ∀ k, k < cfg.ENTRIES_PER_SET → ¬ slot_has_key cfg m st pgnum k pid pgnum) :
    ∃ buf, tlb_cache_write cfg (some m) pid pgnum frame entry0
      = (0, some (with_storage m (memcpy_to st (slot_of cfg pgnum j)
          (new_entry cfg buf pid pgnum frame) cfg.ENTRY_SIZE))) := by
  have h0 := in_device_of_le cfg hwf m pgnum 0 j hj (Nat.zero_le j) hfree.1
  rcases tlb_cache_write_in_device cfg hwf m st hst pid pgnum frame entry0 h0 with
    ⟨j', hj', hkey', _, _⟩ | ⟨j', buf, hj', hfree', hfirst', _, hres⟩ | ⟨hnofree, _, _⟩
  · exact absurd hkey' (hno j' hj')
  · have h1 : ¬ j < j' := fun hlt => hfirst' j hlt hfree
    have h2 : ¬ j' < j := fun hlt => hfirst j' hlt hfree'
    have hjj : j' = j := by omega
    subst hjj
    exact ⟨buf, hres⟩
  · exact absurd hfree (hnofree j hj)

/-- With every slot of the set a valid record of the device and none holding the key,
the insert fails and returns the device as it was. -/
theorem tlb_cache_write_full (cfg : Config) (hwf : cfg.WF) (m : memphy_struct)
    (st : Int → BYTE) (hst : m.storage = some st) (pid pgnum : Int) (frame : BYTE)
    (entry0 : Nat → BYTE)
    (hfull : ∀ k, k < cfg.ENTRIES_PER_SET → slot_valid cfg m st pgnum k)
    (hno : ∀ k, k < cfg.ENTRIES_PER_SET → ¬ slot_has_key cfg m st pgnum k pid pgnum) :
    tlb_cache_write cfg (some m) pid pgnum frame entry0 = (-1, some m) := by
  have hE : 0 < cfg.ENTRIES_PER_SET := hwf.2.2.2.2.2.2.2.2.2.2.2.2
  have h0 : in_device cfg m (slot_of cfg pgnum 0) := (hfull 0 hE).1
  rcases tlb_cache_write_in_device cfg hwf m st hst pid pgnum frame entry0 h0 with
    ⟨j, hj, hkey, _, _⟩ | ⟨j, buf, hj, hfree, _, _, _⟩ | ⟨_, _, hres⟩
  · exact absurd hkey (hno j hj)
  · exact absurd hfree.2 (hfull j hj).2
  · exact hres

/-- With the first slot that holds the key known, the lookup yields its frame byte. -/
theorem tlb_cache_read_hit (cfg : Config) (hwf : cfg.WF) (m : memphy_struct)
    (st : Int → BYTE) (hst : m.storage = some st) (pid pgnum : Int) (value : BYTE)
    (entry0 : Nat → BYTE) (j : Nat) (hj : j < cfg.ENTRIES_PER_SET)
    (hkey : slot_has_key cfg m st pgnum j pid pgnum)
    (hfirst : ∀ k, k < j → ¬ slot_has_key cfg m st pgnum k pid pgnum) :
    tlb_cache_read cfg (some m) pid pgnum value entry0
      = (0, toBYTE (decode_int (entry_at st (slot_of cfg pgnum j)) cfg.PFN_OFFSET)) := by
  have h0 := in_device_of_le cfg hwf m pgnum 0 j hj (Nat.zero_le j) hkey.1
  rcases tlb_cache_read_in_device cfg hwf m st hst pid pgnum value entry0 h0 with
    ⟨j', hj', hkey', hfirst', hres⟩ | ⟨hnone, _⟩
  · have h1 : ¬ j < j' := fun hlt => hfirst' j hlt hkey
    have h2 : ¬ j' < j := fun hlt => hfirst j' hlt hkey'
    have hjj : j' = j := by omega
    subst hjj
    exact hres
  · exact absurd hkey (hnone j hj)

/-- With no slot holding the key, the lookup misses and leaves `*value` alone. -/
theorem tlb_cache_read_miss (cfg : Config) (hwf : cfg.WF) (m : memphy_struct)
    (st : Int → BYTE) (hst : m.storage = some st) (pid pgnum : Int) (value : BYTE)
    (entry0 : Nat → BYTE) (h0 : in_device cfg m (slot_of cfg pgnum 0))
    (hno : ∀ k, k < cfg.ENTRIES_PER_SET → ¬ slot_has_key cfg m st pgnum k pid pgnum) :
    tlb_cache_read cfg (some m) pid pgnum value entry0 = (-1, value) := by
  rcases tlb_cache_read_in_device cfg hwf m st hst pid pgnum value entry0 h0 with
    ⟨j, hj, hkey, _, _⟩ | ⟨_, hres⟩
  · exact absurd hkey (hno j hj)
  · exact hres

/-- Among the slots below a bound that satisfy a property, there is a first one. -/
theorem exists_first (P : Nat → Prop) (n : Nat) (h : ∃ j, j < n ∧ P j) :
    ∃ j, j < n ∧ P j ∧ ∀ k, k < j → ¬ P k := by
  classical
  refine ⟨Nat.find h, (Nat.find_spec h).1, (Nat.find_spec h).2, ?_⟩
  intro k hk hPk
  exact Nat.find_min h hk ⟨by have := (Nat.find_spec h).1; omega, hPk⟩

/-- The bytes that an update of the record at `a` changes lie in its frame-number field
or are its validity byte. -/
theorem upd_bytes_changed (cfg : Config) (st : Int → BYTE) (a : Int) (frame : BYTE) (b : Int)
    (h1 : b < a + (cfg.PFN_OFFSET : Int) ∨ a + (cfg.PFN_OFFSET : Int) + 4 ≤ b)
    (h2 : b ≠ a + (cfg.VALID_OFFSET : Int)) :
    memcpy_to st a (upd_entry cfg (entry_at st a) frame) cfg.ENTRY_SIZE b = st b := by
  unfold memcpy_to
  split
  · rename_i hr
    rw [upd_entry_other cfg _ frame _ (by omega) (by omega)]
    unfold entry_at
    congr 1
    omega
  · rfl

theorem slot_valid_update (cfg : Config) (m : memphy_struct) (st : Int → BYTE) (pgnum : Int)
    (j : Nat) (frame : BYTE) (hj : entry_at st (slot_of cfg pgnum j) cfg.VALID_OFFSET ≠ 0)
    (hA : cfg.VALID_OFFSET < cfg.ENTRY_SIZE) (k : Nat) :
    slot_valid cfg
        (with_storage m (memcpy_to st (slot_of cfg pgnum j)
          (upd_entry cfg (entry_at st (slot_of cfg pgnum j)) frame) cfg.ENTRY_SIZE))
        (memcpy_to st (slot_of cfg pgnum j)
          (upd_entry cfg (entry_at st (slot_of cfg pgnum j)) frame) cfg.ENTRY_SIZE) pgnum k
      ↔ slot_valid cfg m st pgnum k := by
  unfold slot_valid
  rw [in_device_with_storage]
  by_cases hkj : k = j
  · subst hkj
    rw [entry_at_memcpy_to_same st _ _ _ _ hA, upd_entry_valid]
    constructor
    · intro h; exact ⟨h.1, hj⟩
    · intro h; exact ⟨h.1, by decide⟩
  · rw [show slot_of cfg pgnum j = slot_addr cfg (set_base cfg pgnum) j from rfl,
      show slot_of cfg pgnum k = slot_addr cfg (set_base cfg pgnum) k from rfl,
      entry_at_write_other cfg st (set_base cfg pgnum) j k _ _ hA hkj]

/-! ### Key uniqueness -/

theorem slot_of_inj (cfg : Config) (hwf : cfg.WF) (v0 v1 : Int) (i j : Nat)
    (hi : i < cfg.ENTRIES_PER_SET) (hj : j < cfg.ENTRIES_PER_SET)
    (h : slot_of cfg v0 i = slot_of cfg v1 j) :
    calculate_set_index cfg v0 = calculate_set_index cfg v1 ∧ i = j := by
  rw [slot_of_index, slot_of_index] at h
  have hpos := ENTRY_SIZE_pos cfg hwf
  have h' := Int.eq_of_mul_eq_mul_right (by omega) h
  have hs : calculate_set_index cfg v0 = calculate_set_index cfg v1 := by
    rcases lt_trichotomy (calculate_set_index cfg v0) (calculate_set_index cfg v1) with
      hlt | heq | hgt
    · have h1 : (calculate_set_index cfg v0 + 1) * (cfg.ENTRIES_PER_SET : Int)
          ≤ calculate_set_index cfg v1 * (cfg.ENTRIES_PER_SET : Int) :=
        Int.mul_le_mul_of_nonneg_right (by omega) (Int.ofNat_nonneg _)
      have h2 : (calculate_set_index cfg v0 + 1) * (cfg.ENTRIES_PER_SET : Int)
          = calculate_set_index cfg v0 * (cfg.ENTRIES_PER_SET : Int)
            + (cfg.ENTRIES_PER_SET : Int) := by ring
      omega
    · exact heq
    · have h1 : (calculate_set_index cfg v1 + 1) * (cfg.ENTRIES_PER_SET : Int)
          ≤ calculate_set_index cfg v0 * (cfg.ENTRIES_PER_SET : Int) :=
        Int.mul_le_mul_of_nonneg_right (by omega) (Int.ofNat_nonneg _)
      have h2 : (calculate_set_index cfg v1 + 1) * (cfg.ENTRIES_PER_SET : Int)
          = calculate_set_index cfg v1 * (cfg.ENTRIES_PER_SET : Int)
            + (cfg.ENTRIES_PER_SET : Int) := by ring
      omega
  refine ⟨hs, ?_⟩
  rw [hs] at h'
  omega

theorem slot_eq_or_disjoint (cfg : Config) (v0 v1 : Int) (i j : Nat) :
    slot_of cfg v0 i = slot_of cfg v1 j ∨
      ∀ x, x < cfg.ENTRY_SIZE →
        (slot_of cfg v0 i + (x : Int) < slot_of cfg v1 j ∨
          slot_of cfg v1 j + (cfg.ENTRY_SIZE : Int) ≤ slot_of cfg v0 i + (x : Int)) := by
  rw [slot_of_index, slot_of_index]
  by_cases ht : calculate_set_index cfg v1 * (cfg.ENTRIES_PER_SET : Int) + (j : Int)
      = calculate_set_index cfg v0 * (cfg.ENTRIES_PER_SET : Int) + (i : Int)
  · left; rw [ht]
  · right
    intro x hx
    exact records_disjoint cfg.ENTRY_SIZE _ _ x hx ht

theorem entry_matches_of_same_key (cfg : Config) (e e' : Nat → BYTE) (p v p' v' : Int)
    (h : entry_matches cfg e p v) (h' : entry_matches cfg e p' v')
    (h2 : entry_matches cfg e' p v) : entry_matches cfg e' p' v' := by
  obtain ⟨_, a1, a2⟩ := h
  obtain ⟨_, b1, b2⟩ := h'
  obtain ⟨c0, c1, c2⟩ := h2
  exact ⟨c0, by rw [c1, ← a1, b1], by rw [c2, ← a2, b2]⟩

theorem entry_matches_upd_iff (cfg : Config) (hwf : cfg.WF) (e : Nat → BYTE) (value : BYTE)
    (p v : Int) (hv : e cfg.VALID_OFFSET ≠ 0) :
    entry_matches cfg (upd_entry cfg e value) p v ↔ entry_matches cfg e p v := by
  unfold entry_matches
  rw [upd_entry_pid cfg hwf, upd_entry_vpn cfg hwf, upd_entry_valid]
  constructor
  · intro h; exact ⟨hv, h.2⟩
  · intro h; exact ⟨by decide, h.2⟩

/-- An update of a valid record leaves the key of every record of the table as it was. -/
theorem slot_has_key_after_update (cfg : Config) (hwf : cfg.WF) (m : memphy_struct)
    (st : Int → BYTE) (v1 : Int) (j : Nat) (frame : BYTE)
    (hv : entry_at st (slot_of cfg v1 j) cfg.VALID_OFFSET ≠ 0) (v0 : Int) (i : Nat) (p v : Int) :
    slot_has_key cfg
        (with_storage m (memcpy_to st (slot_of cfg v1 j)
          (upd_entry cfg (entry_at st (slot_of cfg v1 j)) frame) cfg.ENTRY_SIZE))
        (memcpy_to st (slot_of cfg v1 j)
          (upd_entry cfg (entry_at st (slot_of cfg v1 j)) frame) cfg.ENTRY_SIZE) v0 i p v
      ↔ slot_has_key cfg m st v0 i p v := by
  unfold slot_has_key
  rw [in_device_with_storage]
  rcases slot_eq_or_disjoint cfg v0 v1 i j with heq | hdis
  · rw [heq,
      entry_matches_congr cfg hwf _ _ p v
        (fun x hx => entry_at_memcpy_to_same st (slot_of cfg v1 j) _ _ x hx),
      entry_matches_upd_iff cfg hwf _ frame p v hv]
  · rw [entry_matches_congr cfg hwf _ _ p v
      (fun x hx => entry_at_memcpy_to_disjoint st (slot_of cfg v1 j) (slot_of cfg v0 i) _ _ x
        (hdis x hx))]

/-- Every call of `tlb_cache_write` keeps the key-uniqueness invariant. -/
theorem key_unique_write (cfg : Config) (hwf : cfg.WF) (mp : Option memphy_struct)
    (pid pgnum : Int) (frame : BYTE) (entry0 : Nat → BYTE) (hinv : key_unique cfg mp) :
    key_unique cfg (tlb_cache_write cfg mp pid pgnum frame entry0).2 := by
  cases mp with
  | none =>
    intro m st hm
    simp only [tlb_cache_write] at hm
    exact absurd hm (by simp)
  | some m =>
    cases hst : m.storage with
    | none =>
      simp only [tlb_cache_write, hst]
      exact hinv
    | some st =>
      rcases tlb_cache_write_post cfg hwf m st hst pid pgnum frame entry0 with
        ⟨j, hj, hr, hm, _, hres⟩ | ⟨j, buf, hj, hr, hinvalid, _, hno, hres⟩ | ⟨hres, _⟩ |
        ⟨hres, _⟩
      · rw [hres]
        intro m' st' hm' hst' v0 i i' p v hi hi' hk hk'
        simp only [Option.some.injEq] at hm'
        subst hm'
        rw [storage_with_storage] at hst'
        simp only [Option.some.injEq] at hst'
        subst hst'
        have e := slot_has_key_after_update cfg hwf m st pgnum j frame hm.1
        exact hinv m st rfl hst v0 i i' p v hi hi' ((e v0 i p v).mp hk) ((e v0 i' p v).mp hk')
      · rw [hres]
        intro m' st' hm' hst' v0 i i' p v hi hi' hk hk'
        simp only [Option.some.injEq] at hm'
        subst hm'
        rw [storage_with_storage] at hst'
        simp only [Option.some.injEq] at hst'
        subst hst'
        have hnew := new_entry_matches cfg hwf buf pid pgnum frame
        -- each of the two slots is the slot written or a slot left as it was
        have key : ∀ i0, i0 < cfg.ENTRIES_PER_SET →
            slot_has_key cfg (with_storage m (memcpy_to st (slot_of cfg pgnum j)
              (new_entry cfg buf pid pgnum frame) cfg.ENTRY_SIZE))
              (memcpy_to st (slot_of cfg pgnum j) (new_entry cfg buf pid pgnum frame)
                cfg.ENTRY_SIZE) v0 i0 p v →
            (slot_of cfg v0 i0 = slot_of cfg pgnum j ∧
              entry_matches cfg (new_entry cfg buf pid pgnum frame) p v) ∨
            (slot_of cfg v0 i0 ≠ slot_of cfg pgnum j ∧ slot_has_key cfg m st v0 i0 p v) := by
          intro i0 _ hk0
          rcases slot_eq_or_disjoint cfg v0 pgnum i0 j with heq | hdis
          · left
            refine ⟨heq, ?_⟩
            have := hk0.2
            rw [heq] at this
            exact (entry_matches_congr cfg hwf _ _ p v
              (fun x hx => entry_at_memcpy_to_same st (slot_of cfg pgnum j) _ _ x hx)).mp this
          · right
            have hne : slot_of cfg v0 i0 ≠ slot_of cfg pgnum j := by
              intro heq
              have := hdis 0 (by have := ENTRY_SIZE_pos cfg hwf; omega)
              have := ENTRY_SIZE_pos cfg hwf
              omega
            refine ⟨hne, hk0.1, ?_⟩
            exact (entry_matches_congr cfg hwf _ _ p v
              (fun x hx => entry_at_memcpy_to_disjoint st (slot_of cfg pgnum j)
                (slot_of cfg v0 i0) _ _ x (hdis x hx))).mp hk0.2
        -- a slot left as it was cannot hold the key of the record written
        have clash : ∀ i0 i1, i0 < cfg.ENTRIES_PER_SET → i1 < cfg.ENTRIES_PER_SET →
            slot_of cfg v0 i0 = slot_of cfg pgnum j →
            entry_matches cfg (new_entry cfg buf pid pgnum frame) p v →
            slot_has_key cfg m st v0 i1 p v → False := by
          intro i0 i1 h0 h1 heq hmat hk1
          obtain ⟨hset, _⟩ := slot_of_inj cfg hwf v0 pgnum i0 j h0 hj heq
          have e1 : slot_of cfg v0 i1 = slot_of cfg pgnum i1 := slot_of_congr cfg v0 pgnum i1 hset
          have hin := hk1.1
          have hmt := hk1.2
          rw [e1] at hin hmt
          exact hno i1 h1 (readable_of_in_device cfg m _ hin)
            (entry_matches_of_same_key cfg _ _ p v pid pgnum hmat hnew hmt)
        rcases key i hi hk with ⟨ha, hma⟩ | ⟨ha, hka⟩
        · rcases key i' hi' hk' with ⟨hb, _⟩ | ⟨_, hkb⟩
          · exact (slot_of_inj cfg hwf v0 v0 i i' hi hi' (by rw [ha, hb])).2
          · exact absurd (clash i i' hi hi' ha hma hkb) id
        · rcases key i' hi' hk' with ⟨hb, hmb⟩ | ⟨_, hkb⟩
          · exact absurd (clash i' i hi' hi hb hmb hka) id
          · exact hinv m st rfl hst v0 i i' p v hi hi' hka hkb
      · rw [hres]; exact hinv
      · rw [hres]; exact hinv

/-! ### The scenario with four sets of two slots -/

theorem entry_at_slot_other (cfg : Config) (st : Int → BYTE) (pgnum : Int) (j k : Nat)
    (data : Nat → BYTE) (x : Nat) (hx : x < cfg.ENTRY_SIZE) (h : k ≠ j) :
    entry_at (memcpy_to st (slot_of cfg pgnum j) data cfg.ENTRY_SIZE) (slot_of cfg pgnum k) x
      = entry_at st (slot_of cfg pgnum k) x :=
  entry_at_write_other cfg st (set_base cfg pgnum) j k data x hx h

theorem with_storage_twice (m : memphy_struct) (a b : Int → BYTE) :
    with_storage (with_storage m a) b = with_storage m b := rfl

theorem entry_matches_new_entry_iff (cfg : Config) (hwf : cfg.WF) (buf : Nat → BYTE)
    (pid pgnum : Int) (frame : BYTE) (p v : Int) :
    entry_matches cfg (new_entry cfg buf pid pgnum frame) p v
      ↔ (p % 4294967296 = pid % 4294967296 ∧ v % 4294967296 = pgnum % 4294967296) := by
  unfold entry_matches
  rw [new_entry_valid, new_entry_pid cfg hwf, new_entry_vpn cfg hwf]
  constructor
  · intro h; exact ⟨h.2.1.symm, h.2.2.symm⟩
  · intro h; exact ⟨by decide, h.1.symm, h.2.symm⟩

/-- The scenario of the specification, for any layout of the record and any device that
holds set 1 with both slots invalid. -/
theorem scenario_4x2 (cfg : Config) (hwf : cfg.WF) (hN : cfg.NUM_SETS = 4)
    (hE : cfg.ENTRIES_PER_SET = 2) (m : memphy_struct) (st : Int → BYTE)
    (hst : m.storage = some st) (hfree : ∀ k, k < 2 → slot_free cfg m st 5 k)
    (e0 e1 e2 e3 e4 e5 : Nat → BYTE) (value : BYTE) :
    ∃ st1 st2 : Int → BYTE,
      calculate_set_index cfg 5 = 1 ∧ calculate_set_index cfg 9 = 1 ∧
      calculate_set_index cfg 13 = 1 ∧
      tlb_cache_write cfg (some m) 1 5 10 e0 = (0, some (with_storage m st1)) ∧
      slot_has_key cfg m st1 5 0 1 5 ∧
      decode_int (entry_at st1 (slot_of cfg 5 0)) cfg.PFN_OFFSET = 10 ∧
      tlb_cache_write cfg (some (with_storage m st1)) 2 9 20 e1
        = (0, some (with_storage m st2)) ∧
      slot_has_key cfg m st2 9 1 2 9 ∧
      decode_int (entry_at st2 (slot_of cfg 9 1)) cfg.PFN_OFFSET = 20 ∧
      tlb_cache_write cfg (some (with_storage m st2)) 1 13 30 e2
        = (-1, some (with_storage m st2)) ∧
      tlb_cache_read cfg (some (with_storage m st2)) 1 5 value e3 = (0, 10) ∧
      tlb_cache_read cfg (some (with_storage m st2)) 2 9 value e4 = (0, 20) ∧
      tlb_cache_read cfg (some (with_storage m st2)) 1 13 value e5 = (-1, value) := by
  have hs5 : calculate_set_index cfg 5 = 1 := by
    unfold calculate_set_index; rw [hN]; rfl
  have hs9 : calculate_set_index cfg 9 = 1 := by
    unfold calculate_set_index; rw [hN]; rfl
  have hs13 : calculate_set_index cfg 13 = 1 := by
    unfold calculate_set_index; rw [hN]; rfl
  have c9 : ∀ k, slot_of cfg 9 k = slot_of cfg 5 k :=
    fun k => slot_of_congr cfg 9 5 k (by rw [hs9, hs5])
  have c13 : ∀ k, slot_of cfg 13 k = slot_of cfg 5 k :=
    fun k => slot_of_congr cfg 13 5 k (by rw [hs13, hs5])
  have hA := hwf.2.2.2.2.1
  have hF := hwf.2.2.2.1
  have b10 : BYTE_to_uint32 cfg 10 = 10 := by
    unfold BYTE_to_uint32; rw [if_neg]; · rfl
    · intro h; exact absurd h.2 (by decide)
  have b20 : BYTE_to_uint32 cfg 20 = 20 := by
    unfold BYTE_to_uint32; rw [if_neg]; · rfl
    · intro h; exact absurd h.2 (by decide)
  have two : ∀ k, k < cfg.ENTRIES_PER_SET → k = 0 ∨ k = 1 := by
    intro k hk; rw [hE] at hk; omega
  have in0 : in_device cfg m (slot_of cfg 5 0) := (hfree 0 (by omega)).1
  have in1 : in_device cfg m (slot_of cfg 5 1) := (hfree 1 (by omega)).1
  -- first insert
  have hno1 : ∀ k, k < cfg.ENTRIES_PER_SET → ¬ slot_has_key cfg m st 5 k 1 5 := by
    intro k hk hkey
    rcases two k hk with h | h <;> subst h
    · exact hkey.2.1 (hfree 0 (by omega)).2
    · exact hkey.2.1 (hfree 1 (by omega)).2
  obtain ⟨buf1, hw1⟩ := tlb_cache_write_insert cfg hwf m st hst 1 5 10 e0 0 (by omega)
    (hfree 0 (by omega)) (fun k hk => absurd hk (Nat.not_lt_zero k)) hno1
  -- the two slots after the first insert
  have m10 : ∀ p v, entry_matches cfg
      (entry_at (memcpy_to st (slot_of cfg 5 0) (new_entry cfg buf1 1 5 10) cfg.ENTRY_SIZE)
        (slot_of cfg 5 0)) p v ↔ (p % 4294967296 = 1 % 4294967296 ∧ v % 4294967296 = 5 % 4294967296) :=
    fun p v => (entry_matches_write_same cfg hwf st 5 0 _ p v).trans
      (entry_matches_new_entry_iff cfg hwf buf1 1 5 10 p v)
  have v11 : entry_at (memcpy_to st (slot_of cfg 5 0) (new_entry cfg buf1 1 5 10) cfg.ENTRY_SIZE)
      (slot_of cfg 5 1) cfg.VALID_OFFSET = 0 := by
    rw [entry_at_slot_other cfg st 5 0 1 _ _ hA (by omega)]
    exact (hfree 1 (by omega)).2
  have v10 : entry_at (memcpy_to st (slot_of cfg 5 0) (new_entry cfg buf1 1 5 10) cfg.ENTRY_SIZE)
      (slot_of cfg 5 0) cfg.VALID_OFFSET = 1 := by
    rw [entry_at_memcpy_to_same st _ _ _ _ hA, new_entry_valid]
  -- second insert
  have hno2 : ∀ k, k < cfg.ENTRIES_PER_SET →
      ¬ slot_has_key cfg (with_storage m (memcpy_to st (slot_of cfg 5 0)
        (new_entry cfg buf1 1 5 10) cfg.ENTRY_SIZE))
        (memcpy_to st (slot_of cfg 5 0) (new_entry cfg buf1 1 5 10) cfg.ENTRY_SIZE) 9 k 2 9 := by
    intro k hk hkey
    have hm := hkey.2
    rw [c9] at hm
    rcases two k hk with h | h <;> subst h
    · have := ((m10 2 9).mp hm).1
      omega
    · exact hm.1 v11
  obtain ⟨buf2, hw2⟩ := tlb_cache_write_insert cfg hwf _ _ (storage_with_storage m _) 2 9 20 e1 1
    (by omega) ⟨by rw [c9]; exact in1, by rw [c9]; exact v11⟩
    (by
      intro k hk hfr
      have : k = 0 := by omega
      subst this
      have := hfr.2
      rw [c9, v10] at this
      exact absurd this (by decide))
    hno2
  rw [c9, with_storage_twice] at hw2
  -- the two slots after the second insert
  have m20 : ∀ p v, entry_matches cfg
      (entry_at (memcpy_to (memcpy_to st (slot_of cfg 5 0) (new_entry cfg buf1 1 5 10)
        cfg.ENTRY_SIZE) (slot_of cfg 5 1) (new_entry cfg buf2 2 9 20) cfg.ENTRY_SIZE)
        (slot_of cfg 5 0)) p v ↔ (p % 4294967296 = 1 % 4294967296 ∧ v % 4294967296 = 5 % 4294967296) :=
    fun p v => (entry_matches_write_other cfg hwf _ 5 1 0 (by omega) _ p v).trans (m10 p v)
  have m21 : ∀ p v, entry_matches cfg
      (entry_at (memcpy_to (memcpy_to st (slot_of cfg 5 0) (new_entry cfg buf1 1 5 10)
        cfg.ENTRY_SIZE) (slot_of cfg 5 1) (new_entry cfg buf2 2 9 20) cfg.ENTRY_SIZE)
        (slot_of cfg 5 1)) p v ↔ (p % 4294967296 = 2 % 4294967296 ∧ v % 4294967296 = 9 % 4294967296) :=
    fun p v => (entry_matches_write_same cfg hwf _ 5 1 _ p v).trans
      (entry_matches_new_entry_iff cfg hwf buf2 2 9 20 p v)
  have f20 : decode_int
      (entry_at (memcpy_to (memcpy_to st (slot_of cfg 5 0) (new_entry cfg buf1 1 5 10)
        cfg.ENTRY_SIZE) (slot_of cfg 5 1) (new_entry cfg buf2 2 9 20) cfg.ENTRY_SIZE)
        (slot_of cfg 5 0)) cfg.PFN_OFFSET = 10 := by
    rw [decode_int_congr _ (entry_at (memcpy_to st (slot_of cfg 5 0) (new_entry cfg buf1 1 5 10)
        cfg.ENTRY_SIZE) (slot_of cfg 5 0)) cfg.PFN_OFFSET
      (fun x hx => entry_at_slot_other cfg _ 5 1 0 _ _ (by omega) (by omega)),
      decode_write_same cfg st 5 0 _ _ hF, new_entry_pfn cfg hwf, b10]
  have f21 : decode_int
      (entry_at (memcpy_to (memcpy_to st (slot_of cfg 5 0) (new_entry cfg buf1 1 5 10)
        cfg.ENTRY_SIZE) (slot_of cfg 5 1) (new_entry cfg buf2 2 9 20) cfg.ENTRY_SIZE)
        (slot_of cfg 5 1)) cfg.PFN_OFFSET = 20 := by
    rw [decode_write_same cfg _ 5 1 _ _ hF, new_entry_pfn cfg hwf, b20]
  refine ⟨_, _, hs5, hs9, hs13, hw1, ⟨in0, (m10 1 5).mpr ⟨rfl, rfl⟩⟩, ?_, hw2, ?_, ?_, ?_, ?_, ?_, ?_⟩
  · rw [decode_write_same cfg st 5 0 _ _ hF, new_entry_pfn cfg hwf, b10]
  · refine ⟨by rw [c9]; exact in1, ?_⟩
    rw [c9]
    exact (m21 2 9).mpr ⟨rfl, rfl⟩
  · rw [c9]; exact f21
  · apply tlb_cache_write_full cfg hwf _ _ (storage_with_storage m _)
    · intro k hk
      rcases two k hk with h | h <;> subst h
      · refine ⟨by rw [c13]; exact in0, ?_⟩
        rw [c13]
        exact ((m20 1 5).mpr ⟨rfl, rfl⟩).1
      · refine ⟨by rw [c13]; exact in1, ?_⟩
        rw [c13]
        exact ((m21 2 9).mpr ⟨rfl, rfl⟩).1
    · intro k hk hkey
      have hm := hkey.2
      rw [c13] at hm
      rcases two k hk with h | h <;> subst h
      · have := ((m20 1 13).mp hm).2
        omega
      · have := ((m21 1 13).mp hm).1
        omega
  · have h := tlb_cache_read_hit cfg hwf _ _ (storage_with_storage m _) 1 5 value e3 0
      (by omega) ⟨in0, (m20 1 5).mpr ⟨rfl, rfl⟩⟩ (fun k hk => absurd hk (Nat.not_lt_zero k))
    rw [h, f20]
    rfl
  · have h := tlb_cache_read_hit cfg hwf _ _ (storage_with_storage m _) 2 9 value e4 1
      (by omega) ⟨by rw [c9]; exact in1, by rw [c9]; exact (m21 2 9).mpr ⟨rfl, rfl⟩⟩
      (by
        intro k hk hkey
        have : k = 0 := by omega
        subst this
        have hm := hkey.2
        rw [c9] at hm
        have := ((m20 2 9).mp hm).1
        omega)
    rw [h, c9, f21]
    rfl
  · apply tlb_cache_read_miss cfg hwf _ _ (storage_with_storage m _)
    · rw [c13]; exact in0
    · intro k hk hkey
      have hm := hkey.2
      rw [c13] at hm
      rcases two k hk with h | h <;> subst h
      · have := ((m20 1 13).mp hm).2
        omega
      · have := ((m21 1 13).mp hm).1
        omega

/-! ### The page-fault path -/

/-- An insert into a set that has a free slot in the device reports success. -/
theorem tlb_cache_write_ok_of_free (cfg : Config) (hwf : cfg.WF) (m : memphy_struct)
    (st : Int → BYTE) (hst : m.storage = some st) (pid pgnum : Int) (frame : BYTE)
    (entry0 : Nat → BYTE)
    (hfree : ∃ j, j < cfg.ENTRIES_PER_SET ∧ slot_free cfg m st pgnum j) :
    (tlb_cache_write cfg (some m) pid pgnum frame entry0).1 = 0 := by
  obtain ⟨j, hj, hf⟩ := hfree
  have h0 := in_device_of_le cfg hwf m pgnum 0 j hj (Nat.zero_le j) hf.1
  rcases tlb_cache_write_in_device cfg hwf m st hst pid pgnum frame entry0 h0 with
    ⟨_, _, _, _, hres⟩ | ⟨_, _, _, _, _, _, hres⟩ | ⟨hnofree, _, _⟩
  · rw [hres]
  · rw [hres]
  · exact absurd hf (hnofree j hj)

/-- After a page fault handled with success on a set that has a free slot in the device,
the lookup hits and yields the frame byte that the handler passed to the cache. -/
theorem handle_page_fault_then_read (cfg : Config) (hwf : cfg.WF) (ext : Extern) (proc : pcb_t)
    (m : memphy_struct) (st : Int → BYTE) (htlb : proc.tlb = some m) (hst : m.storage = some st)
    (va : Nat) (value : BYTE) (entry1 entry2 : Nat → BYTE)
    (hfree : ∃ j, j < cfg.ENTRIES_PER_SET ∧
      slot_free cfg m st (int_of_uint32 (ext.PAGING_PGN va % 4294967296)) j)
    (hok : (handle_page_fault cfg ext proc va entry1).1 = 0) :
    (proc.pgd (ext.PAGING_PGN va % 4294967296) &&& ext.PAGING_PTE_PRESENT_MASK ≠ 0 →
      tlb_cache_read cfg (handle_page_fault cfg ext proc va entry1).2.tlb
          (int_of_uint32 (handle_page_fault cfg ext proc va entry1).2.pid)
          (int_of_uint32 (ext.PAGING_PGN va % 4294967296)) value entry2
        = (0, toBYTE (ext.PAGING_FPN (proc.pgd (ext.PAGING_PGN va % 4294967296))))) ∧
    (¬ proc.pgd (ext.PAGING_PGN va % 4294967296) &&& ext.PAGING_PTE_PRESENT_MASK ≠ 0 →
      ∃ frame, (ext.alloc_pages_range proc 1).2 = some frame ∧
        (handle_page_fault cfg ext proc va entry1).2.pgd (ext.PAGING_PGN va % 4294967296)
          = ext.init_pte (proc.pgd (ext.PAGING_PGN va % 4294967296)) 1 frame.fpn 1 0 0 0 ∧
        tlb_cache_read cfg (handle_page_fault cfg ext proc va entry1).2.tlb
            (int_of_uint32 (handle_page_fault cfg ext proc va entry1).2.pid)
            (int_of_uint32 (ext.PAGING_PGN va % 4294967296)) value entry2
          = (0, toBYTE (frame.fpn % 256).toNat)) := by
  have h0 : in_device cfg m (slot_of cfg (int_of_uint32 (ext.PAGING_PGN va % 4294967296)) 0) := by
    obtain ⟨j, hj, hf⟩ := hfree
    exact in_device_of_le cfg hwf m _ 0 j hj (Nat.zero_le j) hf.1
  constructor
  · intro hp
    unfold handle_page_fault
    simp only [if_pos hp, htlb]
    exact tlb_cache_read_after_write cfg hwf m st hst _ _ _ value entry1 entry2 h0
      (tlb_cache_write_ok_of_free cfg hwf m st hst _ _ _ entry1 hfree)
  · intro hp
    unfold handle_page_fault at hok ⊢
    simp only [if_neg hp, htlb] at hok ⊢
    cases ha : (ext.alloc_pages_range proc 1).2 with
    | none =>
      rw [ha] at hok
      simp only [] at hok
      omega
    | some frame =>
      rw [ha] at hok
      simp only [] at hok ⊢
      by_cases hc : (ext.alloc_pages_range proc 1).1 ≠ 0
      · rw [if_pos hc] at hok
        simp only [] at hok
        omega
      · refine ⟨frame, rfl, ?_, ?_⟩
        · rw [if_neg hc]
          simp only [Function.update_same]
        · rw [if_neg hc]
          simp only []
          exact tlb_cache_read_after_write cfg hwf m st hst _ _ _ value entry1 entry2 h0
            (tlb_cache_write_ok_of_free cfg hwf m st hst _ _ _ entry1 hfree)

/-! ### `tlbwrite` when the byte write fails -/

/-- When the byte write fails, the end of `tlbwrite` returns a failure and leaves the
cache device alone. -/
theorem tlbwrite_transfer_failed (cfg : Config) (ext : Extern) (p : pcb_t) (data : BYTE)
    (destination offset page_number : Nat) (frmnum : BYTE) (entry3 : Nat → BYTE)
    (hfail : ∀ q : pcb_t, (ext.__write q 0 destination offset data).1 ≠ 0) :
    (tlbwrite_transfer cfg ext p data destination offset page_number frmnum entry3).1 ≠ 0 ∧
    (tlbwrite_transfer cfg ext p data destination offset page_number frmnum entry3).2.tlb
      = p.tlb := by
  unfold tlbwrite_transfer
  by_cases hb : BYTE_nonneg cfg frmnum
  · rw [if_pos hb]
    simp only []
    rw [if_neg (hfail p)]
    exact ⟨hfail p, rfl⟩
  · rw [if_neg hb]
    exact ⟨by simp, rfl⟩

/-- When the byte write fails, `tlbwrite` returns a failure; the cache device is the one
before the call if the first lookup hit, and the one the fault handler left otherwise. -/
theorem tlbwrite_failed (cfg : Config) (ext : Extern) (proc : pcb_t) (data : BYTE)
    (destination offset : Nat) (entry0 entry1 entry2 entry3 : Nat → BYTE)
    (hfail : ∀ q : pcb_t, (ext.__write q 0 destination offset data).1 ≠ 0) :
    (tlbwrite cfg ext proc data destination offset entry0 entry1 entry2 entry3).1 ≠ 0 ∧
    ((tlb_cache_read cfg proc.tlb (int_of_uint32 proc.pid)
        (int_of_uint32 (ext.PAGING_PGN ((proc.regs destination + offset) % 4294967296)
          % 4294967296)) 255 entry0).1 = 0 →
      (tlbwrite cfg ext proc data destination offset entry0 entry1 entry2 entry3).2.tlb
        = proc.tlb) ∧
    ((tlb_cache_read cfg proc.tlb (int_of_uint32 proc.pid)
        (int_of_uint32 (ext.PAGING_PGN ((proc.regs destination + offset) % 4294967296)
          % 4294967296)) 255 entry0).1 ≠ 0 →
      (tlbwrite cfg ext proc data destination offset entry0 entry1 entry2 entry3).2.tlb
        = (handle_page_fault cfg ext proc ((proc.regs destination + offset) % 4294967296)
            entry1).2.tlb) := by
  cases htlb : proc.tlb with
  | none =>
    have hw : tlbwrite cfg ext proc data destination offset entry0 entry1 entry2 entry3
        = (-1, proc) := by
      unfold tlbwrite
      simp only [htlb]
    rw [hw]
    refine ⟨by simp, fun _ => htlb, fun _ => ?_⟩
    show proc.tlb = _
    unfold handle_page_fault
    simp only [htlb, tlb_cache_write]
    split
    · rfl
    · split
      · exact htlb.symm
      · split
        · exact htlb.symm
        · rfl
  | some m =>
    rw [← htlb]
    unfold tlbwrite
    simp only [htlb]
    rw [← htlb]
    by_cases h1 : (tlb_cache_read cfg proc.tlb (int_of_uint32 proc.pid)
        (int_of_uint32 (ext.PAGING_PGN ((proc.regs destination + offset) % 4294967296)
          % 4294967296)) 255 entry0).1 ≠ 0
    · rw [if_pos h1]
      by_cases h2 : (handle_page_fault cfg ext proc
          ((proc.regs destination + offset) % 4294967296) entry1).1 ≠ 0
      · rw [if_pos h2]
        exact ⟨by simp, fun h => absurd h h1, fun _ => rfl⟩
      · rw [if_neg h2]
        split
        · exact ⟨by simp, fun h => absurd h h1, fun _ => rfl⟩
        · have := tlbwrite_transfer_failed cfg ext
            (handle_page_fault cfg ext proc ((proc.regs destination + offset) % 4294967296)
              entry1).2 data destination offset
            (ext.PAGING_PGN ((proc.regs destination + offset) % 4294967296) % 4294967296)
            (tlb_cache_read cfg
              (handle_page_fault cfg ext proc ((proc.regs destination + offset) % 4294967296)
                entry1).2.tlb
              (int_of_uint32 (handle_page_fault cfg ext proc
                ((proc.regs destination + offset) % 4294967296) entry1).2.pid)
              (int_of_uint32 (ext.PAGING_PGN ((proc.regs destination + offset) % 4294967296)
                % 4294967296))
              (tlb_cache_read cfg proc.tlb (int_of_uint32 proc.pid)
                (int_of_uint32 (ext.PAGING_PGN ((proc.regs destination + offset) % 4294967296)
                  % 4294967296)) 255 entry0).2 entry2).2 entry3 hfail
          exact ⟨this.1, fun h => absurd h h1, fun _ => this.2⟩
    · rw [if_neg h1]
      have := tlbwrite_transfer_failed cfg ext proc data destination offset
        (ext.PAGING_PGN ((proc.regs destination + offset) % 4294967296) % 4294967296)
        (tlb_cache_read cfg proc.tlb (int_of_uint32 proc.pid)
          (int_of_uint32 (ext.PAGING_PGN ((proc.regs destination + offset) % 4294967296)
            % 4294967296)) 255 entry0).2 entry3 hfail
      exact ⟨this.1, fun _ => this.2, fun h => absurd h h1⟩

/-! ### `tlbread` and `tlbwrite` when the transfer succeeds -/

theorem tlbwrite_transfer_ok (cfg : Config) (ext : Extern) (p : pcb_t) (data : BYTE)
    (destination offset page_number : Nat) (frmnum : BYTE) (entry3 : Nat → BYTE)
    (hb : BYTE_nonneg cfg frmnum) (hw : (ext.__write p 0 destination offset data).1 = 0) :
    (tlbwrite_transfer cfg ext p data destination offset page_number frmnum entry3).1 = 0 := by
  unfold tlbwrite_transfer
  rw [if_pos hb]
  simp only []
  rw [if_pos hw]
  exact hw

theorem tlbread_transfer_ok (cfg : Config) (ext : Extern) (p : pcb_t)
    (source offset : Nat) (frmnum : BYTE) (destination : Nat)
    (hb : BYTE_nonneg cfg frmnum) (hr : (ext.__read p 0 source offset).1 = 0) :
    (tlbread_transfer cfg ext p source offset frmnum destination).1 = 0 := by
  unfold tlbread_transfer
  rw [if_pos hb]
  simp only []
  rw [if_neg (by simpa using hr)]
  exact hr

/-- The second lookup of an access hits when the handler succeeded on a set that has a
free slot in the device. -/
theorem second_lookup_hits (cfg : Config) (hwf : cfg.WF) (ext : Extern) (proc : pcb_t)
    (m : memphy_struct) (st : Int → BYTE) (htlb : proc.tlb = some m) (hst : m.storage = some st)
    (reg offset : Nat) (entry0 entry1 entry2 : Nat → BYTE)
    (hfree : ∃ j, j < cfg.ENTRIES_PER_SET ∧
      slot_free cfg m st (int_of_uint32 (access_page ext proc reg offset)) j)
    (hok : (after_fault cfg ext proc reg offset entry1).1 = 0) :
    (second_lookup cfg ext proc reg offset entry0 entry1 entry2).1 = 0 := by
  have h := handle_page_fault_then_read cfg hwf ext proc m st htlb hst
    (access_address proc reg offset) (first_lookup cfg ext proc reg offset entry0).2 entry1 entry2
    hfree hok
  unfold second_lookup after_fault
  by_cases hp : proc.pgd (ext.PAGING_PGN (access_address proc reg offset) % 4294967296)
      &&& ext.PAGING_PTE_PRESENT_MASK ≠ 0
  · have := h.1 hp
    unfold access_page
    rw [this]
  · obtain ⟨frame, _, _, this⟩ := h.2 hp
    unfold access_page
    rw [this]

/-- The return code of `tlbwrite` is that of the end of the function, unless a lookup
misses after a miss or the handler fails. -/
theorem tlbwrite_code (cfg : Config) (ext : Extern) (proc : pcb_t) (m : memphy_struct)
    (htlb : proc.tlb = some m) (data : BYTE) (destination offset : Nat)
    (entry0 entry1 entry2 entry3 : Nat → BYTE) :
    ((first_lookup cfg ext proc destination offset entry0).1 = 0 →
      tlbwrite cfg ext proc data destination offset entry0 entry1 entry2 entry3
        = tlbwrite_transfer cfg ext proc data destination offset
            (access_page ext proc destination offset)
            (first_lookup cfg ext proc destination offset entry0).2 entry3) ∧
    ((first_lookup cfg ext proc destination offset entry0).1 ≠ 0 →
      (after_fault cfg ext proc destination offset entry1).1 = 0 →
      (second_lookup cfg ext proc destination offset entry0 entry1 entry2).1 = 0 →
      tlbwrite cfg ext proc data destination offset entry0 entry1 entry2 entry3
        = tlbwrite_transfer cfg ext (after_fault cfg ext proc destination offset entry1).2 data
            destination offset (access_page ext proc destination offset)
            (second_lookup cfg ext proc destination offset entry0 entry1 entry2).2 entry3) ∧
    ((first_lookup cfg ext proc destination offset entry0).1 ≠ 0 →
      (after_fault cfg ext proc destination offset entry1).1 = 0 →
      (second_lookup cfg ext proc destination offset entry0 entry1 entry2).1 ≠ 0 →
      tlbwrite cfg ext proc data destination offset entry0 entry1 entry2 entry3
        = (-1, (after_fault cfg ext proc destination offset entry1).2)) := by
  unfold second_lookup after_fault first_lookup access_page access_address
  refine ⟨?_, ?_, ?_⟩
  · intro h1
    unfold tlbwrite
    simp only [htlb]
    rw [← htlb, if_neg (by simpa using h1)]
  · intro h1 h2 h3
    unfold tlbwrite
    simp only [htlb]
    rw [← htlb, if_pos h1, if_neg (by simpa using h2), if_neg (by simpa using h3)]
  · intro h1 h2 h3
    unfold tlbwrite
    simp only [htlb]
    rw [← htlb, if_pos h1, if_neg (by simpa using h2), if_pos h3]

/-- The same for `tlbread`. -/
theorem tlbread_code (cfg : Config) (ext : Extern) (proc : pcb_t) (m : memphy_struct)
    (htlb : proc.tlb = some m) (source offset destination : Nat)
    (entry0 entry1 entry2 : Nat → BYTE) :
    ((first_lookup cfg ext proc destination offset entry0).1 = 0 →
      tlbread cfg ext proc source offset destination entry0 entry1 entry2
        = tlbread_transfer cfg ext proc source offset
            (first_lookup cfg ext proc destination offset entry0).2 destination) ∧
    ((first_lookup cfg ext proc destination offset entry0).1 ≠ 0 →
      (after_fault cfg ext proc destination offset entry1).1 = 0 →
      (second_lookup cfg ext proc destination offset entry0 entry1 entry2).1 = 0 →
      tlbread cfg ext proc source offset destination entry0 entry1 entry2
        = tlbread_transfer cfg ext (after_fault cfg ext proc destination offset entry1).2 source
            offset (second_lookup cfg ext proc destination offset entry0 entry1 entry2).2
            destination) ∧
    ((first_lookup cfg ext proc destination offset entry0).1 ≠ 0 →
      (after_fault cfg ext proc destination offset entry1).1 = 0 →
      (second_lookup cfg ext proc destination offset entry0 entry1 entry2).1 ≠ 0 →
      tlbread cfg ext proc source offset destination entry0 entry1 entry2
        = (-1, (after_fault cfg ext proc destination offset entry1).2, destination)) := by
  unfold second_lookup after_fault first_lookup access_page access_address
  refine ⟨?_, ?_, ?_⟩
  · intro h1
    unfold tlbread
    simp only [htlb]
    rw [← htlb, if_neg (by simpa using h1)]
  · intro h1 h2 h3
    unfold tlbread
    simp only [htlb]
    rw [← htlb, if_pos h1, if_neg (by simpa using h2), if_neg (by simpa using h3)]
  · intro h1 h2 h3
    unfold tlbread
    simp only [htlb]
    rw [← htlb, if_pos h1, if_neg (by simpa using h2), if_pos h3]

/-! ### `tlbread` and `tlbwrite` on a full set -/

/-- On a set whose slots are all valid records of the device, none with the key of the
faulting page, the fault handler leaves the cache device as it is, whatever it returns. -/
theorem handle_page_fault_full (cfg : Config) (hwf : cfg.WF) (ext : Extern) (proc : pcb_t)
    (m : memphy_struct) (st : Int → BYTE) (htlb : proc.tlb = some m) (hst : m.storage = some st)
    (va : Nat) (entry1 : Nat → BYTE)
    (hfull : ∀ k, k < cfg.ENTRIES_PER_SET →
      slot_valid cfg m st (int_of_uint32 (ext.PAGING_PGN va % 4294967296)) k)
    (hno : ∀ k, k < cfg.ENTRIES_PER_SET →
      ¬ slot_has_key cfg m st (int_of_uint32 (ext.PAGING_PGN va % 4294967296)) k
        (int_of_uint32 proc.pid) (int_of_uint32 (ext.PAGING_PGN va % 4294967296))) :
    (handle_page_fault cfg ext proc va entry1).2.tlb = some m ∧
    (handle_page_fault cfg ext proc va entry1).2.pid = proc.pid := by
  unfold handle_page_fault
  by_cases hp : proc.pgd (ext.PAGING_PGN va % 4294967296) &&& ext.PAGING_PTE_PRESENT_MASK ≠ 0
  · simp only [if_pos hp, htlb]
    rw [tlb_cache_write_full cfg hwf m st hst _ _ _ entry1 hfull hno]
    exact ⟨rfl, trivial⟩
  · simp only [if_neg hp, htlb]
    cases ha : (ext.alloc_pages_range proc 1).2 with
    | none => exact ⟨htlb, rfl⟩
    | some frame =>
      simp only []
      by_cases hc : (ext.alloc_pages_range proc 1).1 ≠ 0
      · rw [if_pos hc]
        exact ⟨htlb, rfl⟩
      · rw [if_neg hc]
        simp only []
        rw [tlb_cache_write_full cfg hwf m st hst _ _ _ entry1 hfull hno]
        exact ⟨rfl, trivial⟩

/-- When the first lookup misses and the fault handler fails, `tlbwrite` and `tlbread`
return `-1`. -/
theorem access_handler_failed (cfg : Config) (ext : Extern) (proc : pcb_t) (m : memphy_struct)
    (htlb : proc.tlb = some m) (data : BYTE) (source destination offset : Nat)
    (entry0 entry1 entry2 entry3 : Nat → BYTE)
    (h1 : (first_lookup cfg ext proc destination offset entry0).1 ≠ 0)
    (h2 : (after_fault cfg ext proc destination offset entry1).1 ≠ 0) :
    (tlbwrite cfg ext proc data destination offset entry0 entry1 entry2 entry3).1 = -1 ∧
    (tlbread cfg ext proc source offset destination entry0 entry1 entry2).1 = -1 := by
  unfold first_lookup access_page access_address at h1
  unfold after_fault access_address at h2
  constructor
  · unfold tlbwrite
    simp only [htlb]
    rw [← htlb, if_pos h1, if_pos h2]
  · unfold tlbread
    simp only [htlb]
    rw [← htlb, if_pos h1, if_pos h2]

/-- On a set whose slots are all valid records of the device, none with the key of the
page accessed, `tlbwrite` and `tlbread` return `-1`: the first lookup misses, the insert
of the handler is refused, and the second lookup misses again. -/
theorem access_full_set_fails (cfg : Config) (hwf : cfg.WF) (ext : Extern) (proc : pcb_t)
    (m : memphy_struct) (st : Int → BYTE) (htlb : proc.tlb = some m) (hst : m.storage = some st)
    (data : BYTE) (source destination offset : Nat) (entry0 entry1 entry2 entry3 : Nat → BYTE)
    (hfull : ∀ k, k < cfg.ENTRIES_PER_SET →
      slot_valid cfg m st (int_of_uint32 (access_page ext proc destination offset)) k ∧
      ¬ entry_matches cfg
          (entry_at st (slot_of cfg (int_of_uint32 (access_page ext proc destination offset)) k))
          (int_of_uint32 proc.pid) (int_of_uint32 (access_page ext proc destination offset))) :
    (tlbwrite cfg ext proc data destination offset entry0 entry1 entry2 entry3).1 = -1 ∧
    (tlbread cfg ext proc source offset destination entry0 entry1 entry2).1 = -1 := by
  have hE : 0 < cfg.ENTRIES_PER_SET := hwf.2.2.2.2.2.2.2.2.2.2.2.2
  have hv : ∀ k, k < cfg.ENTRIES_PER_SET →
      slot_valid cfg m st (int_of_uint32 (access_page ext proc destination offset)) k :=
    fun k hk => (hfull k hk).1
  have hno : ∀ k, k < cfg.ENTRIES_PER_SET →
      ¬ slot_has_key cfg m st (int_of_uint32 (access_page ext proc destination offset)) k
        (int_of_uint32 proc.pid) (int_of_uint32 (access_page ext proc destination offset)) :=
    fun k hk h => (hfull k hk).2 h.2
  have h0 : in_device cfg m
      (slot_of cfg (int_of_uint32 (access_page ext proc destination offset)) 0) :=
    (hv 0 hE).1
  have h1 : (first_lookup cfg ext proc destination offset entry0).1 ≠ 0 := by
    unfold first_lookup
    rw [htlb, tlb_cache_read_miss cfg hwf m st hst _ _ _ entry0 h0 hno]
    decide
  by_cases h2 : (after_fault cfg ext proc destination offset entry1).1 = 0
  · obtain ⟨ht, hpid⟩ := handle_page_fault_full cfg hwf ext proc m st htlb hst
      (access_address proc destination offset) entry1 hv hno
    have h3 : (second_lookup cfg ext proc destination offset entry0 entry1 entry2).1 ≠ 0 := by
      unfold second_lookup after_fault
      rw [ht, hpid, tlb_cache_read_miss cfg hwf m st hst _ _ _ entry2 h0 hno]
      show (-1 : Int) ≠ 0
      decide
    rw [(tlbwrite_code cfg ext proc m htlb data destination offset entry0 entry1 entry2
        entry3).2.2 h1 h2 h3,
      (tlbread_code cfg ext proc m htlb source offset destination entry0 entry1
        entry2).2.2 h1 h2 h3]
    exact ⟨rfl, rfl⟩
  · exact access_handler_failed cfg ext proc m htlb data source destination offset entry0
      entry1 entry2 entry3 h1 h2

/-! ### Lookups of other keys -/

theorem same_for_key_congr (cfg : Config) (hwf : cfg.WF) (pid vpn : Int)
    (b b' c c' : Nat → BYTE) (hb : ∀ x, x < cfg.ENTRY_SIZE → b x = c x)
    (hb' : ∀ x, x < cfg.ENTRY_SIZE → b' x = c' x) (h : same_for_key cfg pid vpn c c') :
    same_for_key cfg pid vpn b b' := by
  have e1 := entry_matches_congr cfg hwf b c pid vpn hb
  have e2 := entry_matches_congr cfg hwf b' c' pid vpn hb'
  have f1 : decode_int b cfg.PFN_OFFSET = decode_int c cfg.PFN_OFFSET :=
    decode_int_congr _ _ _ (fun k _ => hb _ (by have := hwf.2.2.2.1; omega))
  have f2 : decode_int b' cfg.PFN_OFFSET = decode_int c' cfg.PFN_OFFSET :=
    decode_int_congr _ _ _ (fun k _ => hb' _ (by have := hwf.2.2.2.1; omega))
  refine ⟨e1.trans (h.1.trans e2.symm), ?_⟩
  intro hm
  rw [f1, f2]
  exact h.2 (e1.mp hm)

theorem same_for_key_refl (cfg : Config) (pid vpn : Int) (b : Nat → BYTE) :
    same_for_key cfg pid vpn b b :=
  ⟨Iff.rfl, fun _ => rfl⟩

theorem same_for_key_of_no_match (cfg : Config) (pid vpn : Int) (b b' : Nat → BYTE)
    (h : ¬ entry_matches cfg b pid vpn) (h' : ¬ entry_matches cfg b' pid vpn) :
    same_for_key cfg pid vpn b b' :=
  ⟨iff_of_false h h', fun hm => absurd hm h⟩

theorem readable_with_storage (cfg : Config) (m : memphy_struct) (st : Int → BYTE) (a : Int) :
    readable cfg (with_storage m st) a ↔ readable cfg m a := Iff.rfl

theorem tlb_cache_read_loop_equiv (cfg : Config) (hwf : cfg.WF) (m : memphy_struct)
    (st st' : Int → BYTE) (hst : m.storage = some st) (pid vpn : Int) (value : BYTE) (base : Int)
    (h : ∀ k, k < cfg.ENTRIES_PER_SET →
      same_for_key cfg pid vpn (entry_at st' (slot_addr cfg base k))
        (entry_at st (slot_addr cfg base k))) :
    ∀ (n i : Nat) (buf' buf : Nat → BYTE), i + n = cfg.ENTRIES_PER_SET →
      same_for_key cfg pid vpn buf' buf →
      tlb_cache_read_loop cfg (some (with_storage m st')) pid vpn base n i buf' value
        = tlb_cache_read_loop cfg (some m) pid vpn base n i buf value := by
  intro n
  induction n with
  | zero => intro i buf' buf _ _; rfl
  | succ n ih =>
    intro i buf' buf hi hbuf
    simp only [tlb_cache_read_loop, slot_addr_eq]
    have step : ∀ (c' c : Nat → BYTE), same_for_key cfg pid vpn c' c →
        (if entry_matches cfg c' pid vpn then ((0 : Int), toBYTE (decode_int c' cfg.PFN_OFFSET))
          else tlb_cache_read_loop cfg (some (with_storage m st')) pid vpn base n (i + 1) c' value)
        = (if entry_matches cfg c pid vpn then ((0 : Int), toBYTE (decode_int c cfg.PFN_OFFSET))
          else tlb_cache_read_loop cfg (some m) pid vpn base n (i + 1) c value) := by
      intro c' c hc
      by_cases hm : entry_matches cfg c' pid vpn
      · rw [if_pos hm, if_pos (hc.1.mp hm), hc.2 hm]
      · rw [if_neg hm, if_neg (fun x => hm (hc.1.mpr x))]
        exact ih (i + 1) c' c (by omega) hc
    by_cases hr : readable cfg m (slot_addr cfg base i)
    · rw [TLBMEMPHY_read_readable cfg m st hst _ buf hr,
        TLBMEMPHY_read_readable cfg (with_storage m st') st' (storage_with_storage m st') _ buf'
          ((readable_with_storage cfg m st' _).mpr hr)]
      exact step _ _ (same_for_key_congr cfg hwf pid vpn _ _ _ _
        (fun x hx => memcpy_from_lt st' _ buf' _ x hx)
        (fun x hx => memcpy_from_lt st _ buf _ x hx) (h i (by omega)))
    · rw [TLBMEMPHY_read_refused cfg m st hst _ buf hr,
        TLBMEMPHY_read_refused cfg (with_storage m st') st' (storage_with_storage m st') _ buf'
          (fun x => hr ((readable_with_storage cfg m st' _).mp x))]
      exact step _ _ hbuf

/-- A lookup gives the same result on two devices whose records of its set look the same
to it. -/
theorem tlb_cache_read_equiv (cfg : Config) (hwf : cfg.WF) (m : memphy_struct)
    (st st' : Int → BYTE) (hst : m.storage = some st) (pid vpn : Int) (value : BYTE)
    (entry1 : Nat → BYTE)
    (h : ∀ k, k < cfg.ENTRIES_PER_SET →
      same_for_key cfg pid vpn (entry_at st' (slot_of cfg vpn k)) (entry_at st (slot_of cfg vpn k))) :
    tlb_cache_read cfg (some (with_storage m st')) pid vpn value entry1
      = tlb_cache_read cfg (some m) pid vpn value entry1 := by
  have := tlb_cache_read_loop_equiv cfg hwf m st st' hst pid vpn value (set_base cfg vpn) h
    cfg.ENTRIES_PER_SET 0 entry1 entry1 (by omega) (same_for_key_refl cfg pid vpn entry1)
  simp only [tlb_cache_read, hst, storage_with_storage]
  exact this

theorem no_match_of_other_key (cfg : Config) (e : Nat → BYTE) (pid vpn pid' vpn' : Int)
    (hne : ¬ (pid % 4294967296 = pid' % 4294967296 ∧ vpn % 4294967296 = vpn' % 4294967296))
    (h : entry_matches cfg e pid' vpn') : ¬ entry_matches cfg e pid vpn := by
  intro h2
  apply hne
  exact ⟨by rw [← h2.2.1, h.2.1], by rw [← h2.2.2, h.2.2]⟩

/-- An insert of `(pid', vpn')` leaves every record of the table looking the same to a
lookup of another key. -/
theorem write_same_for_key (cfg : Config) (hwf : cfg.WF) (m : memphy_struct)
    (st : Int → BYTE) (hst : m.storage = some st) (pid vpn pid' vpn' : Int) (frame' : BYTE)
    (entry0 : Nat → BYTE)
    (hne : ¬ (pid % 4294967296 = pid' % 4294967296 ∧ vpn % 4294967296 = vpn' % 4294967296)) :
    ∃ st', (tlb_cache_write cfg (some m) pid' vpn' frame' entry0).2 = some (with_storage m st') ∧
      ∀ k, same_for_key cfg pid vpn (entry_at st' (slot_of cfg vpn k))
        (entry_at st (slot_of cfg vpn k)) := by
  rcases tlb_cache_write_post cfg hwf m st hst pid' vpn' frame' entry0 with
    ⟨j, _, _, hm, _, hres⟩ | ⟨j, buf, _, _, hinvalid, _, _, hres⟩ | ⟨hres, _⟩ | ⟨hres, _⟩
  · refine ⟨_, by rw [hres], ?_⟩
    intro k
    rcases slot_eq_or_disjoint cfg vpn vpn' k j with heq | hdis
    · rw [heq]
      have hm' : entry_matches cfg (entry_at st (slot_of cfg vpn' j)) pid' vpn' := hm
      apply same_for_key_of_no_match
      · intro hx
        have h1 := (entry_matches_congr cfg hwf _ _ pid vpn
          (fun x hx => entry_at_memcpy_to_same st (slot_of cfg vpn' j) _ _ x hx)).mp hx
        have h2 := (entry_matches_upd_iff cfg hwf _ frame' pid vpn hm'.1).mp h1
        exact no_match_of_other_key cfg _ pid vpn pid' vpn' hne hm' h2
      · exact no_match_of_other_key cfg _ pid vpn pid' vpn' hne hm'
    · exact same_for_key_congr cfg hwf pid vpn _ _ _ _
        (fun x hx => entry_at_memcpy_to_disjoint st (slot_of cfg vpn' j) (slot_of cfg vpn k) _ _ x
          (hdis x hx))
        (fun _ _ => rfl) (same_for_key_refl cfg pid vpn _)
  · refine ⟨_, by rw [hres], ?_⟩
    intro k
    rcases slot_eq_or_disjoint cfg vpn vpn' k j with heq | hdis
    · rw [heq]
      apply same_for_key_of_no_match
      · intro hx
        have h1 := (entry_matches_congr cfg hwf _ _ pid vpn
          (fun x hx => entry_at_memcpy_to_same st (slot_of cfg vpn' j) _ _ x hx)).mp hx
        exact hne ((entry_matches_new_entry_iff cfg hwf buf pid' vpn' frame' pid vpn).mp h1)
      · intro hx
        exact hx.1 hinvalid
    · exact same_for_key_congr cfg hwf pid vpn _ _ _ _
        (fun x hx => entry_at_memcpy_to_disjoint st (slot_of cfg vpn' j) (slot_of cfg vpn k) _ _ x
          (hdis x hx))
        (fun _ _ => rfl) (same_for_key_refl cfg pid vpn _)
  · exact ⟨st, by rw [hres, with_storage_self m st hst], fun k => same_for_key_refl cfg pid vpn _⟩
  · exact ⟨st, by rw [hres, with_storage_self m st hst], fun k => same_for_key_refl cfg pid vpn _⟩

/-- An insert of a key does not change the result of the lookup of another key. -/
theorem tlb_cache_read_other_key (cfg : Config) (hwf : cfg.WF) (mp : Option memphy_struct)
    (pid vpn pid' vpn' : Int) (frame' value : BYTE) (entry0 entry1 : Nat → BYTE)
    (hne : ¬ (pid % 4294967296 = pid' % 4294967296 ∧ vpn % 4294967296 = vpn' % 4294967296)) :
    tlb_cache_read cfg (tlb_cache_write cfg mp pid' vpn' frame' entry0).2 pid vpn value entry1
      = tlb_cache_read cfg mp pid vpn value entry1 := by
  cases mp with
  | none => rfl
  | some m =>
    cases hst : m.storage with
    | none =>
      simp only [tlb_cache_write, hst]
    | some st =>
      obtain ⟨st', hres, hsame⟩ :=
        write_same_for_key cfg hwf m st hst pid vpn pid' vpn' frame' entry0 hne
      rw [hres]
      exact tlb_cache_read_equiv cfg hwf m st st' hst pid vpn value entry1 (fun k _ => hsame k)

/-! ### Writing back the frame that a lookup found -/

theorem encode_decode (e : Nat → BYTE) (off : Nat) :
    encode_int e off (decode_int e off) = e := by
  funext x
  unfold encode_int
  split
  · rename_i hx
    have h0 := (e off).isLt
    have h1 := (e (off + 1)).isLt
    have h2 := (e (off + 2)).isLt
    have h3 := (e (off + 3)).isLt
    have hc : x = off ∨ x = off + 1 ∨ x = off + 2 ∨ x = off + 3 := by omega
    apply Fin.ext
    rw [toBYTE_val]
    unfold decode_int
    rcases hc with h | h | h | h <;> subst h
    · simp only [Nat.sub_self, pow_zero, Nat.div_one]
      omega
    · simp only [Nat.add_sub_cancel_left, pow_one]
      omega
    · simp only [Nat.add_sub_cancel_left]
      norm_num
      omega
    · simp only [Nat.add_sub_cancel_left]
      norm_num
      omega
  · rfl

theorem upd_entry_noop (cfg : Config) (e : Nat → BYTE) (frame : BYTE)
    (hv : e cfg.VALID_OFFSET = 1)
    (hf : decode_int e cfg.PFN_OFFSET = BYTE_to_uint32 cfg frame) :
    upd_entry cfg e frame = e := by
  unfold upd_entry
  rw [← hf, encode_decode, ← hv, Function.update_eq_self]

theorem memcpy_to_self (st : Int → BYTE) (a : Int) (n : Nat) :
    memcpy_to st a (entry_at st a) n = st := by
  funext b
  unfold memcpy_to entry_at
  split
  · congr 1
    omega
  · rfl

/-- The values of the frame-number field that are the `uint32_t` conversion of a `BYTE`:
those below 256 for an unsigned `BYTE`; those below 128 and, by sign extension, those from
`0xFFFFFF80` on for a signed `BYTE`. -/
theorem BYTE_to_uint32_fixed (cfg : Config) (n : Nat) (hn : n < 4294967296) :
    n = BYTE_to_uint32 cfg (toBYTE n) ↔
      if cfg.BYTE_signed = true then n < 128 ∨ 4294967168 ≤ n else n < 256 := by
  unfold BYTE_to_uint32
  rw [toBYTE_val]
  by_cases hs : cfg.BYTE_signed = true
  · rw [if_pos hs]
    by_cases h128 : 128 ≤ n % 256
    · rw [if_pos ⟨hs, h128⟩]
      omega
    · rw [if_neg (fun h => h128 h.2)]
      omega
  · rw [if_neg hs, if_neg (fun h => hs h.1)]
    omega

/-- The form of the records of a device that `canonical` asks for, written out. -/
theorem canonical_iff (cfg : Config) (m : memphy_struct) (st : Int → BYTE)
    (hst : m.storage = some st) :
    canonical cfg (some m) ↔
      ∀ (v0 : Int) (k : Nat), k < cfg.ENTRIES_PER_SET → slot_valid cfg m st v0 k →
        entry_at st (slot_of cfg v0 k) cfg.VALID_OFFSET = 1 ∧
        (if cfg.BYTE_signed = true then
          decode_int (entry_at st (slot_of cfg v0 k)) cfg.PFN_OFFSET < 128 ∨
            4294967168 ≤ decode_int (entry_at st (slot_of cfg v0 k)) cfg.PFN_OFFSET
        else decode_int (entry_at st (slot_of cfg v0 k)) cfg.PFN_OFFSET < 256) := by
  unfold canonical
  constructor
  · intro h v0 k hk hv
    obtain ⟨h1, h2⟩ := h m st rfl hst v0 k hk hv
    exact ⟨h1, (BYTE_to_uint32_fixed cfg _ (decode_int_lt _ _)).mp h2⟩
  · intro h m' st' hm' hst' v0 k hk hv
    simp only [Option.some.injEq] at hm'
    subst hm'
    rw [hst] at hst'
    simp only [Option.some.injEq] at hst'
    subst hst'
    obtain ⟨h1, h2⟩ := h v0 k hk hv
    exact ⟨h1, (BYTE_to_uint32_fixed cfg _ (decode_int_lt _ _)).mpr h2⟩

/-- On a device of records in the form of `tlb_cache_write`, writing back the frame byte
that a lookup has just found returns `0` and leaves the device as it is. -/
theorem tlb_cache_write_back (cfg : Config) (hwf : cfg.WF) (m : memphy_struct)
    (st : Int → BYTE) (hst : m.storage = some st) (pid vpn : Int) (f value : BYTE)
    (entry0 entry1 : Nat → BYTE) (hc : canonical cfg (some m))
    (h0 : in_device cfg m (slot_of cfg vpn 0))
    (hhit : tlb_cache_read cfg (some m) pid vpn value entry0 = (0, f)) :
    tlb_cache_write cfg (some m) pid vpn f entry1 = (0, some m) := by
  rcases tlb_cache_read_in_device cfg hwf m st hst pid vpn value entry0 h0 with
    ⟨j, hj, hkey, hfirst, hres⟩ | ⟨_, hres⟩
  · rw [hres] at hhit
    have hf : toBYTE (decode_int (entry_at st (slot_of cfg vpn j)) cfg.PFN_OFFSET) = f :=
      (Prod.mk.inj hhit).2
    obtain ⟨c1, c2⟩ := hc m st rfl hst vpn j hj ⟨hkey.1, hkey.2.1⟩
    rw [hf] at c2
    rw [tlb_cache_write_update cfg hwf m st hst pid vpn f entry1 j hj hkey hfirst,
      upd_entry_noop cfg _ f c1 c2, memcpy_to_self, with_storage_self m st hst]
  · rw [hres] at hhit
    have := (Prod.mk.inj hhit).1
    omega

/-- Every call of `tlb_cache_write` keeps the records of the device in the form in which
it stores them. -/
theorem canonical_write (cfg : Config) (hwf : cfg.WF) (mp : Option memphy_struct)
    (pid pgnum : Int) (frame : BYTE) (entry0 : Nat → BYTE) (hinv : canonical cfg mp) :
    canonical cfg (tlb_cache_write cfg mp pid pgnum frame entry0).2 := by
  cases mp with
  | none =>
    intro m st hm
    simp only [tlb_cache_write] at hm
    exact absurd hm (by simp)
  | some m =>
    cases hst : m.storage with
    | none =>
      simp only [tlb_cache_write, hst]
      exact hinv
    | some st =>
      have transfer : ∀ (j : Nat) (data : Nat → BYTE),
          data cfg.VALID_OFFSET = 1 →
          decode_int data cfg.PFN_OFFSET = BYTE_to_uint32 cfg frame →
          canonical cfg (some (with_storage m
            (memcpy_to st (slot_of cfg pgnum j) data cfg.ENTRY_SIZE))) := by
        intro j data hv hf m' st' hm' hst' v0 k hk hvalid
        simp only [Option.some.injEq] at hm'
        subst hm'
        rw [storage_with_storage] at hst'
        simp only [Option.some.injEq] at hst'
        subst hst'
        rcases slot_eq_or_disjoint cfg v0 pgnum k j with heq | hdis
        · rw [heq, entry_at_memcpy_to_same st _ _ _ _ hwf.2.2.2.2.1,
            decode_int_congr _ data cfg.PFN_OFFSET
              (fun x _ => entry_at_memcpy_to_same st (slot_of cfg pgnum j) data _ _
                (by have := hwf.2.2.2.1; omega)), hf, BYTE_roundtrip]
          exact ⟨hv, rfl⟩
        · have hb : ∀ x, x < cfg.ENTRY_SIZE →
              entry_at (memcpy_to st (slot_of cfg pgnum j) data cfg.ENTRY_SIZE) (slot_of cfg v0 k) x
                = entry_at st (slot_of cfg v0 k) x :=
            fun x hx => entry_at_memcpy_to_disjoint st (slot_of cfg pgnum j) (slot_of cfg v0 k)
              data _ x (hdis x hx)
          have hvalid' : slot_valid cfg m st v0 k := by
            refine ⟨hvalid.1, ?_⟩
            rw [← hb _ hwf.2.2.2.2.1]
            exact hvalid.2
          obtain ⟨c1, c2⟩ := hinv m st rfl hst v0 k hk hvalid'
          rw [hb _ hwf.2.2.2.2.1,
            decode_int_congr _ (entry_at st (slot_of cfg v0 k)) cfg.PFN_OFFSET
              (fun x _ => hb _ (by have := hwf.2.2.2.1; omega))]
          exact ⟨c1, c2⟩
      rcases tlb_cache_write_post cfg hwf m st hst pid pgnum frame entry0 with
        ⟨j, _, _, _, _, hres⟩ | ⟨j, buf, _, _, _, _, _, hres⟩ | ⟨hres, _⟩ | ⟨hres, _⟩
      · rw [hres]
        exact transfer j _ (upd_entry_valid cfg _ frame) (upd_entry_pfn cfg hwf _ frame)
      · rw [hres]
        exact transfer j _ (new_entry_valid cfg buf pid pgnum frame)
          (new_entry_pfn cfg hwf buf pid pgnum frame)
      · rw [hres]; exact hinv
      · rw [hres]; exact hinv

/-- A `tlbwrite` whose first lookup hits, on a cache of records in the form of
`tlb_cache_write` that holds the first slot of the set, leaves the cache device as it
is. -/
theorem tlbwrite_hit_keeps_cache (cfg : Config) (hwf : cfg.WF) (ext : Extern) (proc : pcb_t)
    (m : memphy_struct) (st : Int → BYTE) (htlb : proc.tlb = some m) (hst : m.storage = some st)
    (data : BYTE) (destination offset : Nat) (entry0 entry1 entry2 entry3 : Nat → BYTE)
    (hc : canonical cfg (some m))
    (h0 : in_device cfg m (slot_of cfg (int_of_uint32 (access_page ext proc destination offset)) 0))
    (hhit : (first_lookup cfg ext proc destination offset entry0).1 = 0) :
    (tlbwrite cfg ext proc data destination offset entry0 entry1 entry2 entry3).2.tlb
      = proc.tlb := by
  rw [(tlbwrite_code cfg ext proc m htlb data destination offset entry0 entry1 entry2 entry3).1
    hhit]
  have hb : tlb_cache_write cfg proc.tlb (int_of_uint32 proc.pid)
      (int_of_uint32 (access_page ext proc destination offset))
      (first_lookup cfg ext proc destination offset entry0).2 entry3 = (0, proc.tlb) := by
    rw [htlb]
    apply tlb_cache_write_back cfg hwf m st hst _ _ _ 255 entry0 entry3 hc h0
    have : first_lookup cfg ext proc destination offset entry0
        = tlb_cache_read cfg (some m) (int_of_uint32 proc.pid)
            (int_of_uint32 (access_page ext proc destination offset)) 255 entry0 := by
      unfold first_lookup
      rw [htlb]
    rw [← this]
    exact Prod.ext hhit rfl
  unfold tlbwrite_transfer
  split
  · simp only []
    split
    · simp only [hb]
    · rfl
  · rfl

/-! ### The process queue -/

theorem arr_list_congr (a b : Nat → Option pcb_t) :
    ∀ (n i : Nat), (∀ k, i ≤ k → k < i + n → a k = b k) → arr_list a i n = arr_list b i n := by
  intro n
  induction n with
  | zero => intro i _; rfl
  | succ n ih =>
    intro i h
    simp only [arr_list]
    rw [h i (by omega) (by omega), ih (i + 1) (fun k h1 h2 => h k (by omega) (by omega))]

theorem arr_list_append (a : Nat → Option pcb_t) :
    ∀ (n i k : Nat), arr_list a i (n + k) = arr_list a i n ++ arr_list a (i + n) k := by
  intro n
  induction n with
  | zero => intro i k; simp [arr_list]
  | succ n ih =>
    intro i k
    have e : n + 1 + k = (n + k) + 1 := by omega
    rw [e]
    simp only [arr_list, List.cons_append]
    rw [ih (i + 1) k]
    have e2 : i + 1 + n = i + (n + 1) := by omega
    rw [e2]

theorem arr_list_succ (a : Nat → Option pcb_t) :
    ∀ (n i : Nat), arr_list (fun k => a (k + 1)) i n = arr_list a (i + 1) n := by
  intro n
  induction n with
  | zero => intro i; rfl
  | succ n ih =>
    intro i
    simp only [arr_list]
    rw [ih (i + 1)]

theorem arr_list_length (a : Nat → Option pcb_t) :
    ∀ (n i : Nat), (arr_list a i n).length = n := by
  intro n
  induction n with
  | zero => intro i; rfl
  | succ n ih => intro i; simp only [arr_list, List.length_cons, ih (i + 1)]

theorem enqueue_shift_spec (i : Nat) :
    ∀ (n : Nat) (a : Nat → Option pcb_t),
      (∀ k, i ≤ k → k < i + n → enqueue_shift i n a (k + 1) = a k) ∧
      (∀ k, (k ≤ i ∨ i + n < k) → enqueue_shift i n a k = a k) := by
  intro n
  induction n with
  | zero =>
    intro a
    exact ⟨fun k h1 h2 => absurd h2 (by omega), fun k _ => rfl⟩
  | succ n ih =>
    intro a
    obtain ⟨h1, h2⟩ := ih (Function.update a (i + n + 1) (a (i + n)))
    simp only [enqueue_shift]
    constructor
    · intro k hk1 hk2
      by_cases hk : k = i + n
      · subst hk
        rw [h2 (i + n + 1) (Or.inr (by omega)), Function.update_same]
      · rw [h1 k hk1 (by omega), Function.update_noteq (by omega)]
    · intro k hk
      rw [h2 k (by omega), Function.update_noteq (by omega)]

theorem dequeue_shift_spec :
    ∀ (n i : Nat) (a : Nat → Option pcb_t),
      (∀ k, i ≤ k → k < i + n → dequeue_shift n i a k = a (k + 1)) ∧
      (∀ k, (k < i ∨ i + n ≤ k) → dequeue_shift n i a k = a k) := by
  intro n
  induction n with
  | zero =>
    intro i a
    exact ⟨fun k h1 h2 => absurd h2 (by omega), fun k _ => rfl⟩
  | succ n ih =>
    intro i a
    obtain ⟨h1, h2⟩ := ih (i + 1) (Function.update a i (a (i + 1)))
    simp only [dequeue_shift]
    constructor
    · intro k hk1 hk2
      by_cases hk : k = i
      · subst hk
        rw [h2 k (Or.inl (by omega)), Function.update_same]
      · rw [h1 k (by omega) (by omega), Function.update_noteq (by omega)]
    · intro k hk
      rw [h2 k (by omega), Function.update_noteq (by omega)]

theorem arr_list_insert (a b : Nat → Option pcb_t) (i n : Nat) (x : Option pcb_t)
    (h1 : ∀ k, k < i → b k = a k) (h2 : b i = x)
    (h3 : ∀ k, i ≤ k → k < i + n → b (k + 1) = a k) :
    arr_list b 0 (i + (1 + n)) = arr_list a 0 i ++ x :: arr_list a i n := by
  have e1 : arr_list b 0 i = arr_list a 0 i :=
    arr_list_congr b a i 0 (fun k _ hk => h1 k (by omega))
  have e2 : arr_list b (i + 1) n = arr_list a i n := by
    rw [← arr_list_succ]
    exact arr_list_congr _ a n i (fun k hk1 hk2 => h3 k hk1 hk2)
  have e3 : arr_list b (0 + i) (1 + n) = x :: arr_list b (i + 1) n := by
    have : 1 + n = n + 1 := by omega
    rw [this, Nat.zero_add]
    simp only [arr_list, h2]
  rw [arr_list_append b i 0 (1 + n), e1, e3, e2]

/-- What `enqueue` does: the new process goes in front of the first process whose priority
is not greater than its own, or to the end when there is none. -/
theorem enqueue_loop_spec (q : queue_t) (p : pcb_t) :
    ∀ (n i : Nat) (front back : List pcb_t), i + n = q.size →
      arr_list q.proc 0 i = front.map some → arr_list q.proc i n = back.map some →
      (∀ x, x ∈ front → p.priority < x.priority) →
      ∃ (q' : queue_t) (f b : List pcb_t), enqueue_loop q p n i = some q' ∧
        q'.size = q.size + 1 ∧ front ++ back = f ++ b ∧
        queue_list q' = (f ++ p :: b).map some ∧
        (∀ x, x ∈ f → p.priority < x.priority) ∧
        (∀ x, b.head? = some x → x.priority ≤ p.priority) := by
  intro n
  induction n with
  | zero =>
    intro i front back hi hf hb _hfront
    have hi' : i = q.size := by omega
    subst hi'
    have hback : back = [] := by
      have := congrArg List.length hb
      simp [arr_list] at this
      exact List.length_eq_zero.mp this.symm
    subst hback
    refine ⟨_, front, [], rfl, rfl, rfl, ?_, _hfront, fun x hx => absurd hx (by simp)⟩
    unfold queue_list
    simp only []
    rw [arr_list_append _ q.size 0 1]
    simp only [arr_list]
    rw [Nat.zero_add, Function.update_same, arr_list_congr _ q.proc q.size 0
      (fun k _ hk => by rw [Function.update_noteq (by omega)]), hf]
    simp only [List.map_append, List.map_cons, List.map_nil]
  | succ n ih =>
    intro i front back hi hf hb hfront
    cases back with
    | nil =>
      have := congrArg List.length hb
      simp [arr_list_length] at this
    | cons x back' =>
      simp only [arr_list, List.map_cons, List.cons.injEq] at hb
      obtain ⟨hx, hb'⟩ := hb
      simp only [enqueue_loop, hx]
      by_cases hc : x.priority ≤ p.priority
      · rw [if_pos hc]
        refine ⟨_, front, x :: back', rfl, rfl, rfl, ?_, hfront, ?_⟩
        · unfold queue_list
          simp only []
          obtain ⟨s1, s2⟩ := enqueue_shift_spec i (n + 1) q.proc
          have e : q.size + 1 = i + (1 + (n + 1)) := by omega
          rw [e, arr_list_insert q.proc _ i (n + 1) (some p)
            (fun k hk => by rw [Function.update_noteq (by omega), s2 k (Or.inl (by omega))])
            (Function.update_same _ _ _)
            (fun k h1 h2 => by rw [Function.update_noteq (by omega), s1 k h1 h2]), hf]
          simp only [arr_list, hx, hb', List.map_append, List.map_cons]
        · intro y hy
          simp only [List.head?_cons, Option.some.injEq] at hy
          subst hy
          exact hc
      · rw [if_neg hc]
        obtain ⟨q', f, b, h1, h2, h3, h4, h5, h6⟩ := ih (i + 1) (front ++ [x]) back' (by omega)
          (by
            rw [arr_list_append _ i 0 1]
            simp only [Nat.zero_add, arr_list, List.map_append, List.map_cons, List.map_nil, hf,
              hx])
          hb'
          (by
            intro y hy
            rcases List.mem_append.mp hy with h | h
            · exact hfront y h
            · simp only [List.mem_singleton] at h
              subst h
              omega)
        refine ⟨q', f, b, h1, h2, ?_, h4, h5, h6⟩
        rw [← h3]
        simp

theorem prio_sorted_insert (p : pcb_t) (f b : List pcb_t) (hs : prio_sorted (f ++ b))
    (hf : ∀ x, x ∈ f → p.priority < x.priority)
    (hb : ∀ x, b.head? = some x → x.priority ≤ p.priority) :
    (∀ x, x ∈ b → x.priority ≤ p.priority) ∧ prio_sorted (f ++ p :: b) := by
  unfold prio_sorted at hs ⊢
  obtain ⟨h1, h2, h3⟩ := List.pairwise_append.mp hs
  have hall : ∀ x, x ∈ b → x.priority ≤ p.priority := by
    cases b with
    | nil => intro x hx; simp at hx
    | cons y b' =>
      intro x hx
      have hy := hb y rfl
      rcases List.mem_cons.mp hx with h | h
      · subst h; exact hy
      · exact Nat.le_trans ((List.pairwise_cons.mp h2).1 x h) hy
  refine ⟨hall, List.pairwise_append.mpr ⟨h1, List.pairwise_cons.mpr ⟨hall, h2⟩, ?_⟩⟩
  intro a ha c hc
  rcases List.mem_cons.mp hc with h | h
  · subst h; exact Nat.le_of_lt (hf a ha)
  · exact h3 a ha c h

theorem queue_list_size (q : queue_t) (l : List pcb_t) (h : queue_list q = l.map some) :
    q.size = l.length := by
  have := congrArg List.length h
  simpa [queue_list, arr_list_length] using this

/-- The outcome of `enqueue` on a queue of processes that leaves room in its array. -/
theorem enqueue_spec (cap : Nat) (q : queue_t) (p : pcb_t) (l : List pcb_t)
    (hroom : q.size < cap) (hq : queue_list q = l.map some) :
    ∃ (q' : queue_t) (f b : List pcb_t), enqueue cap q p = some q' ∧
      q'.size = q.size + 1 ∧ l = f ++ b ∧ queue_list q' = (f ++ p :: b).map some ∧
      (∀ x, x ∈ f → p.priority < x.priority) ∧
      (∀ x, b.head? = some x → x.priority ≤ p.priority) := by
  obtain ⟨q', f, b, h1, h2, h3, h4, h5, h6⟩ := enqueue_loop_spec q p q.size 0 [] l
    (by omega) rfl hq (fun x hx => absurd hx (by simp))
  refine ⟨q', f, b, ?_, h2, by simpa using h3, h4, h5, h6⟩
  unfold enqueue
  rw [if_pos hroom, h1]

/-- The outcome of `dequeue` on a queue of at least one process. -/
theorem dequeue_spec (q : queue_t) (head : pcb_t) (rest : List pcb_t)
    (hq : queue_list q = (head :: rest).map some) :
    (dequeue q).1 = some head ∧ (dequeue q).2.size + 1 = q.size ∧
      queue_list (dequeue q).2 = rest.map some := by
  have hsz := queue_list_size q _ hq
  simp only [List.length_cons] at hsz
  unfold queue_list at hq
  rw [hsz] at hq
  simp only [arr_list, List.map_cons, List.cons.injEq] at hq
  obtain ⟨h0, hrest⟩ := hq
  have hne : empty q = false := by simp [empty, hsz]
  unfold dequeue
  rw [hne]
  simp only [Bool.false_eq_true, if_false]
  refine ⟨h0, by omega, ?_⟩
  unfold queue_list
  simp only [hsz, Nat.add_sub_cancel]
  obtain ⟨s1, _⟩ := dequeue_shift_spec rest.length 0 q.proc
  rw [← hrest, ← arr_list_succ]
  apply arr_list_congr
  intro k hk1 hk2
  rw [Function.update_noteq (by omega), s1 k hk1 hk2]

theorem dequeue_empty (q : queue_t) (h : q.size = 0) : dequeue q = (none, q) := by
  unfold dequeue
  simp [empty, h]

/-- Every queue built from an empty one holds processes in non-increasing priority order. -/
theorem queue_reachable_sorted (cap : Nat) (q : queue_t) (h : queue_reachable cap q) :
    ∃ l : List pcb_t, queue_list q = l.map some ∧ prio_sorted l := by
  induction h with
  | init a => exact ⟨[], rfl, List.Pairwise.nil⟩
  | enq q q' p _ he ih =>
    obtain ⟨l, hl, hs⟩ := ih
    have hroom : q.size < cap := by
      unfold enqueue at he
      by_contra hc
      rw [if_neg hc] at he
      exact Option.noConfusion he
    obtain ⟨q2, f, b, h1, _, h3, h4, h5, h6⟩ := enqueue_spec cap q p l hroom hl
    rw [h1] at he
    cases he
    subst h3
    exact ⟨f ++ p :: b, h4, (prio_sorted_insert p f b hs h5 h6).2⟩
  | deq q _ ih =>
    obtain ⟨l, hl, hs⟩ := ih
    cases l with
    | nil =>
      have hsz := queue_list_size q _ hl
      rw [dequeue_empty q (by simpa using hsz)]
      exact ⟨[], hl, hs⟩
    | cons head rest =>
      exact ⟨rest, (dequeue_spec q head rest hl).2.2, (List.pairwise_cons.mp hs).2⟩

/-! ### The multi-level queue -/

theorem mod_shift (M p t : Nat) (hp : p < M) (ht : t < M) :
    (p + t) % M = if p + t < M then p + t else p + t - M := by
  split
  · rename_i h
    exact Nat.mod_eq_of_lt h
  · rw [Nat.mod_eq_sub_mod (by omega), Nat.mod_eq_of_lt (by omega)]

theorem mod_shift_lt (M p t : Nat) (hp : p < M) : (p + t) % M < M :=
  Nat.mod_lt _ (by omega)

theorem mod_shift_inj (M p t u : Nat) (hp : p < M) (ht : t < M) (hu : u < M)
    (h : (p + t) % M = (p + u) % M) : t = u := by
  rw [mod_shift M p t hp ht, mod_shift M p u hp hu] at h
  split at h <;> split at h <;> omega

theorem mod_shift_surj (M p i : Nat) (hp : p < M) (hi : i < M) :
    ∃ t, t < M ∧ (p + t) % M = i := by
  by_cases h : p ≤ i
  · exact ⟨i - p, by omega, by rw [mod_shift M p _ hp (by omega)]; split <;> omega⟩
  · exact ⟨i + M - p, by omega, by rw [mod_shift M p _ hp (by omega)]; split <;> omega⟩

theorem dequeue_fst (q : queue_t) (h : q.size ≠ 0) : (dequeue q).1 = q.proc 0 := by
  unfold dequeue
  simp [empty, h]

/-- The loop of `get_mlq_proc` from the level at distance `j` of the saved index on, when
the levels before it were found empty: it ends within `MAX_PRIO - j` iterations, at the
first level with a process or after the last level. -/
theorem get_mlq_proc_loop_spec (M p : Nat) (hp : p < M) (queues : Nat → queue_t) :
    ∀ (n j : Nat) (slot : Nat → Int) (visited : List Nat), j < M → M ≤ n + j →
      (∀ t, t < j → (queues ((p + t) % M)).size = 0) →
      ∃ (r : mlq_result) (k : Nat),
        get_mlq_proc_loop M p n ((p + j) % M) queues slot visited = some r ∧
        j < k ∧ k ≤ M ∧
        r.visited = visited ++ (List.range' j (k - j)).map (fun t => (p + t) % M) ∧
        (∀ t, t < k - 1 → (queues ((p + t) % M)).size = 0) ∧
        (((queues ((p + (k - 1)) % M)).size = 0 ∧ k = M ∧ r.proc = none ∧
            r.state.mlq_ready_queue = queues ∧ r.state.prio = p) ∨
          ((queues ((p + (k - 1)) % M)).size ≠ 0 ∧
            r.proc = (queues ((p + (k - 1)) % M)).proc 0 ∧
            r.state.mlq_ready_queue = Function.update queues ((p + (k - 1)) % M)
              (dequeue (queues ((p + (k - 1)) % M))).2 ∧
            r.state.prio = (p + (k - 1)) % M)) := by
  intro n
  induction n with
  | zero => intro j _ _ hj hn _; omega
  | succ n ih =>
    intro j slot visited hj hn hempty
    simp only [get_mlq_proc_loop]
    by_cases he : (queues ((p + j) % M)).size = 0
    · have he' : empty (queues ((p + j) % M)) = true := by simp [empty, he]
      rw [if_pos he', Nat.mod_add_mod]
      by_cases hj1 : j + 1 < M
      · have hne : (p + j + 1) % M ≠ p := by
          have := mod_shift M p (j + 1) hp hj1
          rw [Nat.add_assoc, this]
          split <;> omega
        rw [if_pos hne]
        obtain ⟨r, k, h1, h2, h3, h4, h5, h6⟩ := ih (j + 1) (Function.update slot ((p + j) % M)
          ((M : Int) - ((p + j) % M : Nat))) (visited ++ [(p + j) % M]) hj1 (by omega)
          (fun t ht => by
            by_cases htj : t = j
            · subst htj; exact he
            · exact hempty t (by omega))
        refine ⟨r, k, h1, by omega, h3, ?_, h5, h6⟩
        rw [h4]
        have e : k - j = (k - (j + 1)) + 1 := by omega
        rw [e, List.range'_succ]
        simp
      · have hjM : j + 1 = M := by omega
        have heq : (p + j + 1) % M = p := by
          rw [Nat.add_assoc, hjM, Nat.add_mod_right, Nat.mod_eq_of_lt hp]
        rw [if_neg (by simpa using heq)]
        refine ⟨_, M, rfl, by omega, Nat.le_refl _, ?_, ?_, Or.inl ⟨?_, rfl, rfl, rfl, heq⟩⟩
        · have e : M - j = 1 := by omega
          simp [e]
        · intro t ht
          exact hempty t (by omega)
        · have e : M - 1 = j := by omega
          rw [e]
          exact he
    · have he' : ¬ (empty (queues ((p + j) % M)) = true) := by simp [empty, he]
      rw [if_neg he']
      refine ⟨_, j + 1, rfl, by omega, by omega, ?_, ?_, Or.inr ⟨?_, ?_, ?_, ?_⟩⟩
      · simp
      · intro t ht
        exact hempty t (by omega)
      · simpa using he
      · simp only [Nat.add_sub_cancel]
        exact dequeue_fst _ he
      · simp only [Nat.add_sub_cancel]
      · simp only [Nat.add_sub_cancel]

/-! ## The claims -/

/-- C1, as amended: on an available device that holds at least the first slot of the set
selected by `vpn`, a lookup of `(pid, vpn)` right after a successful insert of
`(pid, vpn, frame)` hits and yields exactly `frame`. -/
theorem C1_lookup_after_insert (cfg : Config) (hwf : cfg.WF) (m : memphy_struct)
    (st : Int → BYTE) (hst : m.storage = some st) (pid vpn : Int) (frame value : BYTE)
    (entry0 entry1 : Nat → BYTE) (h0 : in_device cfg m (slot_of cfg vpn 0))
    (hok : (tlb_cache_write cfg (some m) pid vpn frame entry0).1 = 0) :
    tlb_cache_read cfg (tlb_cache_write cfg (some m) pid vpn frame entry0).2 pid vpn value entry1
      = (0, frame) :=
  tlb_cache_read_after_write cfg hwf m st hst pid vpn frame value entry0 entry1 h0 hok

/-- C1 at a concrete input: four sets of two records in a zeroed device of 104 bytes,
insert `(1, 5, 10)` and look `(1, 5)` up. -/
theorem C1_lookup_after_insert_witness :
    tlb_cache_read cfg42 (tlb_cache_write cfg42 (some dev104) 1 5 10 zero_entry).2 1 5 0 zero_entry
      = (0, 10) :=
  C1_lookup_after_insert cfg42 (by decide) dev104 (fun _ => 0) rfl 1 5 10 0 zero_entry zero_entry
    (by decide) (by decide)

/-- C1 fails as stated: the device of 64 bytes is available, but the set of page 7 lies
beyond its end. Both `TLBMEMPHY_read` and `TLBMEMPHY_write` are refused, their results are
discarded, the insert reports success, and the lookup that follows misses. -/
theorem C1_undersized_device :
    dev64.storage.isSome = true ∧
    (tlb_cache_write cfg42 (some dev64) 1 7 10 zero_entry).1 = 0 ∧
    (tlb_cache_read cfg42 (tlb_cache_write cfg42 (some dev64) 1 7 10 zero_entry).2 1 7 0
      zero_entry).1 = -1 := by
  decide

/-- C2: when every slot of the set selected by `vpn` is a valid record of the device and
none has the key `(pid, vpn)`, the insert fails with `-1` and returns the device as it
was; every key stored in a slot of that set (with a page number that selects the set) is
found by a lookup after the call as it was before, with the frame byte of the first slot
that holds the key. -/
theorem C2_full_set_rejects (cfg : Config) (hwf : cfg.WF) (m : memphy_struct)
    (st : Int → BYTE) (hst : m.storage = some st) (pid vpn : Int) (frame : BYTE)
    (entry0 : Nat → BYTE)
    (hfull : ∀ k, k < cfg.ENTRIES_PER_SET →
      slot_valid cfg m st vpn k ∧ ¬ entry_matches cfg (entry_at st (slot_of cfg vpn k)) pid vpn) :
    tlb_cache_write cfg (some m) pid vpn frame entry0 = (-1, some m) ∧
    ∀ (k : Nat) (p v : Int) (value : BYTE) (entry1 : Nat → BYTE), k < cfg.ENTRIES_PER_SET →
      calculate_set_index cfg v = calculate_set_index cfg vpn →
      slot_has_key cfg m st vpn k p v →
      ∃ j, j ≤ k ∧ slot_has_key cfg m st vpn j p v ∧
        (∀ i, i < j → ¬ slot_has_key cfg m st vpn i p v) ∧
        tlb_cache_read cfg (some m) p v value entry1
          = (0, toBYTE (decode_int (entry_at st (slot_of cfg vpn j)) cfg.PFN_OFFSET)) ∧
        tlb_cache_read cfg (tlb_cache_write cfg (some m) pid vpn frame entry0).2 p v value entry1
          = (0, toBYTE (decode_int (entry_at st (slot_of cfg vpn j)) cfg.PFN_OFFSET)) := by
  have hE : 0 < cfg.ENTRIES_PER_SET := hwf.2.2.2.2.2.2.2.2.2.2.2.2
  have h0 : in_device cfg m (slot_of cfg vpn 0) := (hfull 0 hE).1.1
  have hw : tlb_cache_write cfg (some m) pid vpn frame entry0 = (-1, some m) := by
    rcases tlb_cache_write_in_device cfg hwf m st hst pid vpn frame entry0 h0 with
      ⟨j, hj, hkey, _, _⟩ | ⟨j, buf, hj, hfree, _, _, _⟩ | ⟨_, _, hres⟩
    · exact absurd hkey.2 (hfull j hj).2
    · exact absurd hfree.2 (hfull j hj).1.2
    · exact hres
  refine ⟨hw, ?_⟩
  intro k p v value entry1 hk hset hkey
  rw [hw]
  simp only []
  have e : ∀ i, slot_of cfg v i = slot_of cfg vpn i := fun i => slot_of_congr cfg v vpn i hset
  have h0' : in_device cfg m (slot_of cfg v 0) := by rw [e]; exact h0
  rcases tlb_cache_read_in_device cfg hwf m st hst p v value entry1 h0' with
    ⟨j, hj, hkeyj, hfirst, hres⟩ | ⟨hnone, _⟩
  · simp only [slot_has_key, e] at hkeyj hfirst
    rw [e] at hres
    refine ⟨j, ?_, hkeyj, hfirst, hres, hres⟩
    by_contra hlt
    exact hfirst k (by omega) hkey
  · have := hnone k hk
    simp only [slot_has_key, e] at this
    exact absurd hkey this

/-- C2 at a concrete input: set 1 of `dev_full` holds `(1, 5)` and `(2, 9)`; the insert
of `(1, 13, 30)` fails and returns the same device. -/
theorem C2_full_set_rejects_witness :
    (∀ k, k < cfg42.ENTRIES_PER_SET →
      slot_valid cfg42 dev_full full_bytes 13 k ∧
        ¬ entry_matches cfg42 (entry_at full_bytes (slot_of cfg42 13 k)) 1 13) ∧
    tlb_cache_write cfg42 (some dev_full) 1 13 30 zero_entry = (-1, some dev_full) :=
  ⟨by decide,
    (C2_full_set_rejects cfg42 (by decide) dev_full full_bytes rfl 1 13 30 zero_entry
      (by decide)).1⟩

/-- C3: an insert with set index `s = vpn mod NUM_SETS` changes no byte of the store
outside `[s*ENTRIES_PER_SET*ENTRY_SIZE, (s+1)*ENTRIES_PER_SET*ENTRY_SIZE)`; hence the
result of a lookup of any key whose `vpn` maps to a different set is not changed by it. -/
theorem C3_set_isolation (cfg : Config) (hwf : cfg.WF) (m : memphy_struct)
    (st : Int → BYTE) (hst : m.storage = some st) (pid vpn : Int) (frame : BYTE)
    (entry0 : Nat → BYTE) :
    ∃ st', (tlb_cache_write cfg (some m) pid vpn frame entry0).2 = some (with_storage m st') ∧
      (∀ a : Int,
        (a < calculate_set_index cfg vpn * (cfg.ENTRIES_PER_SET : Int) * (cfg.ENTRY_SIZE : Int) ∨
          (calculate_set_index cfg vpn + 1) * (cfg.ENTRIES_PER_SET : Int) * (cfg.ENTRY_SIZE : Int)
            ≤ a) → st' a = st a) ∧
      (∀ (p v : Int) (value : BYTE) (entry1 : Nat → BYTE),
        calculate_set_index cfg v ≠ calculate_set_index cfg vpn →
        tlb_cache_read cfg (tlb_cache_write cfg (some m) pid vpn frame entry0).2 p v value entry1
          = tlb_cache_read cfg (some m) p v value entry1) := by
  obtain ⟨st', hres, hframe⟩ := tlb_cache_write_frame cfg hwf m st hst pid vpn frame entry0
  refine ⟨st', hres, hframe, ?_⟩
  intro p v value entry1 hne
  rw [hres]
  apply tlb_cache_read_congr cfg m st st' hst
  intro k x hk hx
  apply hframe
  exact set_ranges_disjoint cfg (calculate_set_index cfg vpn) (calculate_set_index cfg v) k x
    hk hx hne

/-- C3 at a concrete input: inserting `(1, 13, 30)`, which selects set 1, into `dev_full`
does not change the lookup of `(1, 6)`, which selects set 2. -/
theorem C3_set_isolation_witness :
    tlb_cache_read cfg42 (tlb_cache_write cfg42 (some dev_full) 1 13 30 zero_entry).2 1 6 0
        zero_entry
      = tlb_cache_read cfg42 (some dev_full) 1 6 0 zero_entry := by
  obtain ⟨_, _, _, h⟩ :=
    C3_set_isolation cfg42 (by decide) dev_full full_bytes rfl 1 13 30 zero_entry
  exact h 1 6 0 zero_entry (by decide)

/-- C4: with `NUM_SETS = 4` and `ENTRIES_PER_SET = 2`, on a store whose entries are all
invalid: the insert of `(1, 5, 10)` succeeds and lands in set 1 slot 0; the insert of
`(2, 9, 20)` succeeds and lands in set 1 slot 1; the insert of `(1, 13, 30)` fails and
changes nothing; afterwards the lookup of `(1, 5)` yields 10, that of `(2, 9)` yields 20
and that of `(1, 13)` misses. -/
theorem C4_scenario (cfg : Config) (hwf : cfg.WF) (hN : cfg.NUM_SETS = 4)
    (hE : cfg.ENTRIES_PER_SET = 2) (m : memphy_struct) (st : Int → BYTE)
    (hst : m.storage = some st)
    (hall : ∀ (v0 : Int) (k : Nat), 0 ≤ v0 → k < cfg.ENTRIES_PER_SET → slot_free cfg m st v0 k)
    (e0 e1 e2 e3 e4 e5 : Nat → BYTE) (value : BYTE) :
    ∃ st1 st2 : Int → BYTE,
      calculate_set_index cfg 5 = 1 ∧ calculate_set_index cfg 9 = 1 ∧
      calculate_set_index cfg 13 = 1 ∧
      tlb_cache_write cfg (some m) 1 5 10 e0 = (0, some (with_storage m st1)) ∧
      slot_has_key cfg m st1 5 0 1 5 ∧
      decode_int (entry_at st1 (slot_of cfg 5 0)) cfg.PFN_OFFSET = 10 ∧
      tlb_cache_write cfg (some (with_storage m st1)) 2 9 20 e1
        = (0, some (with_storage m st2)) ∧
      slot_has_key cfg m st2 9 1 2 9 ∧
      decode_int (entry_at st2 (slot_of cfg 9 1)) cfg.PFN_OFFSET = 20 ∧
      tlb_cache_write cfg (some (with_storage m st2)) 1 13 30 e2
        = (-1, some (with_storage m st2)) ∧
      tlb_cache_read cfg (some (with_storage m st2)) 1 5 value e3 = (0, 10) ∧
      tlb_cache_read cfg (some (with_storage m st2)) 2 9 value e4 = (0, 20) ∧
      tlb_cache_read cfg (some (with_storage m st2)) 1 13 value e5 = (-1, value) :=
  scenario_4x2 cfg hwf hN hE m st hst
    (fun k hk => hall 5 k (by decide) (by rw [hE]; exact hk)) e0 e1 e2 e3 e4 e5 value

/-- C4 at a concrete input: the layout `cfg42` and the zeroed device `dev104`; the third
insert fails on the device left by the first two. -/
theorem C4_scenario_witness :
    (∀ (v0 : Int) (k : Nat), 0 ≤ v0 → k < cfg42.ENTRIES_PER_SET →
      slot_free cfg42 dev104 (fun _ => 0) v0 k) ∧
    (tlb_cache_write cfg42
      (tlb_cache_write cfg42 (tlb_cache_write cfg42 (some dev104) 1 5 10 zero_entry).2 2 9 20
        zero_entry).2 1 13 30 zero_entry).1 = -1 := by
  have hall : ∀ (v0 : Int) (k : Nat), 0 ≤ v0 → k < cfg42.ENTRIES_PER_SET →
      slot_free cfg42 dev104 (fun _ => 0) v0 k := by
    intro v0 k hv hk
    refine ⟨?_, rfl⟩
    have h1 := slot_of_end_lt cfg42 (by decide) v0 k hk
    have h2 : 0 ≤ calculate_set_index cfg42 v0 := Int.tmod_nonneg _ hv
    have h3 := set_index_lt cfg42 (by decide) v0
    have h4 := slot_of_index cfg42 v0 k
    have e1 : (cfg42.ENTRIES_PER_SET : Int) = 2 := rfl
    have e2 : (cfg42.ENTRY_SIZE : Int) = 13 := rfl
    have e3 : (cfg42.NUM_SETS : Int) = 4 := rfl
    have e4 : dev104.maxsz = 104 := rfl
    have hk' : k < 2 := hk
    unfold in_device
    rw [h4, e1, e2, e4]
    rw [e3] at h3
    omega
  obtain ⟨st1, st2, _, _, _, h1, _, _, h2, _, _, h3, _⟩ :=
    C4_scenario cfg42 (by decide) rfl rfl dev104 (fun _ => 0) rfl hall zero_entry zero_entry
      zero_entry zero_entry zero_entry zero_entry 0
  refine ⟨hall, ?_⟩
  rw [h1]
  simp only []
  rw [h2]
  simp only []
  rw [h3]

/-- C5: if in every set of the store at most one valid entry carries any given
`(pid, vpn)` pair, the same holds after any call of `tlb_cache_write`, whatever it
returns; so it holds in every state reached from a store of invalid records by inserts. -/
theorem C5_key_uniqueness (cfg : Config) (hwf : cfg.WF) :
    (∀ (mp : Option memphy_struct) (pid vpn : Int) (frame : BYTE) (entry0 : Nat → BYTE),
      key_unique cfg mp → key_unique cfg (tlb_cache_write cfg mp pid vpn frame entry0).2) ∧
    (∀ mp : Option memphy_struct, reachable cfg mp → key_unique cfg mp) := by
  refine ⟨fun mp pid vpn frame entry0 h => key_unique_write cfg hwf mp pid vpn frame entry0 h, ?_⟩
  intro mp hr
  induction hr with
  | init m st hst hall =>
    intro m' st' hm' hst' v0 i j p v hi _ hk _
    simp only [Option.some.injEq] at hm'
    subst hm'
    rw [hst] at hst'
    simp only [Option.some.injEq] at hst'
    subst hst'
    exact absurd ⟨hk.1, hk.2.1⟩ (hall v0 i hi)
  | insert mp pid pgnum value entry0 _ ih =>
    exact key_unique_write cfg hwf mp pid pgnum value entry0 ih

/-- C5 at a concrete input: the device reached from the zeroed `dev104` by the inserts of
`(1, 5, 10)` and `(1, 5, 11)` has unique keys. -/
theorem C5_key_uniqueness_witness :
    key_unique cfg42
      (tlb_cache_write cfg42 (tlb_cache_write cfg42 (some dev104) 1 5 10 zero_entry).2 1 5 11
        zero_entry).2 :=
  (C5_key_uniqueness cfg42 (by decide)).2 _
    (reachable.insert _ 1 5 11 zero_entry
      (reachable.insert _ 1 5 10 zero_entry
        (reachable.init dev104 (fun _ => 0) rfl (fun _ _ _ h => h.2 rfl))))

/-- C6, as amended: on an available device that holds at least the first slot of the set
selected by `vpn`, `tlb_cache_read` hits iff some slot of the set is a valid record of
the device with key `(pid, vpn)`; it then yields the frame number of the lowest-index
such slot truncated to a `BYTE`; otherwise it misses and leaves `*value` as it was. The
function has no access to the device other than `TLBMEMPHY_read`, so the device is left
unchanged. -/
theorem C6_lookup_first_match (cfg : Config) (hwf : cfg.WF) (m : memphy_struct)
    (st : Int → BYTE) (hst : m.storage = some st) (pid vpn : Int) (value : BYTE)
    (entry0 : Nat → BYTE) (h0 : in_device cfg m (slot_of cfg vpn 0)) :
    ((tlb_cache_read cfg (some m) pid vpn value entry0).1 = 0
      ↔ ∃ j, j < cfg.ENTRIES_PER_SET ∧ slot_has_key cfg m st vpn j pid vpn) ∧
    (∀ j, j < cfg.ENTRIES_PER_SET → slot_has_key cfg m st vpn j pid vpn →
      (∀ k, k < j → ¬ slot_has_key cfg m st vpn k pid vpn) →
      tlb_cache_read cfg (some m) pid vpn value entry0
        = (0, toBYTE (decode_int (entry_at st (slot_of cfg vpn j)) cfg.PFN_OFFSET))) ∧
    ((∀ j, j < cfg.ENTRIES_PER_SET → ¬ slot_has_key cfg m st vpn j pid vpn) →
      tlb_cache_read cfg (some m) pid vpn value entry0 = (-1, value)) := by
  refine ⟨?_, ?_, ?_⟩
  · rcases tlb_cache_read_in_device cfg hwf m st hst pid vpn value entry0 h0 with
      ⟨j, hj, hkey, _, hres⟩ | ⟨hnone, hres⟩
    · rw [hres]
      exact ⟨fun _ => ⟨j, hj, hkey⟩, fun _ => rfl⟩
    · rw [hres]
      constructor
      · intro h
        simp only [] at h
        omega
      · rintro ⟨j, hj, hkey⟩
        exact absurd hkey (hnone j hj)
  · intro j hj hkey hfirst
    exact tlb_cache_read_hit cfg hwf m st hst pid vpn value entry0 j hj hkey hfirst
  · intro hno
    exact tlb_cache_read_miss cfg hwf m st hst pid vpn value entry0 h0 hno

/-- C6 at a concrete input: in `dev_full` the lookup of `(2, 9)` skips slot 0 and hits
slot 1, whose frame number is 20. -/
theorem C6_lookup_first_match_witness :
    in_device cfg42 dev_full (slot_of cfg42 9 0) ∧
    tlb_cache_read cfg42 (some dev_full) 2 9 0 zero_entry = (0, 20) :=
  ⟨by decide,
    (C6_lookup_first_match cfg42 (by decide) dev_full full_bytes rfl 2 9 0 zero_entry
      (by decide)).2.1 1 (by decide) (by decide) (by decide)⟩

/-- C6 fails as stated, in two ways. In `dev_pfn300` the first slot with key `(1, 5)` has
the frame number 300, and the lookup yields 44, its low byte. On the available device
`dev64`, which holds no slot of the set of page 7, the lookup of `(1, 7)` reports a hit
when the local array happens to hold `stale_entry`. -/
theorem C6_truncation_and_undersized_device :
    (slot_has_key cfg42 dev_pfn300 pfn300_bytes 5 0 1 5 ∧
      decode_int (entry_at pfn300_bytes (slot_of cfg42 5 0)) cfg42.PFN_OFFSET = 300 ∧
      tlb_cache_read cfg42 (some dev_pfn300) 1 5 0 zero_entry = (0, 44)) ∧
    (dev64.storage.isSome = true ∧
      (∀ k, k < cfg42.ENTRIES_PER_SET → ¬ in_device cfg42 dev64 (slot_of cfg42 7 k)) ∧
      tlb_cache_read cfg42 (some dev64) 1 7 0 stale_entry = (0, 10)) := by
  decide

/-- C7: when a slot of the set is a valid record of the device with key `(pid, vpn)`, the
insert returns `0` and rewrites the first such slot: its frame-number field becomes
`frame`, its `pid` and `vpn` are the same and it is still valid (the validity byte is
stored as 1); every byte of the store outside that field and that validity byte is
unchanged, and so is the number of valid entries in the set. -/
theorem C7_update_in_place (cfg : Config) (hwf : cfg.WF) (m : memphy_struct)
    (st : Int → BYTE) (hst : m.storage = some st) (pid vpn : Int) (frame : BYTE)
    (entry0 : Nat → BYTE)
    (h : ∃ j, j < cfg.ENTRIES_PER_SET ∧ slot_has_key cfg m st vpn j pid vpn) :
    ∃ j st', j < cfg.ENTRIES_PER_SET ∧ slot_has_key cfg m st vpn j pid vpn ∧
      (∀ k, k < j → ¬ slot_has_key cfg m st vpn k pid vpn) ∧
      tlb_cache_write cfg (some m) pid vpn frame entry0 = (0, some (with_storage m st')) ∧
      decode_int (entry_at st' (slot_of cfg vpn j)) cfg.PFN_OFFSET = BYTE_to_uint32 cfg frame ∧
      toBYTE (decode_int (entry_at st' (slot_of cfg vpn j)) cfg.PFN_OFFSET) = frame ∧
      decode_int (entry_at st' (slot_of cfg vpn j)) cfg.PID_OFFSET
        = decode_int (entry_at st (slot_of cfg vpn j)) cfg.PID_OFFSET ∧
      decode_int (entry_at st' (slot_of cfg vpn j)) cfg.VPN_OFFSET
        = decode_int (entry_at st (slot_of cfg vpn j)) cfg.VPN_OFFSET ∧
      entry_at st' (slot_of cfg vpn j) cfg.VALID_OFFSET = 1 ∧
      (∀ b : Int,
        (b < slot_of cfg vpn j + (cfg.PFN_OFFSET : Int) ∨
          slot_of cfg vpn j + (cfg.PFN_OFFSET : Int) + 4 ≤ b) →
        b ≠ slot_of cfg vpn j + (cfg.VALID_OFFSET : Int) → st' b = st b) ∧
      valid_count cfg (with_storage m st') st' vpn = valid_count cfg m st vpn := by
  obtain ⟨j, hj, hkey, hfirst⟩ := exists_first _ _ h
  have hres := tlb_cache_write_update cfg hwf m st hst pid vpn frame entry0 j hj hkey hfirst
  refine ⟨j, _, hj, hkey, hfirst, hres, ?_, ?_, ?_, ?_, ?_, ?_, ?_⟩
  · rw [decode_write_same cfg st vpn j _ _ hwf.2.2.2.1, upd_entry_pfn cfg hwf]
  · rw [decode_write_same cfg st vpn j _ _ hwf.2.2.2.1, upd_entry_pfn cfg hwf, BYTE_roundtrip]
  · rw [decode_write_same cfg st vpn j _ _ hwf.2.1, upd_entry_pid cfg hwf]
  · rw [decode_write_same cfg st vpn j _ _ hwf.2.2.1, upd_entry_vpn cfg hwf]
  · rw [entry_at_memcpy_to_same st _ _ _ _ hwf.2.2.2.2.1, upd_entry_valid]
  · intro b h1 h2
    exact upd_bytes_changed cfg st _ frame b h1 h2
  · unfold valid_count
    congr 2
    funext k
    exact decide_eq_decide.mpr
      (slot_valid_update cfg m st vpn j frame hkey.2.1 hwf.2.2.2.2.1 k)

/-- C7 at a concrete input: `dev_full` holds `(1, 5)` in slot 0 of set 1; the insert of
`(1, 5, 11)` succeeds. -/
theorem C7_update_in_place_witness :
    (∃ j, j < cfg42.ENTRIES_PER_SET ∧ slot_has_key cfg42 dev_full full_bytes 5 j 1 5) ∧
    (tlb_cache_write cfg42 (some dev_full) 1 5 11 zero_entry).1 = 0 := by
  have hex : ∃ j, j < cfg42.ENTRIES_PER_SET ∧ slot_has_key cfg42 dev_full full_bytes 5 j 1 5 :=
    ⟨0, by decide, by decide⟩
  obtain ⟨j, st', _, _, _, hres, _⟩ :=
    C7_update_in_place cfg42 (by decide) dev_full full_bytes rfl 1 5 11 zero_entry hex
  exact ⟨hex, by rw [hres]⟩

/-- C8: when no slot of the set is a valid record of the device with key `(pid, vpn)` and
some slot of the set is an invalid record of the device, the insert returns `0` and
stores the record `(pid, vpn, frame, valid = 1)` in the lowest-index invalid slot; no
byte of the store outside that slot changes. -/
theorem C8_first_free_slot (cfg : Config) (hwf : cfg.WF) (m : memphy_struct)
    (st : Int → BYTE) (hst : m.storage = some st) (pid vpn : Int) (frame : BYTE)
    (entry0 : Nat → BYTE)
    (hno : ∀ k, k < cfg.ENTRIES_PER_SET → ¬ slot_has_key cfg m st vpn k pid vpn)
    (hfree : ∃ j, j < cfg.ENTRIES_PER_SET ∧ slot_free cfg m st vpn j) :
    ∃ j st', j < cfg.ENTRIES_PER_SET ∧ slot_free cfg m st vpn j ∧
      (∀ k, k < j → ¬ slot_free cfg m st vpn k) ∧
      tlb_cache_write cfg (some m) pid vpn frame entry0 = (0, some (with_storage m st')) ∧
      (decode_int (entry_at st' (slot_of cfg vpn j)) cfg.PID_OFFSET : Int) = pid % 4294967296 ∧
      (decode_int (entry_at st' (slot_of cfg vpn j)) cfg.VPN_OFFSET : Int) = vpn % 4294967296 ∧
      decode_int (entry_at st' (slot_of cfg vpn j)) cfg.PFN_OFFSET = BYTE_to_uint32 cfg frame ∧
      toBYTE (decode_int (entry_at st' (slot_of cfg vpn j)) cfg.PFN_OFFSET) = frame ∧
      entry_at st' (slot_of cfg vpn j) cfg.VALID_OFFSET = 1 ∧
      (∀ b : Int, (b < slot_of cfg vpn j ∨ slot_of cfg vpn j + (cfg.ENTRY_SIZE : Int) ≤ b) →
        st' b = st b) := by
  obtain ⟨j, hj, hfreej, hfirst⟩ := exists_first _ _ hfree
  obtain ⟨buf, hres⟩ :=
    tlb_cache_write_insert cfg hwf m st hst pid vpn frame entry0 j hj hfreej hfirst hno
  refine ⟨j, _, hj, hfreej, hfirst, hres, ?_, ?_, ?_, ?_, ?_, ?_⟩
  · rw [decode_write_same cfg st vpn j _ _ hwf.2.1, new_entry_pid cfg hwf]
  · rw [decode_write_same cfg st vpn j _ _ hwf.2.2.1, new_entry_vpn cfg hwf]
  · rw [decode_write_same cfg st vpn j _ _ hwf.2.2.2.1, new_entry_pfn cfg hwf]
  · rw [decode_write_same cfg st vpn j _ _ hwf.2.2.2.1, new_entry_pfn cfg hwf, BYTE_roundtrip]
  · rw [entry_at_memcpy_to_same st _ _ _ _ hwf.2.2.2.2.1, new_entry_valid]
  · intro b hb
    exact memcpy_to_outside st _ b _ _ hb

/-- C8 at a concrete input: every record of `dev104` is invalid; the insert of
`(1, 5, 10)` succeeds. -/
theorem C8_first_free_slot_witness :
    (∀ k, k < cfg42.ENTRIES_PER_SET → ¬ slot_has_key cfg42 dev104 (fun _ => 0) 5 k 1 5) ∧
    (∃ j, j < cfg42.ENTRIES_PER_SET ∧ slot_free cfg42 dev104 (fun _ => 0) 5 j) ∧
    (tlb_cache_write cfg42 (some dev104) 1 5 10 zero_entry).1 = 0 := by
  have hno : ∀ k, k < cfg42.ENTRIES_PER_SET → ¬ slot_has_key cfg42 dev104 (fun _ => 0) 5 k 1 5 := by
    decide
  have hex : ∃ j, j < cfg42.ENTRIES_PER_SET ∧ slot_free cfg42 dev104 (fun _ => 0) 5 j :=
    ⟨0, by decide, by decide⟩
  obtain ⟨j, st', _, _, _, hres, _⟩ :=
    C8_first_free_slot cfg42 (by decide) dev104 (fun _ => 0) rfl 1 5 10 zero_entry hno hex
  exact ⟨hno, hex, by rw [hres]⟩

/-- C9, as amended: if the set selected by the page of `va` has an invalid slot inside the
device and `handle_page_fault(proc, va)` returns success, then the lookup of `(pid, page)`
that follows hits and yields the frame number that the handler installed, truncated to a
`BYTE`: that of the page-table entry on a soft miss, that of the allocator on a hard
miss, in which case the page-table entry is the one `init_pte` makes for that frame. -/
theorem C9_fault_then_hit (cfg : Config) (hwf : cfg.WF) (ext : Extern) (proc : pcb_t)
    (m : memphy_struct) (st : Int → BYTE) (htlb : proc.tlb = some m) (hst : m.storage = some st)
    (va : Nat) (value : BYTE) (entry1 entry2 : Nat → BYTE)
    (hfree : ∃ j, j < cfg.ENTRIES_PER_SET ∧
      slot_free cfg m st (int_of_uint32 (ext.PAGING_PGN va % 4294967296)) j)
    (hok : (handle_page_fault cfg ext proc va entry1).1 = 0) :
    (proc.pgd (ext.PAGING_PGN va % 4294967296) &&& ext.PAGING_PTE_PRESENT_MASK ≠ 0 →
      tlb_cache_read cfg (handle_page_fault cfg ext proc va entry1).2.tlb
          (int_of_uint32 (handle_page_fault cfg ext proc va entry1).2.pid)
          (int_of_uint32 (ext.PAGING_PGN va % 4294967296)) value entry2
        = (0, toBYTE (ext.PAGING_FPN (proc.pgd (ext.PAGING_PGN va % 4294967296))))) ∧
    (¬ proc.pgd (ext.PAGING_PGN va % 4294967296) &&& ext.PAGING_PTE_PRESENT_MASK ≠ 0 →
      ∃ frame, (ext.alloc_pages_range proc 1).2 = some frame ∧
        (handle_page_fault cfg ext proc va entry1).2.pgd (ext.PAGING_PGN va % 4294967296)
          = ext.init_pte (proc.pgd (ext.PAGING_PGN va % 4294967296)) 1 frame.fpn 1 0 0 0 ∧
        tlb_cache_read cfg (handle_page_fault cfg ext proc va entry1).2.tlb
            (int_of_uint32 (handle_page_fault cfg ext proc va entry1).2.pid)
            (int_of_uint32 (ext.PAGING_PGN va % 4294967296)) value entry2
          = (0, toBYTE (frame.fpn % 256).toNat)) :=
  handle_page_fault_then_read cfg hwf ext proc m st htlb hst va value entry1 entry2 hfree hok

/-- C9 at a concrete input: a hard fault on page 5 of `proc_unmapped`, whose cache is
empty; the allocator of `ext0` hands out frame 7 and the lookup then yields 7. -/
theorem C9_fault_then_hit_witness :
    (∃ j, j < cfg42.ENTRIES_PER_SET ∧
      slot_free cfg42 dev104 (fun _ => 0) (int_of_uint32 (ext0.PAGING_PGN 1280 % 4294967296)) j) ∧
    (handle_page_fault cfg42 ext0 proc_unmapped 1280 zero_entry).1 = 0 ∧
    ∃ frame, (ext0.alloc_pages_range proc_unmapped 1).2 = some frame ∧
      (handle_page_fault cfg42 ext0 proc_unmapped 1280 zero_entry).2.pgd
          (ext0.PAGING_PGN 1280 % 4294967296)
        = ext0.init_pte (proc_unmapped.pgd (ext0.PAGING_PGN 1280 % 4294967296)) 1 frame.fpn 1 0 0 0 ∧
      tlb_cache_read cfg42 (handle_page_fault cfg42 ext0 proc_unmapped 1280 zero_entry).2.tlb
          (int_of_uint32 (handle_page_fault cfg42 ext0 proc_unmapped 1280 zero_entry).2.pid)
          (int_of_uint32 (ext0.PAGING_PGN 1280 % 4294967296)) 0 zero_entry
        = (0, toBYTE (frame.fpn % 256).toNat) :=
  ⟨⟨0, by decide, by decide⟩, by decide,
    (C9_fault_then_hit cfg42 (by decide) ext0 proc_unmapped dev104 (fun _ => 0) rfl rfl 1280 0
      zero_entry zero_entry ⟨0, by decide, by decide⟩ (by decide)).2 (by decide)⟩

/-- C9 fails as stated, in two ways. In `proc_full` the lookup of `(1, 13)` misses, the
handler finds page 13 present and returns success, its insert is refused because set 1 is
full, and the second lookup misses. In `proc300` the handler installs frame 300 for page
5, and the second lookup yields 44. -/
theorem C9_full_set_and_truncation :
    ((tlb_cache_read cfg42 proc_full.tlb 1 13 0 zero_entry).1 = -1 ∧
      (handle_page_fault cfg42 ext0 proc_full 3328 zero_entry).1 = 0 ∧
      (tlb_cache_read cfg42 (handle_page_fault cfg42 ext0 proc_full 3328 zero_entry).2.tlb 1 13 0
        zero_entry).1 = -1) ∧
    ((tlb_cache_read cfg42 proc300.tlb 1 5 0 zero_entry).1 = -1 ∧
      (handle_page_fault cfg42 ext0 proc300 1280 zero_entry).1 = 0 ∧
      ext0.PAGING_FPN (proc300.pgd 5) = 300 ∧
      tlb_cache_read cfg42 (handle_page_fault cfg42 ext0 proc300 1280 zero_entry).2.tlb 1 5 0
        zero_entry = (0, 44)) := by
  decide

/-- C10, as amended: when the underlying byte write fails, `tlbwrite` returns a failure
and does not run its own update of the cache; the cache store after the call is the
store before the call when the first lookup hits, and the store left by
`handle_page_fault` when the first lookup misses. -/
theorem C10_failed_write (cfg : Config) (ext : Extern) (proc : pcb_t) (data : BYTE)
    (destination offset : Nat) (entry0 entry1 entry2 entry3 : Nat → BYTE)
    (hfail : ∀ q : pcb_t, (ext.__write q 0 destination offset data).1 ≠ 0) :
    (tlbwrite cfg ext proc data destination offset entry0 entry1 entry2 entry3).1 ≠ 0 ∧
    ((tlb_cache_read cfg proc.tlb (int_of_uint32 proc.pid)
        (int_of_uint32 (ext.PAGING_PGN ((proc.regs destination + offset) % 4294967296)
          % 4294967296)) 255 entry0).1 = 0 →
      (tlbwrite cfg ext proc data destination offset entry0 entry1 entry2 entry3).2.tlb
        = proc.tlb) ∧
    ((tlb_cache_read cfg proc.tlb (int_of_uint32 proc.pid)
        (int_of_uint32 (ext.PAGING_PGN ((proc.regs destination + offset) % 4294967296)
          % 4294967296)) 255 entry0).1 ≠ 0 →
      (tlbwrite cfg ext proc data destination offset entry0 entry1 entry2 entry3).2.tlb
        = (handle_page_fault cfg ext proc ((proc.regs destination + offset) % 4294967296)
            entry1).2.tlb) :=
  tlbwrite_failed cfg ext proc data destination offset entry0 entry1 entry2 entry3 hfail

/-- C10 at a concrete input: `proc_hit` has page 5 cached; its first lookup hits, the byte
write of `ext0` fails, and the cache device is the one before the call. -/
theorem C10_failed_write_witness :
    (∀ q : pcb_t, (ext0.__write q 0 0 1280 0).1 ≠ 0) ∧
    (tlbwrite cfg42 ext0 proc_hit 0 0 1280 zero_entry zero_entry zero_entry zero_entry).2.tlb
      = proc_hit.tlb :=
  ⟨fun _ => by simp [ext0],
    (C10_failed_write cfg42 ext0 proc_hit 0 0 1280 zero_entry zero_entry zero_entry zero_entry
      (fun _ => by simp [ext0])).2.1 (by decide)⟩

/-- C10 fails as stated: in `proc5` page 5 is mapped but not cached. The first lookup of
`tlbwrite` misses, the fault handler inserts `(1, 5, 10)`, the byte write of `ext0` then
fails, and the call returns `-1` with the validity byte of set 1 slot 0 (offset 38)
changed from 0 to 1. -/
theorem C10_miss_path_changes_cache :
    (∀ q : pcb_t, (ext0.__write q 0 0 1280 0).1 = -1) ∧
    (tlbwrite cfg42 ext0 proc5 0 0 1280 zero_entry zero_entry zero_entry zero_entry).1 = -1 ∧
    byte_of proc5.tlb 38 = some 0 ∧
    byte_of
      (tlbwrite cfg42 ext0 proc5 0 0 1280 zero_entry zero_entry zero_entry zero_entry).2.tlb 38
      = some 1 :=
  ⟨fun _ => rfl, by decide, by decide, by decide⟩

/-- C11 fails on the code: `tlbfree_data` on region 0 of `proc_region` (page 5) returns the
`0` of `__free`, and the lookup of `(1, 5)` that follows hits with frame 0, both when page
5 was not cached before and when it was cached with frame 10: the call made to
invalidate the entry is `tlb_cache_write`, which stores a valid record. -/
theorem C11_free_leaves_valid_entry :
    ((tlbfree_data cfg42 ext0 proc_region 0 (fun _ => zero_entry)).map (fun r => r.1) = some 0 ∧
      (tlb_cache_read cfg42 proc_region.tlb 1 5 7 zero_entry) = (-1, 7) ∧
      (tlbfree_data cfg42 ext0 proc_region 0 (fun _ => zero_entry)).map
        (fun r => tlb_cache_read cfg42 r.2.tlb 1 5 7 zero_entry) = some (0, 0)) ∧
    ((tlbfree_data cfg42 ext0 proc_region_cached 0 (fun _ => zero_entry)).map (fun r => r.1)
        = some 0 ∧
      (tlb_cache_read cfg42 proc_region_cached.tlb 1 5 7 zero_entry) = (0, 10) ∧
      (tlbfree_data cfg42 ext0 proc_region_cached 0 (fun _ => zero_entry)).map
        (fun r => tlb_cache_read cfg42 r.2.tlb 1 5 7 zero_entry) = some (0, 0)) := by
  decide

/-- C12, as amended: on an available cache device, a `tlbread` or `tlbwrite` whose byte
transfer succeeds returns `0` when the first lookup hits, and also when it misses, the
fault handler returns success and the set selected by the page has an invalid slot inside
the cache device, so that the handler's insert succeeds; in both cases the frame byte
found has to pass the test `frmnum >= 0`, which every byte does when `BYTE` is unsigned.
When every slot of the set selected by the page is a valid record of the device and none
holds `(pid, page)`, both functions return `-1`, whatever the handler and the byte
transfer would return. -/
theorem C12_access_outcome (cfg : Config) (hwf : cfg.WF) (ext : Extern) (proc : pcb_t)
    (m : memphy_struct) (st : Int → BYTE) (htlb : proc.tlb = some m) (hst : m.storage = some st)
    (data : BYTE) (source destination offset : Nat)
    (entry0 entry1 entry2 entry3 : Nat → BYTE) :
    ((∀ q : pcb_t, (ext.__write q 0 destination offset data).1 = 0) →
      (∀ q : pcb_t, (ext.__read q 0 source offset).1 = 0) →
      (((first_lookup cfg ext proc destination offset entry0).1 = 0 ∧
          BYTE_nonneg cfg (first_lookup cfg ext proc destination offset entry0).2) ∨
        ((first_lookup cfg ext proc destination offset entry0).1 ≠ 0 ∧
          (after_fault cfg ext proc destination offset entry1).1 = 0 ∧
          (∃ j, j < cfg.ENTRIES_PER_SET ∧
            slot_free cfg m st (int_of_uint32 (access_page ext proc destination offset)) j) ∧
          BYTE_nonneg cfg
            (second_lookup cfg ext proc destination offset entry0 entry1 entry2).2)) →
      (tlbwrite cfg ext proc data destination offset entry0 entry1 entry2 entry3).1 = 0 ∧
      (tlbread cfg ext proc source offset destination entry0 entry1 entry2).1 = 0) ∧
    ((∀ k, k < cfg.ENTRIES_PER_SET →
        slot_valid cfg m st (int_of_uint32 (access_page ext proc destination offset)) k ∧
        ¬ entry_matches cfg
            (entry_at st
              (slot_of cfg (int_of_uint32 (access_page ext proc destination offset)) k))
            (int_of_uint32 proc.pid)
            (int_of_uint32 (access_page ext proc destination offset))) →
      (tlbwrite cfg ext proc data destination offset entry0 entry1 entry2 entry3).1 = -1 ∧
      (tlbread cfg ext proc source offset destination entry0 entry1 entry2).1 = -1) := by
  refine ⟨fun hw hr hcase => ?_, fun hfull => ?_⟩
  · have cw := tlbwrite_code cfg ext proc m htlb data destination offset entry0 entry1 entry2
      entry3
    have cr := tlbread_code cfg ext proc m htlb source offset destination entry0 entry1 entry2
    rcases hcase with ⟨h1, hb⟩ | ⟨h1, h2, hfree, hb⟩
    · rw [cw.1 h1, cr.1 h1]
      exact ⟨tlbwrite_transfer_ok cfg ext proc data destination offset _ _ entry3 hb (hw proc),
        tlbread_transfer_ok cfg ext proc source offset _ destination hb (hr proc)⟩
    · have h3 := second_lookup_hits cfg hwf ext proc m st htlb hst destination offset entry0
        entry1 entry2 hfree h2
      rw [cw.2.1 h1 h2 h3, cr.2.1 h1 h2 h3]
      exact ⟨tlbwrite_transfer_ok cfg ext _ data destination offset _ _ entry3 hb (hw _),
        tlbread_transfer_ok cfg ext _ source offset _ destination hb (hr _)⟩
  · exact access_full_set_fails cfg hwf ext proc m st htlb hst data source destination offset
      entry0 entry1 entry2 entry3 hfull

/-- C12 at concrete inputs. Page 5 of `proc5` is mapped and not cached, the cache is
empty and the transfers of `ext_ok` succeed: both accesses return `0`. In `proc_full` set 1
of the cache is full with no entry for page 13: both accesses return `-1`. -/
theorem C12_access_outcome_witness :
    ((tlbwrite cfg42 ext_ok proc5 0 0 1280 zero_entry zero_entry zero_entry zero_entry).1 = 0 ∧
      (tlbread cfg42 ext_ok proc5 0 1280 0 zero_entry zero_entry zero_entry).1 = 0) ∧
    ((tlbwrite cfg42 ext_ok proc_full 0 0 3328 zero_entry zero_entry zero_entry
        zero_entry).1 = -1 ∧
      (tlbread cfg42 ext_ok proc_full 0 3328 0 zero_entry zero_entry zero_entry).1 = -1) :=
  ⟨(C12_access_outcome cfg42 (by decide) ext_ok proc5 dev104 (fun _ => 0) rfl rfl 0 0 0 1280
      zero_entry zero_entry zero_entry zero_entry).1 (fun _ => rfl) (fun _ => rfl)
      (Or.inr ⟨by decide, by decide, ⟨0, by decide, by decide⟩, by decide⟩),
    (C12_access_outcome cfg42 (by decide) ext_ok proc_full dev_full full_bytes rfl rfl 0 0 0
      3328 zero_entry zero_entry zero_entry zero_entry).2 (by decide)⟩

/-- C12 fails as stated: in `proc_full` page 13 is present in the page table, so the
handler returns success, and the transfers of `ext_ok` succeed; but set 1 of the cache is
full with no entry for `(1, 13)`, the second lookup misses, and both `tlbwrite` and
`tlbread` return `-1`. -/
theorem C12_full_set_fails_access :
    (after_fault cfg42 ext_ok proc_full 0 3328 zero_entry).1 = 0 ∧
    (∀ q : pcb_t, (ext_ok.__write q 0 0 3328 0).1 = 0) ∧
    (∀ q : pcb_t, (ext_ok.__read q 0 0 3328).1 = 0) ∧
    (∀ k, k < cfg42.ENTRIES_PER_SET →
      slot_valid cfg42 dev_full full_bytes 13 k ∧
        ¬ entry_matches cfg42 (entry_at full_bytes (slot_of cfg42 13 k)) 1 13) ∧
    (tlbwrite cfg42 ext_ok proc_full 0 0 3328 zero_entry zero_entry zero_entry zero_entry).1
      = -1 ∧
    (tlbread cfg42 ext_ok proc_full 0 3328 0 zero_entry zero_entry zero_entry).1 = -1 :=
  ⟨by decide, fun _ => rfl, fun _ => rfl, by decide, by decide, by decide⟩

/-- C13 fails on the code: on the 104-byte device `dev104`, `TLBMEMPHY_write` and
`TLBMEMPHY_read` with `addr = -13` and `size = 13` pass the bound check, because
`addr + size` is 0 in `uint32_t`, and return `0`; the write stores into the 13 bytes
before the device (the byte at offset -1 changes from 0 to 1). -/
theorem C13_negative_addr_passes_check :
    (TLBMEMPHY_write (some dev104) (-13) (fun _ => 1) 13).1 = 0 ∧
    byte_of (some dev104) (-1) = some 0 ∧
    byte_of (TLBMEMPHY_write (some dev104) (-13) (fun _ => 1) 13).2 (-1) = some 1 ∧
    (TLBMEMPHY_read (some dev104) (-13) zero_entry 13).1 = 0 := by
  decide

/-- C14: for an in-range `addr`, `TLBMEMPHY_write(mp, addr, data, size)` succeeds; the
`TLBMEMPHY_read(mp, addr, size)` that follows succeeds and returns exactly the bytes
written; every byte outside `[addr, addr + size)` is unchanged; and the same write done
a second time leaves the store as it is. -/
theorem C14_write_read_roundtrip (m : memphy_struct) (st : Int → BYTE)
    (hst : m.storage = some st) (addr : Int) (data value : Nat → BYTE) (size : Nat)
    (h0 : 0 ≤ addr) (h1 : addr + (size : Int) ≤ m.maxsz) :
    TLBMEMPHY_write (some m) addr data size
      = (0, some (with_storage m (memcpy_to st addr data size))) ∧
    (∃ buf, TLBMEMPHY_read (some (with_storage m (memcpy_to st addr data size))) addr value size
        = (0, buf) ∧
      (∀ k, k < size → buf k = data k) ∧ (∀ k, size ≤ k → buf k = value k)) ∧
    (∀ a : Int, (a < addr ∨ addr + (size : Int) ≤ a) → memcpy_to st addr data size a = st a) ∧
    TLBMEMPHY_write (some (with_storage m (memcpy_to st addr data size))) addr data size
      = (0, some (with_storage m (memcpy_to st addr data size))) := by
  have hr : ¬ out_of_range m addr size := by
    unfold out_of_range
    have := m.maxsz_int
    omega
  have hr' : ¬ out_of_range (with_storage m (memcpy_to st addr data size)) addr size := hr
  refine ⟨?_, ?_, ?_, ?_⟩
  · simp only [TLBMEMPHY_write, hst, if_neg hr, with_storage]
  · refine ⟨memcpy_from (memcpy_to st addr data size) addr value size, ?_, ?_, ?_⟩
    · simp only [TLBMEMPHY_read, storage_with_storage, if_neg hr']
    · intro k hk
      unfold memcpy_from memcpy_to
      rw [if_pos hk, if_pos (by omega)]
      congr 1
      omega
    · intro k hk
      unfold memcpy_from
      rw [if_neg (by omega)]
  · intro a ha
    exact memcpy_to_outside st addr a data size ha
  · have hidem : memcpy_to (memcpy_to st addr data size) addr data size
        = memcpy_to st addr data size := by
      funext a
      unfold memcpy_to
      split
      · rfl
      · rfl
    have hw : TLBMEMPHY_write (some (with_storage m (memcpy_to st addr data size))) addr data size
        = (0, some (with_storage (with_storage m (memcpy_to st addr data size))
            (memcpy_to (memcpy_to st addr data size) addr data size))) := by
      unfold TLBMEMPHY_write
      simp only [storage_with_storage]
      rw [if_neg hr']
      rfl
    rw [hw, with_storage_twice, hidem]

/-- C14 at a concrete input: 13 bytes equal to 1 written at offset 26 of `dev104` are
read back from there. -/
theorem C14_write_read_roundtrip_witness :
    ∃ buf, TLBMEMPHY_read (some (with_storage dev104 (memcpy_to (fun _ => 0) 26 (fun _ => 1) 13)))
        26 zero_entry 13 = (0, buf) ∧
      (∀ k, k < 13 → buf k = 1) ∧ (∀ k, 13 ≤ k → buf k = zero_entry k) :=
  (C14_write_read_roundtrip dev104 (fun _ => 0) rfl 26 (fun _ => 1) zero_entry 13 (by decide)
    (by decide)).2.1

/-- C15: `tlbfree_data(proc, reg_index)` returns `-1` when
`reg_index >= PAGING_MAX_SYMTBL_SZ` or when the region has `rg_start = 0` and
`rg_end = 0`; the process, and with it the cache store, is then unchanged, and the
result is the same whatever `__free` is, which is not called. -/
theorem C15_free_rejects (cfg : Config) (ext : Extern) (proc : pcb_t) (reg_index : Nat)
    (entry0 : Nat → Nat → BYTE)
    (h : reg_index ≥ ext.PAGING_MAX_SYMTBL_SZ ∨
      ((proc.symrgtbl reg_index).rg_start = 0 ∧ (proc.symrgtbl reg_index).rg_end = 0)) :
    tlbfree_data cfg ext proc reg_index entry0 = some (-1, proc) ∧
    ∀ f : pcb_t → Int → Nat → Int × (Nat → vm_rg_struct),
      tlbfree_data cfg { ext with __free := f } proc reg_index entry0 = some (-1, proc) := by
  have key : ∀ e : Extern, e.PAGING_MAX_SYMTBL_SZ = ext.PAGING_MAX_SYMTBL_SZ →
      tlbfree_data cfg e proc reg_index entry0 = some (-1, proc) := by
    intro e he
    unfold tlbfree_data
    rw [he]
    by_cases h1 : reg_index ≥ ext.PAGING_MAX_SYMTBL_SZ
    · rw [if_pos h1]
    · rw [if_neg h1]
      have h2 := h.resolve_left h1
      simp only [if_pos h2]
  exact ⟨key ext rfl, fun f => key _ rfl⟩

/-- C15 at a concrete input: region 3 of `proc_region` was never allocated. -/
theorem C15_free_rejects_witness :
    tlbfree_data cfg42 ext0 proc_region 3 (fun _ => zero_entry) = some (-1, proc_region) :=
  (C15_free_rejects cfg42 ext0 proc_region 3 (fun _ => zero_entry) (Or.inr ⟨rfl, rfl⟩)).1

/-- C16: when the faulting page is not present and the frame allocator fails (a non-zero
return code or a NULL frame), `handle_page_fault` returns `-1` and leaves the process as
it was, so the page-table entry of the page and the whole cache store are unchanged. -/
theorem C16_allocation_failure (cfg : Config) (ext : Extern) (proc : pcb_t) (va : Nat)
    (entry0 : Nat → BYTE)
    (hp : ¬ proc.pgd (ext.PAGING_PGN va % 4294967296) &&& ext.PAGING_PTE_PRESENT_MASK ≠ 0)
    (ha : (ext.alloc_pages_range proc 1).1 ≠ 0 ∨ (ext.alloc_pages_range proc 1).2 = none) :
    handle_page_fault cfg ext proc va entry0 = (-1, proc) := by
  unfold handle_page_fault
  simp only [if_neg hp]
  cases hf : (ext.alloc_pages_range proc 1).2 with
  | none => rfl
  | some frame =>
    simp only []
    have h1 : (ext.alloc_pages_range proc 1).1 ≠ 0 := by
      rcases ha with h | h
      · exact h
      · rw [hf] at h
        exact absurd h (by simp)
    rw [if_pos h1]

/-- C16 at a concrete input: page 5 of `proc_unmapped` is not present and the allocator
returns a NULL frame. -/
theorem C16_allocation_failure_witness :
    handle_page_fault cfg42 { ext0 with alloc_pages_range := fun _ _ => (0, none) } proc_unmapped
      1280 zero_entry = (-1, proc_unmapped) :=
  C16_allocation_failure cfg42 { ext0 with alloc_pages_range := fun _ _ => (0, none) }
    proc_unmapped 1280 zero_entry (by decide) (Or.inr rfl)

/-- C17: on every queue built from an empty queue by calls of `enqueue` and `dequeue`,
`dequeue` returns NULL and leaves the queue as it is when the queue is empty; otherwise it
returns the first process, no remaining process has a greater priority than the one
returned, the size goes down by one, and the remaining processes keep their order. -/
theorem C17_dequeue_highest_priority (MAX_QUEUE_SIZE : Nat) (q : queue_t)
    (h : queue_reachable MAX_QUEUE_SIZE q) :
    (q.size = 0 → dequeue q = (none, q)) ∧
    (q.size ≠ 0 → ∃ (head : pcb_t) (rest : List pcb_t),
      queue_list q = (head :: rest).map some ∧
      (dequeue q).1 = some head ∧
      (∀ x, x ∈ rest → x.priority ≤ head.priority) ∧
      (dequeue q).2.size + 1 = q.size ∧
      queue_list (dequeue q).2 = rest.map some) := by
  obtain ⟨l, hl, hs⟩ := queue_reachable_sorted MAX_QUEUE_SIZE q h
  refine ⟨dequeue_empty q, fun hne => ?_⟩
  cases l with
  | nil =>
    have hsz := queue_list_size q _ hl
    exact absurd (by simpa using hsz) hne
  | cons head rest =>
    obtain ⟨h1, h2, h3⟩ := dequeue_spec q head rest hl
    exact ⟨head, rest, hl, h1, (List.pairwise_cons.mp hs).1, h2, h3⟩

/-- C17 at a concrete input: the queue built from an empty one by enqueueing process 2 of priority 3
and then process 1 of priority 5. -/
theorem C17_dequeue_highest_priority_witness :
    queue_reachable 4 queue53_built ∧
    (queue53_built.size = 0 → dequeue queue53_built = (none, queue53_built)) ∧
    (queue53_built.size ≠ 0 → ∃ (head : pcb_t) (rest : List pcb_t),
      queue_list queue53_built = (head :: rest).map some ∧
      (dequeue queue53_built).1 = some head ∧
      (∀ x, x ∈ rest → x.priority ≤ head.priority) ∧
      (dequeue queue53_built).2.size + 1 = queue53_built.size ∧
      queue_list (dequeue queue53_built).2 = rest.map some) := by
  have h : queue_reachable 4 queue53_built :=
    queue_reachable.enq queue3 queue53_built (mk_proc 1 5)
      (queue_reachable.enq { proc := fun _ => none, size := 0 } queue3 (mk_proc 2 3)
        (queue_reachable.init _) rfl) rfl
  exact ⟨h, C17_dequeue_highest_priority 4 queue53_built h⟩

/-- C18: for keys `(pid, vpn) != (pid', vpn')` (C `int`s), the result of
`tlb_cache_read(mp, pid, vpn)`, hit or miss and the frame, is the same before and after
any `tlb_cache_write(mp, pid', vpn', frame')`, whether or not the two keys fall in the
same set. -/
theorem C18_other_keys_undisturbed (cfg : Config) (hwf : cfg.WF) (mp : Option memphy_struct)
    (pid vpn pid' vpn' : Int) (frame' value : BYTE) (entry0 entry1 : Nat → BYTE)
    (hpid : is_int pid) (hvpn : is_int vpn) (hpid' : is_int pid') (hvpn' : is_int vpn')
    (hne : (pid, vpn) ≠ (pid', vpn')) :
    tlb_cache_read cfg (tlb_cache_write cfg mp pid' vpn' frame' entry0).2 pid vpn value entry1
      = tlb_cache_read cfg mp pid vpn value entry1 := by
  apply tlb_cache_read_other_key cfg hwf
  intro h
  apply hne
  unfold is_int at hpid hvpn hpid' hvpn'
  have h1 : pid = pid' := by omega
  have h2 : vpn = vpn' := by omega
  rw [h1, h2]

/-- C18 at a concrete input: `dev_full` holds `(1, 5)` with frame 10; rewriting `(2, 9)`
in the same set leaves the lookup of `(1, 5)` at frame 10. -/
theorem C18_other_keys_undisturbed_witness :
    tlb_cache_read cfg42 (tlb_cache_write cfg42 (some dev_full) 2 9 21 zero_entry).2 1 5 0
        zero_entry
      = tlb_cache_read cfg42 (some dev_full) 1 5 0 zero_entry :=
  C18_other_keys_undisturbed cfg42 (by decide) (some dev_full) 1 5 2 9 21 0 zero_entry zero_entry
    (by decide) (by decide) (by decide) (by decide) (by decide)

/-- C19, as amended: on a store that holds the first slot of the set and whose valid
records have the form in which `tlb_cache_write` stores them, as they have in every store
reached from a store of invalid records by inserts, if `tlb_cache_read(mp, pid, vpn)`
hits with frame `f` then `tlb_cache_write(mp, pid, vpn, f)` returns `0` and leaves the
store unchanged; consequently a `tlbwrite` whose first lookup hits on such a store does
not change the cache store, whether or not the byte write succeeds. The form of the
records (`canonical`) is: the validity byte is 1 and the frame-number field is the
`uint32_t` conversion of a `BYTE`, that is, below 256 when `BYTE` is unsigned, and below
128 or from `0xFFFFFF80` on when `BYTE` is signed. -/
theorem C19_write_back_noop (cfg : Config) (hwf : cfg.WF) :
    (∀ (m : memphy_struct) (st : Int → BYTE) (pid vpn : Int) (f value : BYTE)
        (entry0 entry1 : Nat → BYTE), m.storage = some st → canonical cfg (some m) →
      in_device cfg m (slot_of cfg vpn 0) →
      tlb_cache_read cfg (some m) pid vpn value entry0 = (0, f) →
      tlb_cache_write cfg (some m) pid vpn f entry1 = (0, some m)) ∧
    (∀ mp : Option memphy_struct, reachable cfg mp → canonical cfg mp) ∧
    (∀ (ext : Extern) (proc : pcb_t) (m : memphy_struct) (st : Int → BYTE) (data : BYTE)
        (destination offset : Nat) (entry0 entry1 entry2 entry3 : Nat → BYTE),
      proc.tlb = some m → m.storage = some st → canonical cfg (some m) →
      in_device cfg m
        (slot_of cfg (int_of_uint32 (access_page ext proc destination offset)) 0) →
      (first_lookup cfg ext proc destination offset entry0).1 = 0 →
      (tlbwrite cfg ext proc data destination offset entry0 entry1 entry2 entry3).2.tlb
        = proc.tlb) ∧
    (∀ (m : memphy_struct) (st : Int → BYTE), m.storage = some st →
      (canonical cfg (some m) ↔
        ∀ (v0 : Int) (k : Nat), k < cfg.ENTRIES_PER_SET → slot_valid cfg m st v0 k →
          entry_at st (slot_of cfg v0 k) cfg.VALID_OFFSET = 1 ∧
          (if cfg.BYTE_signed = true then
            decode_int (entry_at st (slot_of cfg v0 k)) cfg.PFN_OFFSET < 128 ∨
              4294967168 ≤ decode_int (entry_at st (slot_of cfg v0 k)) cfg.PFN_OFFSET
          else decode_int (entry_at st (slot_of cfg v0 k)) cfg.PFN_OFFSET < 256))) := by
  refine ⟨?_, ?_, ?_, fun m st hst => canonical_iff cfg m st hst⟩
  · intro m st pid vpn f value entry0 entry1 hst hc h0 hhit
    exact tlb_cache_write_back cfg hwf m st hst pid vpn f value entry0 entry1 hc h0 hhit
  · intro mp hr
    induction hr with
    | init m st hst hall =>
      intro m' st' hm' hst' v0 k hk hvalid
      simp only [Option.some.injEq] at hm'
      subst hm'
      rw [hst] at hst'
      simp only [Option.some.injEq] at hst'
      subst hst'
      exact absurd hvalid (hall v0 k hk)
    | insert mp pid pgnum value entry0 _ ih =>
      exact canonical_write cfg hwf mp pid pgnum value entry0 ih
  · intro ext proc m st data destination offset entry0 entry1 entry2 entry3 htlb hst hc h0 hhit
    exact tlbwrite_hit_keeps_cache cfg hwf ext proc m st htlb hst data destination offset entry0
      entry1 entry2 entry3 hc h0 hhit

/-- C19 at a concrete input: on the device reached from the zeroed `dev104` by the insert
of `(1, 5, 10)`, the lookup of `(1, 5)` finds 10 and writing 10 back returns the same
device. -/
theorem C19_write_back_noop_witness :
    tlb_cache_read cfg42 (tlb_cache_write cfg42 (some dev104) 1 5 10 zero_entry).2 1 5 0
      zero_entry = (0, 10) ∧
    tlb_cache_write cfg42 (tlb_cache_write cfg42 (some dev104) 1 5 10 zero_entry).2 1 5 10
      zero_entry = (0, (tlb_cache_write cfg42 (some dev104) 1 5 10 zero_entry).2) := by
  have hreach : reachable cfg42 (tlb_cache_write cfg42 (some dev104) 1 5 10 zero_entry).2 :=
    reachable.insert _ 1 5 10 zero_entry
      (reachable.init dev104 (fun _ => 0) rfl (fun _ _ _ h => h.2 rfl))
  have hread : tlb_cache_read cfg42 (tlb_cache_write cfg42 (some dev104) 1 5 10 zero_entry).2 1 5
      0 zero_entry = (0, 10) := by
    decide
  obtain ⟨st', hres, _⟩ :=
    tlb_cache_write_frame cfg42 (by decide) dev104 (fun _ => 0) rfl 1 5 10 zero_entry
  refine ⟨hread, ?_⟩
  rw [hres] at hreach hread ⊢
  exact (C19_write_back_noop cfg42 (by decide)).1 _ st' 1 5 10 0 zero_entry zero_entry rfl
    ((C19_write_back_noop cfg42 (by decide)).2.1 _ hreach)
    ((in_device_with_storage cfg42 dev104 st' _).mpr (by decide)) hread

/-- C19 fails as stated, in four ways. In `dev_pfn300` the lookup of `(1, 5)` hits with the
byte 44 of the frame number 300, and writing 44 back changes the second byte of the
frame-number field (offset 35) from 1 to 0. In `dev_pfn200`, with the signed `BYTE` of
`cfg42`, the lookup hits with the byte 200, and writing it back stores its sign extension:
the byte at offset 35 changes from 0 to 255. In `dev_valid2` the record is valid with the
validity byte 2, the lookup hits with 10, and writing 10 back changes the validity byte
(offset 38) from 2 to 1. On the available device `dev64`, which does not hold the set of
page 7, the lookup of `(1, 7)` hits when its local array holds `stale_entry`, and the
write-back fails with `-1` when its local array holds `other_entry`. -/
theorem C19_write_back_changes_store :
    (tlb_cache_read cfg42 (some dev_pfn300) 1 5 0 zero_entry = (0, 44) ∧
      (tlb_cache_write cfg42 (some dev_pfn300) 1 5 44 zero_entry).1 = 0 ∧
      byte_of (some dev_pfn300) 35 = some 1 ∧
      byte_of (tlb_cache_write cfg42 (some dev_pfn300) 1 5 44 zero_entry).2 35 = some 0) ∧
    (cfg42.BYTE_signed = true ∧
      tlb_cache_read cfg42 (some dev_pfn200) 1 5 0 zero_entry = (0, 200) ∧
      (tlb_cache_write cfg42 (some dev_pfn200) 1 5 200 zero_entry).1 = 0 ∧
      byte_of (some dev_pfn200) 35 = some 0 ∧
      byte_of (tlb_cache_write cfg42 (some dev_pfn200) 1 5 200 zero_entry).2 35 = some 255) ∧
    (tlb_cache_read cfg42 (some dev_valid2) 1 5 0 zero_entry = (0, 10) ∧
      (tlb_cache_write cfg42 (some dev_valid2) 1 5 10 zero_entry).1 = 0 ∧
      byte_of (some dev_valid2) 38 = some 2 ∧
      byte_of (tlb_cache_write cfg42 (some dev_valid2) 1 5 10 zero_entry).2 38 = some 1) ∧
    (dev64.storage.isSome = true ∧
      tlb_cache_read cfg42 (some dev64) 1 7 0 stale_entry = (0, 10) ∧
      (tlb_cache_write cfg42 (some dev64) 1 7 10 other_entry).1 = -1) := by
  decide

/-- C20, as amended: when the queue holds fewer processes than its array has entries and its processes
are in non-increasing order of priority, `enqueue` returns with the size grown by one; the
new contents are the old ones, in their order, with `proc` put in between; the new queue
is again in non-increasing order of priority; every process in front of `proc` has a
greater priority and every process behind it has a priority that is not greater. -/
theorem C20_enqueue_keeps_order (MAX_QUEUE_SIZE : Nat) (q : queue_t) (proc : pcb_t)
    (l : List pcb_t) (hroom : q.size < MAX_QUEUE_SIZE)
    (hq : queue_list q = l.map some) (hs : prio_sorted l) :
    ∃ (q' : queue_t) (front back : List pcb_t),
      enqueue MAX_QUEUE_SIZE q proc = some q' ∧
      q'.size = q.size + 1 ∧
      l = front ++ back ∧
      queue_list q' = (front ++ proc :: back).map some ∧
      (front ++ proc :: back).Perm (proc :: l) ∧
      prio_sorted (front ++ proc :: back) ∧
      (∀ x, x ∈ front → proc.priority < x.priority) ∧
      (∀ x, x ∈ back → x.priority ≤ proc.priority) := by
  obtain ⟨q', f, b, h1, h2, h3, h4, h5, h6⟩ := enqueue_spec MAX_QUEUE_SIZE q proc l hroom hq
  subst h3
  obtain ⟨hall, hsorted⟩ := prio_sorted_insert proc f b hs h5 h6
  exact ⟨q', f, b, h1, h2, rfl, h4, List.perm_middle, hsorted, h5, hall⟩

/-- C20 at a concrete input: process 3 of priority 5 is enqueued in a queue of priorities 5 and 3,
in an array of four entries. -/
theorem C20_enqueue_keeps_order_witness :
    queue53.size < 4 ∧
    queue_list queue53 = [mk_proc 1 5, mk_proc 2 3].map some ∧
    prio_sorted [mk_proc 1 5, mk_proc 2 3] ∧
    ∃ (q' : queue_t) (front back : List pcb_t),
      enqueue 4 queue53 (mk_proc 3 5) = some q' ∧
      q'.size = queue53.size + 1 ∧
      [mk_proc 1 5, mk_proc 2 3] = front ++ back ∧
      queue_list q' = (front ++ mk_proc 3 5 :: back).map some ∧
      (front ++ mk_proc 3 5 :: back).Perm (mk_proc 3 5 :: [mk_proc 1 5, mk_proc 2 3]) ∧
      prio_sorted (front ++ mk_proc 3 5 :: back) ∧
      (∀ x, x ∈ front → (mk_proc 3 5).priority < x.priority) ∧
      (∀ x, x ∈ back → x.priority ≤ (mk_proc 3 5).priority) := by
  have hs : prio_sorted [mk_proc 1 5, mk_proc 2 3] := by
    unfold prio_sorted
    simp [mk_proc]
  exact ⟨by decide, rfl, hs,
    C20_enqueue_keeps_order 4 queue53 (mk_proc 3 5) [mk_proc 1 5, mk_proc 2 3] (by decide)
      rfl hs⟩

/-- C20 fails as stated: `enqueue` on a queue that is in priority order and fills its
array of two entries stores past the end of the array, so the call has no outcome. -/
theorem C20_full_queue_overflows :
    queue_list queue53 = [mk_proc 1 5, mk_proc 2 3].map some ∧
    prio_sorted [mk_proc 1 5, mk_proc 2 3] ∧
    enqueue 2 queue53 (mk_proc 3 4) = none := by
  refine ⟨rfl, ?_, rfl⟩
  unfold prio_sorted
  simp [mk_proc]

/-- C21: for `0 <= prio < MAX_PRIO`, `get_mlq_proc` ends within `MAX_PRIO` iterations of
its loop; the levels it visits are `prio`, `prio + 1`, ... taken modulo `MAX_PRIO`, each
at most once, and all but the last visited have an empty queue. When all queues are
empty it returns NULL and leaves every queue as it is; otherwise the last level visited
is the first one at or cyclically after `prio` with a non-empty queue, the head of that
queue is returned, that queue is the one `dequeue` leaves, every other queue is
unchanged, and the level is saved in `prio`. When the non-empty queues hold processes,
NULL is returned if and only if all queues are empty. -/
theorem C21_mlq_selection ( MAX_PRIO fuel : Nat) (s : sched_state)
    (hp : s.prio < MAX_PRIO) (hfuel : MAX_PRIO ≤ fuel) :
    ∃ (r : mlq_result) (k : Nat),
      get_mlq_proc MAX_PRIO fuel s = some r ∧
      0 < k ∧ k ≤ MAX_PRIO ∧
      r.visited = (List.range k).map (fun t => (s.prio + t) % MAX_PRIO) ∧
      r.visited.Nodup ∧
      (∀ t, t < k - 1 → (s.mlq_ready_queue ((s.prio + t) % MAX_PRIO)).size = 0) ∧
      ((∀ i, i < MAX_PRIO → (s.mlq_ready_queue i).size = 0) →
        r.proc = none ∧ r.state.mlq_ready_queue = s.mlq_ready_queue) ∧
      ((∃ i, i < MAX_PRIO ∧ (s.mlq_ready_queue i).size ≠ 0) →
        (s.mlq_ready_queue ((s.prio + (k - 1)) % MAX_PRIO)).size ≠ 0 ∧
        r.proc = (s.mlq_ready_queue ((s.prio + (k - 1)) % MAX_PRIO)).proc 0 ∧
        r.state.mlq_ready_queue ((s.prio + (k - 1)) % MAX_PRIO)
          = (dequeue (s.mlq_ready_queue ((s.prio + (k - 1)) % MAX_PRIO))).2 ∧
        (∀ i, i ≠ (s.prio + (k - 1)) % MAX_PRIO →
          r.state.mlq_ready_queue i = s.mlq_ready_queue i) ∧
        r.state.prio = (s.prio + (k - 1)) % MAX_PRIO) ∧
      ((∀ i, i < MAX_PRIO → (s.mlq_ready_queue i).size ≠ 0 →
          (s.mlq_ready_queue i).proc 0 ≠ none) →
        (r.proc = none ↔ ∀ i, i < MAX_PRIO → (s.mlq_ready_queue i).size = 0)) := by
  obtain ⟨r, k, h1, h2, h3, h4, h5, h6⟩ := get_mlq_proc_loop_spec MAX_PRIO s.prio hp
    s.mlq_ready_queue fuel 0 s.slot [] (by omega) (by omega) (fun t ht => absurd ht (by omega))
  rw [Nat.add_zero, Nat.mod_eq_of_lt hp] at h1
  have hvis : r.visited = (List.range k).map (fun t => (s.prio + t) % MAX_PRIO) := by
    rw [h4, List.range_eq_range']
    simp
  have hlast : (s.prio + (k - 1)) % MAX_PRIO < MAX_PRIO := mod_shift_lt MAX_PRIO s.prio _ hp
  refine ⟨r, k, h1, h2, h3, hvis, ?_, h5, ?_, ?_, ?_⟩
  · rw [hvis]
    refine List.Nodup.map_on ?_ (List.nodup_range k)
    intro x hx y hy hxy
    exact mod_shift_inj MAX_PRIO s.prio x y hp (by have := List.mem_range.mp hx; omega)
      (by have := List.mem_range.mp hy; omega) hxy
  · intro hall
    rcases h6 with ⟨_, _, h8, h9, _⟩ | ⟨h7, _⟩
    · exact ⟨h8, h9⟩
    · exact absurd (hall _ hlast) h7
  · intro hex
    rcases h6 with ⟨h7, h8, _⟩ | ⟨h7, h8, h9, h10⟩
    · obtain ⟨i, hi, hne⟩ := hex
      obtain ⟨t, ht, hti⟩ := mod_shift_surj MAX_PRIO s.prio i hp hi
      exfalso
      apply hne
      rw [← hti]
      by_cases htk : t < k - 1
      · exact h5 t htk
      · have : t = k - 1 := by omega
        rw [this]
        exact h7
    · refine ⟨h7, h8, ?_, ?_, h10⟩
      · rw [h9, Function.update_same]
      · intro i hi
        rw [h9, Function.update_noteq hi]
  · intro hwf
    rcases h6 with ⟨h7, h8, h9, _⟩ | ⟨h7, h8, _⟩
    · refine ⟨fun _ => ?_, fun _ => h9⟩
      intro i hi
      obtain ⟨t, ht, hti⟩ := mod_shift_surj MAX_PRIO s.prio i hp hi
      rw [← hti]
      by_cases htk : t < k - 1
      · exact h5 t htk
      · have : t = k - 1 := by omega
        rw [this]
        exact h7
    · refine ⟨fun hnone => ?_, fun hall => absurd (hall _ hlast) h7⟩
      rw [h8] at hnone
      exact absurd hnone (hwf _ hlast h7)

/-- C21 at a concrete input: three levels, the queues of levels 0 and 1 empty, level 2
holding `queue53`, saved index 1. -/
theorem C21_mlq_selection_witness :
    sched3.prio < 3 ∧ 3 ≤ 3 ∧
    ∃ (r : mlq_result) (k : Nat),
      get_mlq_proc 3 3 sched3 = some r ∧
      0 < k ∧ k ≤ 3 ∧
      r.visited = (List.range k).map (fun t => (sched3.prio + t) % 3) ∧
      r.visited.Nodup ∧
      (∀ t, t < k - 1 → (sched3.mlq_ready_queue ((sched3.prio + t) % 3)).size = 0) ∧
      ((∀ i, i < 3 → (sched3.mlq_ready_queue i).size = 0) →
        r.proc = none ∧ r.state.mlq_ready_queue = sched3.mlq_ready_queue) ∧
      ((∃ i, i < 3 ∧ (sched3.mlq_ready_queue i).size ≠ 0) →
        (sched3.mlq_ready_queue ((sched3.prio + (k - 1)) % 3)).size ≠ 0 ∧
        r.proc = (sched3.mlq_ready_queue ((sched3.prio + (k - 1)) % 3)).proc 0 ∧
        r.state.mlq_ready_queue ((sched3.prio + (k - 1)) % 3)
          = (dequeue (sched3.mlq_ready_queue ((sched3.prio + (k - 1)) % 3))).2 ∧
        (∀ i, i ≠ (sched3.prio + (k - 1)) % 3 →
          r.state.mlq_ready_queue i = sched3.mlq_ready_queue i) ∧
        r.state.prio = (sched3.prio + (k - 1)) % 3) ∧
      ((∀ i, i < 3 → (sched3.mlq_ready_queue i).size ≠ 0 →
          (sched3.mlq_ready_queue i).proc 0 ≠ none) →
        (r.proc = none ↔ ∀ i, i < 3 → (sched3.mlq_ready_queue i).size = 0)) :=
  ⟨by decide, by decide, C21_mlq_selection 3 3 sched3 (by decide) (by decide)⟩

end TLB
